import Mathlib

/-!
# VARIANCE: recommendation parsing, paired-section parsing, scoring and score state

A shallow embedding of the pure parts of the VARIANCE add-on
(`sandbox/scoring.js`, `sandbox/code.js`, `index.js`) and theorems about them.

## Conventions of the embedding

* A JavaScript string is the list of its UTF-16 code units (`JS.Str = List Nat`),
  so that `length`, regular expressions without the `u` flag and `substring`
  count what the engine counts.  `JS.str` encodes a Lean string literal.
* A regular expression literal is written as a term of `JS.Re`, constructor by
  constructor; `JS.Re.run` is the backtracking matcher of ECMAScript (greedy
  quantifiers, ordered alternation), returning every way to match in the order
  in which backtracking would try them, and `JS.Re.exec` is the leftmost search
  of `String.prototype.match` and `RegExp.prototype.test` without the `g` flag.
* Numbers that the source keeps as doubles are exact here: integers are `Nat`
  or `Int`, colour channels are `Rat`.  Every ratio test `a / b > t` of the
  source is written as the equivalent comparison of integers.
-/

namespace JS

/-- A JavaScript string, as its list of UTF-16 code units. -/
abbrev Str := List Nat

/-- The UTF-16 code units of one Unicode scalar value. -/
def utf16 (c : Char) : List Nat :=
  if c.toNat < 65536 then [c.toNat]
  else [55296 + (c.toNat - 65536) / 1024, 56320 + (c.toNat - 65536) % 1024]

/-- The JavaScript string denoted by a string literal. -/
def str (s : String) : Str := s.toList.flatMap utf16

/-- White space and line terminators: the class `\s`, also what `trim` strips. -/
def isWs (c : Nat) : Bool :=
  c == 9 || c == 10 || c == 11 || c == 12 || c == 13 || c == 32 || c == 160 ||
  c == 5760 || (8192 ≤ c && c ≤ 8202) || c == 8232 || c == 8233 || c == 8239 ||
  c == 8287 || c == 12288 || c == 65279

/-- The class `\d`. -/
def isDigit (c : Nat) : Bool := 48 ≤ c && c ≤ 57

/-- The ASCII capital letters. -/
def isUpper (c : Nat) : Bool := 65 ≤ c && c ≤ 90

/-- The ASCII small letters. -/
def isLower (c : Nat) : Bool := 97 ≤ c && c ≤ 122

/-- The class `[a-zA-Z]`. -/
def isLatin (c : Nat) : Bool := isUpper c || isLower c

/-- The class `\w`. -/
def isWord (c : Nat) : Bool := isLatin c || isDigit c || c == 95

/-- The class `[0-9a-f]` under the `i` flag. -/
def isHex (c : Nat) : Bool := isDigit c || (97 ≤ c && c ≤ 102) || (65 ≤ c && c ≤ 70)

/-- Lower case of one code unit.  ASCII capitals are shifted; U+0130 and U+212A
are the two characters outside ASCII whose lower case contains an ASCII unit.
Every other unit outside ASCII is kept: its lower case is again outside ASCII
and is neither white space nor a word character, and no pattern or keyword of
the program tells two such units apart. -/
def lowerUnit (c : Nat) : List Nat :=
  if isUpper c then [c + 32]
  else if c = 304 then [105, 775]
  else if c = 8490 then [107]
  else [c]

/-- The method `String.prototype.toLowerCase`. -/
def toLowerCase (s : Str) : Str := s.flatMap lowerUnit

/-- The position of the first occurrence of `pat` in `s`, counted from `i`. -/
def indexOfFrom (pat : Str) : Str → Nat → Option Nat
  | [], i => if pat.isPrefixOf [] then some i else none
  | x :: xs, i => if pat.isPrefixOf (x :: xs) then some i else indexOfFrom pat xs (i + 1)

/-- The method `String.prototype.indexOf`; `none` stands for `-1`. -/
def indexOf (s pat : Str) : Option Nat := indexOfFrom pat s 0

/-- The method `String.prototype.includes`. -/
def includes (s pat : Str) : Bool := (indexOf s pat).isSome

/-- The method `String.prototype.startsWith`. -/
def startsWith (s pat : Str) : Bool := pat.isPrefixOf s

/-- The method `String.prototype.substring`: the two indices are swapped when
the first is the greater. -/
def substring (s : Str) (i j : Nat) : Str := (s.take (max i j)).drop (min i j)

/-- The method `String.prototype.trim`. -/
def trim (s : Str) : Str := ((s.dropWhile isWs).reverse.dropWhile isWs).reverse

/-- The call `s.split(sep)` for a separator of one code unit. -/
def splitOn (sep : Nat) : Str → List Str
  | [] => [[]]
  | x :: xs =>
    if x = sep then [] :: splitOn sep xs
    else match splitOn sep xs with
      | l :: ls => (x :: l) :: ls
      | [] => [[x]]

/-- The call `parts.join(sep)`. -/
def join (sep : Str) : List Str → Str
  | [] => []
  | [a] => a
  | a :: b :: rest => a ++ sep ++ join sep (b :: rest)

/-- Value of one hexadecimal digit. -/
def hexDigit (c : Nat) : Nat :=
  if isDigit c then c - 48 else if 97 ≤ c then c - 87 else c - 55

/-- The call `parseInt(s, 16)` on a string of hexadecimal digits. -/
def parseHex (s : Str) : Nat := s.foldl (fun acc c => 16 * acc + hexDigit c) 0

/-- The call `parseInt(s)` on a string of decimal digits. -/
def parseDec (s : Str) : Nat := s.foldl (fun acc c => 10 * acc + (c - 48)) 0

/-! ### Regular expressions -/

/-- The regular expressions that occur in the program. -/
inductive Re where
  | eps : Re
  | cls (p : Nat → Bool) : Re
  | seq (a b : Re) : Re
  | alt (a b : Re) : Re
  | star (a : Re) : Re
  | lazyStar (a : Re) : Re
  | grp (n : Nat) (a : Re) : Re
  | bol : Re
  | eol : Re
  | wordB : Re

/-- A position of the matcher inside the subject string. -/
structure Cur where
  /-- The code units already passed, the nearest first. -/
  before : List Nat
  /-- The code units still ahead. -/
  after : List Nat
  /-- The capture groups closed so far, the latest first. -/
  caps : List (Nat × Str)

/-- The code units passed between cursor `c` and a later cursor `d`. -/
def Cur.span (c d : Cur) : Str :=
  (d.before.take (d.before.length - c.before.length)).reverse

/-- Whether the unit next to a position, if any, is a word character. -/
def wordSide : List Nat → Bool
  | [] => false
  | x :: _ => isWord x

/-- Greedy iteration of a step that must consume input; `n` bounds the number
of iterations by the number of units ahead. -/
def starLoop (step : Cur → List Cur) : Nat → Cur → List Cur
  | 0, c => [c]
  | n + 1, c =>
    ((step c).filter (fun d => d.after.length < c.after.length)).flatMap (starLoop step n) ++ [c]

/-- Lazy iteration: stopping is tried before one more round. -/
def lazyLoop (step : Cur → List Cur) : Nat → Cur → List Cur
  | 0, c => [c]
  | n + 1, c =>
    c :: ((step c).filter (fun d => d.after.length < c.after.length)).flatMap (lazyLoop step n)

/-- All matches of a pattern that start at a cursor, in backtracking order. -/
def Re.run : Re → Cur → List Cur
  | .eps => fun c => [c]
  | .cls p => fun c =>
    match c.after with
    | [] => []
    | x :: xs => if p x then [⟨x :: c.before, xs, c.caps⟩] else []
  | .seq a b => fun c => (a.run c).flatMap b.run
  | .alt a b => fun c => a.run c ++ b.run c
  | .star a => fun c => starLoop a.run c.after.length c
  | .lazyStar a => fun c => lazyLoop a.run c.after.length c
  | .grp n a => fun c => (a.run c).map (fun d => ⟨d.before, d.after, (n, c.span d) :: d.caps⟩)
  | .bol => fun c => if c.before.isEmpty then [c] else []
  | .eol => fun c => if c.after.isEmpty then [c] else []
  | .wordB => fun c => if wordSide c.before != wordSide c.after then [c] else []

/-- The result of a successful search. -/
structure Match where
  /-- The index at which the match starts. -/
  index : Nat
  /-- The matched text, `m[0]`. -/
  whole : Str
  /-- The capture groups. -/
  caps : List (Nat × Str)

/-- The capture group `m[n]`; `none` stands for `undefined`. -/
def Match.group (m : Match) (n : Nat) : Option Str :=
  (m.caps.find? (fun e => e.1 == n)).map (fun e => e.2)

/-- Leftmost search from a position with `before` behind it. -/
def Re.execFrom (r : Re) : List Nat → List Nat → Option Match
  | before, [] =>
    match r.run ⟨before, [], []⟩ with
    | d :: _ => some ⟨before.length, Cur.span ⟨before, [], []⟩ d, d.caps⟩
    | [] => none
  | before, x :: xs =>
    match r.run ⟨before, x :: xs, []⟩ with
    | d :: _ => some ⟨before.length, Cur.span ⟨before, x :: xs, []⟩ d, d.caps⟩
    | [] => r.execFrom (x :: before) xs

/-- The call `s.match(r)` (or `r.exec(s)`) for a pattern without the `g` flag. -/
def Re.exec (r : Re) (s : Str) : Option Match := r.execFrom [] s

/-- The call `r.test(s)`, also the truth value of `s.match(r)`. -/
def Re.test (r : Re) (s : Str) : Bool := (r.exec s).isSome

/-- Removal of every match: `s.replace(r, '')` for a pattern with the `g` flag.
The counter is the number of units of the current match still to be dropped. -/
def Re.removeAllFrom (r : Re) : List Nat → List Nat → Nat → Str
  | _, [], _ => []
  | before, x :: xs, k + 1 => r.removeAllFrom (x :: before) xs k
  | before, x :: xs, 0 =>
    match r.run ⟨before, x :: xs, []⟩ with
    | d :: _ =>
      match (Cur.span ⟨before, x :: xs, []⟩ d).length with
      | 0 => x :: r.removeAllFrom (x :: before) xs 0
      | k + 1 => r.removeAllFrom (x :: before) xs k
    | [] => x :: r.removeAllFrom (x :: before) xs 0

/-- The call `s.replace(r, '')` for a pattern with the `g` flag. -/
def Re.removeAll (r : Re) (s : Str) : Str := r.removeAllFrom [] s 0

/-- One code unit, exactly. -/
def Re.unit (c : Nat) : Re := .cls (fun x => x == c)

/-- The texts that a pattern can pass over, the assertions `^`, `$` and `\b`
read as the empty pattern. -/
def Re.Lang : Re → Str → Prop
  | .eps, w => w = []
  | .cls p, w => ∃ x, w = [x] ∧ p x = true
  | .seq a b, w => ∃ u v, w = u ++ v ∧ a.Lang u ∧ b.Lang v
  | .alt a b, w => a.Lang w ∨ b.Lang w
  | .star a, w => ∃ ws : List Str, w = ws.flatten ∧ ∀ u ∈ ws, a.Lang u
  | .lazyStar a, w => ∃ ws : List Str, w = ws.flatten ∧ ∀ u ∈ ws, a.Lang u
  | .grp _ a, w => a.Lang w
  | .bol, w => w = []
  | .eol, w => w = []
  | .wordB, w => w = []

/-- Every capture group of the pattern can only capture texts that satisfy `Q`. -/
def Re.CapsSat (Q : Nat → Str → Prop) : Re → Prop
  | .seq a b => a.CapsSat Q ∧ b.CapsSat Q
  | .alt a b => a.CapsSat Q ∧ b.CapsSat Q
  | .star a => a.CapsSat Q
  | .lazyStar a => a.CapsSat Q
  | .grp n a => (∀ w, a.Lang w → Q n w) ∧ a.CapsSat Q
  | _ => True

/-- Whether unit `x` matches the pattern character `c` under the `i` flag: an
ASCII letter matches in both cases, any other unit matches itself. -/
def eqI (c x : Nat) : Bool :=
  x == c || (isLower c && x + 32 == c) || (isUpper c && x == c + 32)

/-- One character of a pattern under the `i` flag. -/
def Re.unitI (c : Nat) : Re := .cls (eqI c)

/-- Patterns in sequence. -/
def Re.seqs : List Re → Re
  | [] => .eps
  | [a] => a
  | a :: rest => .seq a (Re.seqs rest)

/-- Patterns as ordered alternatives. -/
def Re.alts : List Re → Re
  | [] => .cls (fun _ => false)
  | [a] => a
  | a :: rest => .alt a (Re.alts rest)

/-- A literal text. -/
def Re.lit (s : String) : Re := Re.seqs ((str s).map Re.unit)

/-- A literal text under the `i` flag. -/
def Re.litI (s : String) : Re := Re.seqs ((str s).map Re.unitI)

/-- The quantifier `+`. -/
def Re.plus (a : Re) : Re := .seq a (.star a)

/-- The quantifier `?`. -/
def Re.opt (a : Re) : Re := .alt a .eps

/-- The quantifier `{n}`. -/
def Re.rep : Nat → Re → Re
  | 0, _ => .eps
  | n + 1, a => .seq a (Re.rep n a)

/-- The class `\s`. -/
def Re.ws : Re := .cls isWs

/-- The class `\w`. -/
def Re.word : Re := .cls isWord

/-- The class `\d`. -/
def Re.digit : Re := .cls isDigit

/-- The class `[0-9a-f]` under the `i` flag. -/
def Re.hex : Re := .cls isHex

/-- Ordered alternatives of literal texts under the `i` flag. -/
def Re.wordsI (ws : List String) : Re := Re.alts (ws.map Re.litI)

end JS

namespace Variance

open JS

/-! ### Recommendation classifier (`sandbox/code.js`) -/

/-- A colour as the editor takes it: channels between 0 and 1. -/
structure Color where
  red : Rat
  green : Rat
  blue : Rat
  alpha : Rat
deriving DecidableEq

/-- The value of `extractFontSizeFromRecommendation`: a size in pixels or one
of the relative markers. -/
inductive FontSize where
  | px (n : Nat) : FontSize
  | larger : FontSize
  | smaller : FontSize
deriving DecidableEq

/-- The record returned by `parseRecommendation`, one constructor for each
value of its `type` field. -/
inductive Parsed where
  | color (color : Color) : Parsed
  | visual (element : Str) : Parsed
  | border (recommendationText : Str) : Parsed
  | fontSize (fontSize : FontSize) : Parsed
  | fontFamily (fontName : Str) : Parsed
  | text (text : Str) : Parsed
deriving DecidableEq

/-- The field `type` of a parsed recommendation. -/
def Parsed.type : Parsed → Str
  | .color _ => str "color"
  | .visual _ => str "visual"
  | .border _ => str "border"
  | .fontSize _ => str "fontSize"
  | .fontFamily _ => str "fontFamily"
  | .text _ => str "text"

/-- The pattern `/#[0-9a-f]{6}/i`. -/
def reHexCode : Re := .seq (.unit 35) (Re.rep 6 Re.hex)

/-- The pattern `/#([0-9a-f]{6})/i`. -/
def reHexGroup : Re := .seq (.unit 35) (.grp 1 (Re.rep 6 Re.hex))

/-- The pattern `/rgb\(/i`. -/
def reRgbOpen : Re := Re.litI "rgb("

/-- The pattern `/use\s+\w+\s+color/i`. -/
def reUseColor : Re :=
  Re.seqs [Re.litI "use", Re.plus Re.ws, Re.plus Re.word, Re.plus Re.ws, Re.litI "color"]

/-- The pattern `/change\s+color/i`. -/
def reChangeColor : Re := Re.seqs [Re.litI "change", Re.plus Re.ws, Re.litI "color"]

/-- The fragment `(?:a\s+|an\s+)?`. -/
def reArticle : Re :=
  Re.opt (.alt (.seq (Re.litI "a") (Re.plus Re.ws)) (.seq (Re.litI "an") (Re.plus Re.ws)))

/-- The fragment `(?:decorative\s+|geometric\s+)?`. -/
def reDecor : Re :=
  Re.opt (.alt (.seq (Re.litI "decorative") (Re.plus Re.ws))
    (.seq (Re.litI "geometric") (Re.plus Re.ws)))

/-- The pattern
`/\b(add|create|include|insert)\s+(?:a\s+|an\s+)?(?:decorative\s+|geometric\s+)?/i`. -/
def reVisualAction : Re :=
  Re.seqs [.wordB, .grp 1 (Re.wordsI ["add", "create", "include", "insert"]), Re.plus Re.ws,
    reArticle, reDecor]

/-- The patterns
`/VERB\s+(?:a\s+|an\s+)?(?:decorative\s+|geometric\s+)?(?:circle|rectangle|square|triangle|shape|element)/i`
for the verbs add, create and include. -/
def reVisualShape (verb : String) : Re :=
  Re.seqs [Re.litI verb, Re.plus Re.ws, reArticle, reDecor,
    Re.wordsI ["circle", "rectangle", "square", "triangle", "shape", "element"]]

/-- The three patterns of `borderPatterns`. -/
def borderPatterns : List Re :=
  [ Re.seqs [Re.wordsI ["add", "create", "integrate", "include"], Re.plus Re.ws, reArticle,
      Re.opt (Re.alts [Re.litI "thin", Re.litI "thick",
        Re.seqs [Re.litI "professional", Re.opt (.cls (fun x => x == 45 || isWs x)),
          Re.litI "grade"]]),
      .star Re.ws, Re.opt (.seq (Re.litI "dark") (Re.plus Re.ws)),
      Re.opt (Re.wordsI ["blue", "red", "green", "black", "white", "gray", "grey"]),
      .star Re.ws, Re.litI "border"],
    Re.seqs [Re.litI "border", Re.plus Re.ws, Re.litI "around"],
    Re.seqs [Re.wordsI ["thin", "thick"], Re.plus Re.ws, Re.litI "border"] ]

/-- The pattern `/(\d+)\s*(pt|px)/i`; the test `/\d+\s*(pt|px)/i` of
`parseRecommendation` differs only in the numbering of its groups. -/
def reSizeWithUnit : Re :=
  Re.seqs [.grp 1 (Re.plus Re.digit), .star Re.ws, .grp 2 (Re.wordsI ["pt", "px"])]

/-- The pattern `/font\s+size\s+to\s+\d+/i`. -/
def reFontSizeTo : Re :=
  Re.seqs [Re.litI "font", Re.plus Re.ws, Re.litI "size", Re.plus Re.ws, Re.litI "to",
    Re.plus Re.ws, Re.plus Re.digit]

/-- The pattern `/(?:font\s+size\s+to|set\s+font\s+to|font\s+to)\s+(\d+)/i`. -/
def reSizePattern : Re :=
  Re.seqs [Re.alts [
      Re.seqs [Re.litI "font", Re.plus Re.ws, Re.litI "size", Re.plus Re.ws, Re.litI "to"],
      Re.seqs [Re.litI "set", Re.plus Re.ws, Re.litI "font", Re.plus Re.ws, Re.litI "to"],
      Re.seqs [Re.litI "font", Re.plus Re.ws, Re.litI "to"]],
    Re.plus Re.ws, .grp 1 (Re.plus Re.digit)]

/-- The pattern `/(?:font\s+size|fontsize)\s*[:\s]+(\d+)/i`. -/
def reNumberPattern : Re :=
  Re.seqs [.alt (Re.seqs [Re.litI "font", Re.plus Re.ws, Re.litI "size"]) (Re.litI "fontsize"),
    .star Re.ws, Re.plus (.cls (fun x => x == 58 || isWs x)), .grp 1 (Re.plus Re.digit)]

/-- The pattern `/like\s+\w+\s+or\s+\w+/i`. -/
def reLikeOr : Re :=
  Re.seqs [Re.litI "like", Re.plus Re.ws, Re.plus Re.word, Re.plus Re.ws, Re.litI "or",
    Re.plus Re.ws, Re.plus Re.word]

/-- The pattern `/like\s+(\w+)(?:\s+or\s+\w+)?/i`. -/
def reLikePattern : Re :=
  Re.seqs [Re.litI "like", Re.plus Re.ws, .grp 1 (Re.plus Re.word),
    Re.opt (Re.seqs [Re.plus Re.ws, Re.litI "or", Re.plus Re.ws, Re.plus Re.word])]

/-- The pattern `/(?:switch|change|use|apply)\s+(?:the\s+)?font\s+to\s+(\w+)/i`. -/
def reSwitchPattern : Re :=
  Re.seqs [Re.wordsI ["switch", "change", "use", "apply"], Re.plus Re.ws,
    Re.opt (.seq (Re.litI "the") (Re.plus Re.ws)), Re.litI "font", Re.plus Re.ws, Re.litI "to",
    Re.plus Re.ws, .grp 1 (Re.plus Re.word)]

/-- The class `[a-z]` under the `i` flag. -/
def reLetterI : Re := .cls isLatin

/-- The pattern `/text\s+in\s+[a-z]+:/i`. -/
def reTextInLang : Re :=
  Re.seqs [Re.litI "text", Re.plus Re.ws, Re.litI "in", Re.plus Re.ws, Re.plus reLetterI,
    .unit 58]

/-- The pattern `/add\s+text\s+in\s+[a-z]+/i`. -/
def reAddTextIn : Re :=
  Re.seqs [Re.litI "add", Re.plus Re.ws, Re.litI "text", Re.plus Re.ws, Re.litI "in",
    Re.plus Re.ws, Re.plus reLetterI]

/-- The pattern `/^(add|create|include|use|change)\s+/i`. -/
def reInstruction : Re :=
  Re.seqs [.bol, .grp 1 (Re.wordsI ["add", "create", "include", "use", "change"]), Re.plus Re.ws]

/-- The class `["']`. -/
def reQuote : Re := .cls (fun x => x == 34 || x == 39)

/-- The class `[^"']`. -/
def reNotQuote : Re := .cls (fun x => !(x == 34 || x == 39))

/-- The pattern `/(?:add\s+)?text\s+in\s+\w+:\s*["']([^"']+)["']/i`. -/
def reLangPattern : Re :=
  Re.seqs [Re.opt (.seq (Re.litI "add") (Re.plus Re.ws)), Re.litI "text", Re.plus Re.ws,
    Re.litI "in", Re.plus Re.ws, Re.plus Re.word, .unit 58, .star Re.ws, reQuote,
    .grp 1 (Re.plus reNotQuote), reQuote]

/-- The pattern `/add\s+(?:this\s+)?text\s*:\s*["']?([^"']+)["']?/i`. -/
def reAddTextPattern : Re :=
  Re.seqs [Re.litI "add", Re.plus Re.ws, Re.opt (.seq (Re.litI "this") (Re.plus Re.ws)),
    Re.litI "text", .star Re.ws, .unit 58, .star Re.ws, Re.opt reQuote,
    .grp 1 (Re.plus reNotQuote), Re.opt reQuote]

/-- The pattern `/add\s*:\s*["']([^"']+)["']/i`. -/
def reSimpleAddPattern : Re :=
  Re.seqs [Re.litI "add", .star Re.ws, .unit 58, .star Re.ws, reQuote,
    .grp 1 (Re.plus reNotQuote), reQuote]

/-- The pattern `/["']([^"']+)["']/`. -/
def reQuoted : Re := Re.seqs [reQuote, .grp 1 (Re.plus reNotQuote), reQuote]

/-- The pattern `/^#[0-9a-f]{6}$/i`. -/
def reOnlyHex : Re := Re.seqs [.bol, .unit 35, Re.rep 6 Re.hex, .eol]

/-- The pattern `/color|colour|rgb/i`. -/
def reColorWord : Re := Re.wordsI ["color", "colour", "rgb"]

/-- The pattern `/:\s*([^:]+)$/`. -/
def reAfterColon : Re :=
  Re.seqs [.unit 58, .star Re.ws, .grp 1 (Re.plus (.cls (fun x => !(x == 58)))), .eol]

/-- The pattern `/^(#[0-9a-f]{6}|rgb\(|use|change)/i`. -/
def reColorOrVerbStart : Re :=
  .seq .bol (.grp 1 (Re.alts [reHexCode, Re.litI "rgb(", Re.litI "use", Re.litI "change"]))

/-- The pattern `/\b(circle|rectangle|square|shape|element)\b/`, without the `i` flag. -/
def reShapeWord : Re :=
  Re.seqs [.wordB,
    .grp 1 (Re.alts [Re.lit "circle", Re.lit "rectangle", Re.lit "square", Re.lit "shape",
      Re.lit "element"]),
    .wordB]

/-- The pattern `/^["']|["']$/g`. -/
def reEdgeQuote : Re := .alt (.seq .bol reQuote) (.seq reQuote .eol)

/-- The pattern `/[^\x00-\x7F]+/`. -/
def reNonAscii : Re := Re.plus (.cls (fun x => !(x ≤ 127)))

/-- The pattern `/rgb\((\d+),\s*(\d+),\s*(\d+)\)/i`. -/
def reRgbTriple : Re :=
  Re.seqs [Re.litI "rgb(", .grp 1 (Re.plus Re.digit), .unit 44, .star Re.ws,
    .grp 2 (Re.plus Re.digit), .unit 44, .star Re.ws, .grp 3 (Re.plus Re.digit), .unit 41]

/-- The function `extractColorFromRecommendation`. -/
def extractColorFromRecommendation (recommendationText : Str) : Color :=
  match (reHexGroup.exec recommendationText).bind (fun m => m.group 1) with
  | some hex =>
    { red := (parseHex (substring hex 0 2) : Rat) / 255,
      green := (parseHex (substring hex 2 4) : Rat) / 255,
      blue := (parseHex (substring hex 4 6) : Rat) / 255,
      alpha := 1 }
  | none =>
    match reRgbTriple.exec recommendationText with
    | some m =>
      { red := (parseDec ((m.group 1).getD []) : Rat) / 255,
        green := (parseDec ((m.group 2).getD []) : Rat) / 255,
        blue := (parseDec ((m.group 3).getD []) : Rat) / 255,
        alpha := 1 }
    | none => { red := 1, green := 6 / 10, blue := 2 / 10, alpha := 1 }

/-- The function `extractFontSizeFromRecommendation`; `none` stands for `null`.
`Math.round(size * 1.2)` is the nearest integer to `6 * size / 5`. -/
def extractFontSizeFromRecommendation (recommendationText : Str) : Option FontSize :=
  if recommendationText.isEmpty then none else
  let text := toLowerCase recommendationText
  match reSizeWithUnit.exec recommendationText with
  | some m =>
    let size := parseDec ((m.group 1).getD [])
    let unit := toLowerCase ((m.group 2).getD [])
    if unit = str "pt" then some (.px ((12 * size + 5) / 10)) else some (.px size)
  | none =>
    match reSizePattern.exec text with
    | some m => some (.px (parseDec ((m.group 1).getD [])))
    | none =>
      match reNumberPattern.exec recommendationText with
      | some m => some (.px (parseDec ((m.group 1).getD [])))
      | none =>
        if includes text (str "larger") || includes text (str "increase") then some .larger
        else if includes text (str "smaller") || includes text (str "decrease") then some .smaller
        else none

/-- The list `fontNames` of `extractFontFamilyFromRecommendation`. -/
def fontNames : List Str :=
  [str "raleway", str "montserrat", str "source sans", str "source sans 3", str "source sans3",
   str "arial", str "times new roman", str "times", str "helvetica", str "georgia",
   str "verdana", str "courier", str "courier new", str "comic sans", str "trebuchet",
   str "tahoma", str "lucida", str "palatino", str "garamond", str "bookman"]

/-- The search `fontNames.find(f => fontName.toLowerCase().includes(f.split(' ')[0]))`. -/
def findKnownFont (fontName : Str) : Option Str :=
  fontNames.find? (fun f => includes (toLowerCase fontName) ((splitOn 32 f).headD []))

/-- The function `extractFontFamilyFromRecommendation`; `none` stands for `null`. -/
def extractFontFamilyFromRecommendation (recommendationText : Str) : Option Str :=
  if recommendationText.isEmpty then none else
  let text := toLowerCase recommendationText
  match reLikePattern.exec text with
  | some m =>
    let fontName := (m.group 1).getD []
    match findKnownFont fontName with
    | some matchedFont => some matchedFont
    | none => some fontName
  | none =>
    match reSwitchPattern.exec text with
    | some m =>
      let fontName := (m.group 1).getD []
      match findKnownFont fontName with
      | some matchedFont => some matchedFont
      | none => some fontName
    | none => fontNames.find? (fun fontName => includes text fontName)

/-- The function `extractElementFromRecommendation`. -/
def extractElementFromRecommendation (recommendationText : Str) : Str :=
  let text := toLowerCase recommendationText
  if includes text (str "circle") || includes text (str "ellipse") then str "circle"
  else if includes text (str "rectangle") || includes text (str "square") then str "rectangle"
  else if includes text (str "triangle") then str "triangle"
  else if includes text (str "decorative") && includes text (str "circle") then str "circle"
  else if includes text (str "geometric") && includes text (str "circle") then str "circle"
  else if includes text (str "shape") || includes text (str "element") then str "rectangle"
  else str "rectangle"

/-- Pattern 4 of `extractTextFromRecommendation`: any quoted text. -/
def extractQuoted (recommendationText : Str) : Option Str :=
  match (reQuoted.exec recommendationText).bind (fun m => m.group 1) with
  | some g =>
    let extracted := trim g
    if g.length > 0 && extracted.length > 2 && !(reOnlyHex.test extracted) &&
        !(reColorWord.test (toLowerCase recommendationText)) then some extracted
    else none
  | none => none

/-- Pattern 5 of `extractTextFromRecommendation`: the text after the last colon. -/
def extractAfterColon (recommendationText : Str) : Option Str :=
  match (reAfterColon.exec recommendationText).bind (fun m => m.group 1) with
  | some g =>
    let afterColon := trim g
    if g.length > 0 && !(reColorOrVerbStart.test afterColon) && afterColon.length > 2 &&
        !(reShapeWord.test (toLowerCase afterColon)) then
      some (trim (reEdgeQuote.removeAll afterColon))
    else none
  | none => none

/-- Pattern 6 of `extractTextFromRecommendation`: a run of units outside ASCII. -/
def extractNonAscii (recommendationText : Str) : Option Str :=
  match reNonAscii.exec recommendationText with
  | some m =>
    let extracted := trim m.whole
    if m.whole.length > 0 && extracted.length > 1 then some extracted else none
  | none => none

/-- The function `extractTextFromRecommendation`. -/
def extractTextFromRecommendation (recommendationText : Str) : Str :=
  if recommendationText.isEmpty then [] else
  match ((reLangPattern.exec recommendationText).bind (fun m => m.group 1)).filter
      (fun g => g.length > 0) with
  | some g => trim g
  | none =>
    match (((reAddTextPattern.exec recommendationText).bind (fun m => m.group 1)).filter
        (fun g => g.length > 0)).filter (fun g => (trim g).length > 0) with
    | some g => trim g
    | none =>
      match ((reSimpleAddPattern.exec recommendationText).bind (fun m => m.group 1)).filter
          (fun g => g.length > 0) with
      | some g => trim g
      | none =>
        match extractQuoted recommendationText with
        | some t => t
        | none =>
          match extractAfterColon recommendationText with
          | some t => t
          | none =>
            match extractNonAscii recommendationText with
            | some t => t
            | none => []

/-- The list `visualKeywords` of `parseRecommendation`. -/
def visualKeywords : List Str :=
  [str "circle", str "rectangle", str "square", str "triangle", str "ellipse", str "shape",
   str "element", str "symbol", str "icon", str "geometric", str "decorative"]

/-- The test `text.match(/#[0-9a-f]{6}/i) || text.match(/rgb\(/i)` on the lower-cased text. -/
def hasColorLiteral (text : Str) : Bool :=
  reHexCode.test text || reRgbOpen.test text

/-- Stage 1 of `parseRecommendation`: both colour tests, on the lower-cased text. -/
def isColorStage (text : Str) : Bool :=
  ((includes text (str "color") || includes text (str "colour")) &&
    (reHexCode.test text || reRgbOpen.test text || reUseColor.test text ||
      reChangeColor.test text)) ||
  hasColorLiteral text

/-- Stage 2 of `parseRecommendation`: the visual-element test, on the lower-cased text. -/
def isVisualStage (text : Str) : Bool :=
  (reVisualAction.test text && visualKeywords.any (fun keyword => includes text keyword)) ||
  (reVisualShape "add").test text || (reVisualShape "create").test text ||
  (reVisualShape "include").test text

/-- Stage 2.5 of `parseRecommendation`: the border test, on the lower-cased text. -/
def isBorderStage (text : Str) : Bool :=
  (includes text (str "border") || includes text (str "outline") ||
    includes text (str "frame")) &&
  borderPatterns.any (fun pattern => pattern.test text)

/-- Stage 2.6 of `parseRecommendation`: the guard of the font-size branch. -/
def isFontSizeGuard (text : Str) : Bool :=
  includes text (str "font") &&
  (includes text (str "size") || includes text (str "larger") ||
    includes text (str "smaller") || reSizeWithUnit.test text || reFontSizeTo.test text)

/-- Stage 2.6 of `parseRecommendation`: the font size that the branch returns,
if it returns. -/
def fontSizeStage (recommendationText text : Str) : Option FontSize :=
  if isFontSizeGuard text then
    match extractFontSizeFromRecommendation recommendationText with
    | some (.px n) => if n > 0 then some (.px n) else none
    | some .larger => some .larger
    | some .smaller => some .smaller
    | none => none
  else none

/-- Stage 2.7 of `parseRecommendation`: the guard of the font-family branch. -/
def isFontFamilyGuard (text : Str) : Bool :=
  includes text (str "font") &&
  (includes text (str "switch") || includes text (str "change") ||
    includes text (str "use") || includes text (str "apply") || reLikeOr.test text)

/-- Stage 2.7 of `parseRecommendation`: the font name that the branch returns,
if it returns. -/
def fontFamilyStage (recommendationText text : Str) : Option Str :=
  if isFontFamilyGuard text then
    match extractFontFamilyFromRecommendation recommendationText with
    | some fontName => if fontName.length > 0 then some fontName else none
    | none => none
  else none

/-- Stage 3 of `parseRecommendation`: the guard of the text branch. -/
def isTextGuard (text : Str) : Bool :=
  (includes text (str "add") && includes text (str "text")) ||
  reTextInLang.test text || reAddTextIn.test text ||
  (includes text (str "change") && includes text (str "text"))

/-- Stage 3 of `parseRecommendation`: the text that the branch returns, if it returns. -/
def textStage (recommendationText text : Str) : Option Str :=
  if isTextGuard text then
    let extractedText := extractTextFromRecommendation recommendationText
    if extractedText.length > 0 && extractedText != recommendationText &&
        extractedText.length > 0 then some extractedText
    else none
  else none

/-- The function `parseRecommendation`. -/
def parseRecommendation (recommendationText : Str) : Parsed :=
  let text := toLowerCase recommendationText
  if isColorStage text then .color (extractColorFromRecommendation recommendationText)
  else if isVisualStage text then .visual (extractElementFromRecommendation recommendationText)
  else if isBorderStage text then .border recommendationText
  else
    match fontSizeStage recommendationText text with
    | some fontSize => .fontSize fontSize
    | none =>
      match fontFamilyStage recommendationText text with
      | some fontName => .fontFamily fontName
      | none =>
        match textStage recommendationText text with
        | some extractedText => .text extractedText
        | none => if reInstruction.test text then .text [] else .text recommendationText

/-- The collaborator call that `addRecommendationToCanvas` issues once its
checks have passed. -/
inductive Dispatch where
  | addTextRecommendation (text : Str) : Dispatch
  | applyColorRecommendation (elementId : Str) (color : Color) : Dispatch
  | createVisualRecommendation (element : Str) : Dispatch
  | applyFontSizeRecommendation (fontSize : FontSize) : Dispatch
  | applyFontFamilyRecommendation (fontName : Str) : Dispatch
  | createBorderAroundText (recommendationText : Str) : Dispatch
deriving DecidableEq

deriving instance DecidableEq for Except

/-- The message with which the `catch` of `addRecommendationToCanvas` throws again. -/
def rethrow (message : Str) : Str := str "Failed to apply recommendation: " ++ message

/-- The function `addRecommendationToCanvas` up to the collaborator call it
issues: `selection` lists the ids of `editor.context.selection`, and
`selectedElementId` is `context.selectedElementId` (`none` when absent or
empty).  An error stands for the exception thrown, with its message. -/
def addRecommendationToCanvas (recommendationText : Str) (selectedElementId : Option Str)
    (selection : List Str) : Except Str Dispatch :=
  match parseRecommendation recommendationText with
  | .color color =>
    match selectedElementId with
    | some elementId => .ok (.applyColorRecommendation elementId color)
    | none =>
      match selection with
      | [] => .error (rethrow (str "Please select an element to apply color"))
      | elementId :: _ => .ok (.applyColorRecommendation elementId color)
  | .text text =>
    if text.isEmpty then
      .error (rethrow
        (str "Could not extract text content from recommendation: " ++ recommendationText))
    else .ok (.addTextRecommendation text)
  | .visual element =>
    if element.isEmpty then
      .error (rethrow
        (str "Could not determine visual element type from recommendation: " ++
          recommendationText))
    else .ok (.createVisualRecommendation element)
  | .fontSize fontSize => .ok (.applyFontSizeRecommendation fontSize)
  | .fontFamily fontName =>
    if fontName.isEmpty then
      .error (rethrow
        (str "Could not extract font family from recommendation: " ++ recommendationText))
    else .ok (.applyFontFamilyRecommendation fontName)
  | .border text =>
    if selection.isEmpty && selectedElementId.isNone then
      .error (rethrow (str "Please select a text element to add a border around"))
    else .ok (.createBorderAroundText (if text.isEmpty then recommendationText else text))

/-! ### Scoring (`sandbox/scoring.js`) -/

/-- Upper case of one code unit.  ASCII small letters are shifted; the other
cases are the characters outside ASCII whose upper case contains an ASCII
unit.  Every other unit outside ASCII is kept: its upper case is again outside
ASCII, which `hexToRgb` rejects whatever the unit is. -/
def upperUnit (c : Nat) : List Nat :=
  if isLower c then [c - 32]
  else if c = 223 then [83, 83]
  else if c = 305 then [73]
  else if c = 329 then [700, 78]
  else if c = 383 then [83]
  else if c = 496 then [74, 780]
  else if c = 7830 then [72, 817]
  else if c = 7831 then [84, 776]
  else if c = 7832 then [87, 778]
  else if c = 7833 then [89, 778]
  else if c = 7834 then [65, 702]
  else if c = 64256 then [70, 70]
  else if c = 64257 then [70, 73]
  else if c = 64258 then [70, 76]
  else if c = 64259 then [70, 70, 73]
  else if c = 64260 then [70, 70, 76]
  else if c = 64261 then [83, 84]
  else if c = 64262 then [83, 84]
  else [c]

/-- The method `String.prototype.toUpperCase`. -/
def toUpperCase (s : Str) : Str := s.flatMap upperUnit

/-- The names that every object literal inherits from `Object.prototype`; the
value found under each of them is a function or an object, never an array. -/
def inheritedNames : List Str :=
  [str "constructor", str "__defineGetter__", str "__defineSetter__", str "hasOwnProperty",
   str "__lookupGetter__", str "__lookupSetter__", str "isPrototypeOf",
   str "propertyIsEnumerable", str "toString", str "valueOf", str "__proto__",
   str "toLocaleString"]

/-- The expression `TABLE[key] || []` for an object literal `TABLE` whose own
values are arrays: the own value, the empty array for an unknown key, and
`none` for the truthy value that is not an array, found under an inherited name. -/
def lookupOrEmpty {α : Type} (table : List (Str × List α)) (key : Str) : Option (List α) :=
  match table.find? (fun e => e.1 == key) with
  | some e => some e.2
  | none => if inheritedNames.contains key then none else some []

/-- The table `REGIONAL_COLORS`. -/
def REGIONAL_COLORS : List (Str × List Str) :=
  [ (str "Tamil Nadu", [str "#FF9933", str "#DC143C", str "#FFD700", str "#228B22", str "#800020"]),
    (str "Maharashtra", [str "#FF9933", str "#800020", str "#FFD700", str "#8B4513"]),
    (str "Delhi", [str "#FF9933", str "#000080", str "#FFFFFF", str "#FFD700"]),
    (str "Karnataka", [str "#FF0000", str "#FFD700", str "#228B22"]),
    (str "Kerala", [str "#FFD700", str "#228B22", str "#800020", str "#FFFFFF"]),
    (str "Gujarat", [str "#FF9933", str "#228B22", str "#FFD700", str "#DC143C"]),
    (str "Rajasthan", [str "#FF9933", str "#DC143C", str "#FFD700", str "#FF1493"]),
    (str "West Bengal", [str "#DC143C", str "#FFD700", str "#FFFFFF"]),
    (str "Punjab", [str "#FF9933", str "#228B22", str "#FFD700"]),
    (str "Andhra Pradesh", [str "#FFD700", str "#DC143C", str "#228B22"]) ]

/-- The table `REGIONAL_KEYWORDS`. -/
def REGIONAL_KEYWORDS : List (Str × List Str) :=
  [ (str "Tamil Nadu", [str "kolam", str "pongal", str "temple", str "tamil", str "chennai",
      str "meenakshi", str "tanjore", str "bharatanatyam"]),
    (str "Maharashtra", [str "warli", str "ganesh", str "mumbai", str "marathi", str "pune",
      str "gateway", str "lavani", str "diwali"]),
    (str "Delhi", [str "india gate", str "lotus temple", str "red fort", str "delhi",
      str "qutub", str "connaught"]),
    (str "Karnataka", [str "mysore", str "bangalore", str "hampi", str "kannada", str "dasara",
      str "karnataka"]),
    (str "Kerala", [str "kathakali", str "onam", str "backwaters", str "kerala", str "kochi",
      str "ayurveda", str "snake boat"]),
    (str "Gujarat", [str "garba", str "navratri", str "ahmedabad", str "gujarati",
      str "dandiya", str "rann"]),
    (str "Rajasthan", [str "jaipur", str "hawa mahal", str "rajasthani", str "camel",
      str "desert", str "mehendi"]),
    (str "West Bengal", [str "durga puja", str "kolkata", str "bengali", str "howrah",
      str "victoria", str "rosogolla"]),
    (str "Punjab", [str "bhangra", str "golden temple", str "punjabi", str "amritsar",
      str "vaisakhi"]),
    (str "Andhra Pradesh", [str "hyderabad", str "charminar", str "telugu", str "tirupati",
      str "biryani"]) ]

/-- The table `regionalFonts` of `isRegionalFont`. -/
def regionalFonts : List (Str × List Str) :=
  [ (str "Hindi", [str "Devanagari", str "Noto Sans Devanagari", str "Mangal"]),
    (str "Tamil", [str "Tamil", str "Noto Sans Tamil", str "Lohit Tamil"]),
    (str "Telugu", [str "Telugu", str "Noto Sans Telugu"]),
    (str "Kannada", [str "Kannada", str "Noto Sans Kannada"]),
    (str "Malayalam", [str "Malayalam", str "Noto Sans Malayalam"]),
    (str "Bengali", [str "Bengali", str "Noto Sans Bengali"]),
    (str "Gujarati", [str "Gujarati", str "Noto Sans Gujarati"]),
    (str "Punjabi", [str "Gurmukhi", str "Noto Sans Gurmukhi"]) ]

/-- The element data that `calculateScore` reads: a text, a colour and a font
of its own, and the texts, colours and fonts of the elements analysed with it.
`none` stands for an absent field. -/
structure ElementData where
  text : Option Str
  textElements : Option (List (Option Str))
  color : Option Str
  colors : Option (List (Option Str))
  font : Option Str
  fontStyles : Option (List (Option Str))

/-- The values of a field that are truthy: the strings that are present and
not empty. -/
def truthyStrings (own : Option Str) (others : Option (List (Option Str))) : List Str :=
  (match own with
    | some s => if s.isEmpty then [] else [s]
    | none => []) ++
  (match others with
    | some l => l.filterMap (fun e => e.filter (fun s => !s.isEmpty))
    | none => [])

/-- The function `extractAllText`. -/
def extractAllText (elementData : ElementData) : List Str :=
  truthyStrings elementData.text elementData.textElements

/-- The function `extractColors`. -/
def extractColors (elementData : ElementData) : List Str :=
  truthyStrings elementData.color elementData.colors

/-- The function `extractFonts`. -/
def extractFonts (elementData : ElementData) : List Str :=
  truthyStrings elementData.font elementData.fontStyles

/-- The test `/[lo-hi]/.test(text)` for a range of code units. -/
def hasUnitIn (lo hi : Nat) (text : Str) : Bool :=
  (Re.cls (fun x => lo ≤ x && x ≤ hi)).test text

/-- The function `isInRegionalLanguage`. -/
def isInRegionalLanguage (text language : Str) : Bool :=
  let hasNonLatin := (Re.cls (fun x => !(x ≤ 127))).test text
  if language = str "Hindi" || language = str "Marathi" then hasUnitIn 2304 2431 text
  else if language = str "Tamil" then hasUnitIn 2944 3071 text
  else if language = str "Telugu" then hasUnitIn 3072 3199 text
  else if language = str "Kannada" then hasUnitIn 3200 3327 text
  else if language = str "Malayalam" then hasUnitIn 3328 3455 text
  else if language = str "Bengali" then hasUnitIn 2432 2559 text
  else if language = str "Gujarati" then hasUnitIn 2688 2815 text
  else if language = str "Punjabi" then hasUnitIn 2560 2687 text
  else hasNonLatin

/-- The function `isEnglish`, for a text that is not empty (the only texts
`extractAllText` yields): the ratio of the letters `[a-zA-Z]` to the length
exceeds 0.7. -/
def isEnglish (text : Str) : Bool :=
  7 * text.length < 10 * (text.filter isLatin).length

/-- The function `hexToRgb`; `none` stands for `null`. -/
def hexToRgb (hex : Str) : Option (Nat × Nat × Nat) :=
  match (Re.seqs [.bol, Re.opt (.unit 35), .grp 1 (Re.rep 2 Re.hex), .grp 2 (Re.rep 2 Re.hex),
      .grp 3 (Re.rep 2 Re.hex)]).exec hex with
  | some m =>
    some (parseHex ((m.group 1).getD []), parseHex ((m.group 2).getD []),
      parseHex ((m.group 3).getD []))
  | none => none

/-- The square of the difference of two channel values. -/
def sqDiff (a b : Nat) : Nat := (a - b) * (a - b) + (b - a) * (b - a)

/-- The function `areColorsSimilar` with its default threshold 40: the square
root of the sum of squares is below 40 exactly when the sum is below 1600. -/
def areColorsSimilar (color1 color2 : Str) : Bool :=
  match hexToRgb color1, hexToRgb color2 with
  | some (r1, g1, b1), some (r2, g2, b2) => sqDiff r1 r2 + sqDiff g1 g2 + sqDiff b1 b2 < 1600
  | _, _ => false

/-- The function `normalizeColor`. -/
def normalizeColor (color : Str) : Str := toUpperCase color

/-- The function `isColorInPalette`. -/
def isColorInPalette (color : Str) (palette : List Str) : Bool :=
  palette.any (fun paletteColor => areColorsSimilar (normalizeColor color) paletteColor)

/-- The function `scoreLanguage`. -/
def scoreLanguage (elementData : ElementData) (targetLanguage : Str) : Nat :=
  let texts := extractAllText elementData
  if texts.isEmpty then 15 else
  let regionalTextCount := (texts.filter (fun t => isInRegionalLanguage t targetLanguage)).length
  let englishTextCount :=
    (texts.filter (fun t => !(isInRegionalLanguage t targetLanguage) && isEnglish t)).length
  let totalTexts := texts.length
  if 5 * regionalTextCount > 4 * totalTexts then 30
  else if 2 * regionalTextCount > totalTexts then 25
  else if 5 * regionalTextCount > totalTexts then 20
  else if englishTextCount = totalTexts then 10
  else 5

/-- The text `extractAllText(elementData).join(' ').toLowerCase()`. -/
def allTextLower (elementData : ElementData) : Str :=
  toLowerCase (join (str " ") (extractAllText elementData))

/-- The function `scoreCulturalElements`; `none` stands for the `TypeError` of
iterating a value that is not an array. -/
def scoreCulturalElements (elementData : ElementData) (state : Str) : Option Nat :=
  match lookupOrEmpty REGIONAL_KEYWORDS state with
  | none => none
  | some keywords =>
    let allText := allTextLower elementData
    let matchCount := (keywords.filter (fun k => includes allText (toLowerCase k))).length
    if matchCount ≥ 4 then some 25
    else if matchCount ≥ 3 then some 20
    else if matchCount ≥ 2 then some 15
    else if matchCount ≥ 1 then some 10
    else some 5

/-- The function `scoreColors`; `none` stands for the `TypeError` of iterating
a palette that is not an array, which happens at the first colour. -/
def scoreColors (elementData : ElementData) (state : Str) : Option Nat :=
  let usedColors := extractColors elementData
  if usedColors.isEmpty then some 10 else
  match lookupOrEmpty REGIONAL_COLORS state with
  | none => none
  | some regionalColors =>
    let matchCount := (usedColors.filter (fun c => isColorInPalette c regionalColors)).length
    if 10 * matchCount > 7 * usedColors.length then some 20
    else if 2 * matchCount > usedColors.length then some 16
    else if 10 * matchCount > 3 * usedColors.length then some 12
    else if 10 * matchCount > usedColors.length then some 8
    else some 5

/-- The function `isReadableFont`. -/
def isReadableFont (font : Str) : Bool :=
  [str "Arial", str "Helvetica", str "Roboto", str "Open Sans", str "Lato", str "Montserrat",
    str "Poppins"].any (fun rf => includes font rf)

/-- The function `scoreTypography`; `none` stands for the `TypeError` of
calling `some` on a value that is not an array, which `isRegionalFont` does at
the first font. -/
def scoreTypography (elementData : ElementData) (language : Str) : Option Nat :=
  let fonts := extractFonts elementData
  if fonts.isEmpty then some 8 else
  match lookupOrEmpty regionalFonts language with
  | none => none
  | some regional =>
    let hasRegionalScript := fonts.any (fun font => regional.any (fun rf => includes font rf))
    let hasReadableFonts := fonts.any isReadableFont
    some (min 15 ((if hasRegionalScript then 10 else 0) + (if hasReadableFonts then 5 else 0)))

/-- The function `scoreContent`; `none` as in `scoreCulturalElements`. -/
def scoreContent (elementData : ElementData) (state : Str) : Option Nat :=
  let allText := allTextLower elementData
  match lookupOrEmpty REGIONAL_KEYWORDS state with
  | none => none
  | some keywords =>
    if keywords.any (fun k => includes allText (toLowerCase k)) then some 10
    else if [str "india", str "diwali", str "festival", str "celebration"].any
        (fun k => includes allText k) then some 7
    else some 3

/-- The function `calculateScore`; `none` stands for a `TypeError` thrown by
one of the five factors, which are evaluated in this order. -/
def calculateScore (elementData : ElementData) (state language : Str) : Option Nat :=
  (some (scoreLanguage elementData language)).bind fun a =>
  (scoreCulturalElements elementData state).bind fun b =>
  (scoreColors elementData state).bind fun c =>
  (scoreTypography elementData language).bind fun d =>
  (scoreContent elementData state).bind fun e =>
  some (min 100 (max 0 (a + b + c + d + e)))

/-! ### Score state (`index.js`) -/

/-- The constant `SCORE_INCREMENT`. -/
def SCORE_INCREMENT : Int := 2

/-- The constant `MAX_SCORE`. -/
def MAX_SCORE : Int := 100

/-- The module-level score state of `index.js`. -/
structure ScoreState where
  currentScore : Int
  baseScore : Int
  scoreBonus : Int
  appliedSuggestions : List Str
deriving DecidableEq

/-- The state in which the module is loaded. -/
def ScoreState.initial : ScoreState :=
  { currentScore := 0, baseScore := 0, scoreBonus := 0, appliedSuggestions := [] }

/-- The function `onSuggestionApplied`: the value returned and the state left. -/
def onSuggestionApplied (suggestionId : Str) (s : ScoreState) : Bool × ScoreState :=
  if s.appliedSuggestions.contains suggestionId then (false, s)
  else
    let scoreBonus := s.scoreBonus + SCORE_INCREMENT
    (true,
      { currentScore := min MAX_SCORE (s.baseScore + scoreBonus),
        baseScore := s.baseScore,
        scoreBonus := scoreBonus,
        appliedSuggestions := s.appliedSuggestions ++ [suggestionId] })

/-- The expression `data.score || 75`; `none` stands for a missing score. -/
def scoreOrDefault (score : Option Int) : Int :=
  match score with
  | some n => if n = 0 then 75 else n
  | none => 75

/-- The effect of `renderAuthResult(data)` on the score state, for the score
carried by `data`. -/
def renderAuthResult (score : Option Int) (s : ScoreState) : ScoreState :=
  let baseScore := scoreOrDefault score
  { currentScore := min MAX_SCORE (baseScore + s.scoreBonus),
    baseScore := baseScore,
    scoreBonus := s.scoreBonus,
    appliedSuggestions := s.appliedSuggestions }

/-- A step of the score state. -/
inductive ScoreStep where
  | render (score : Option Int) : ScoreStep
  | applied (suggestionId : Str) : ScoreStep

/-- The state after one step. -/
def ScoreStep.exec (s : ScoreState) : ScoreStep → ScoreState
  | .render score => renderAuthResult score s
  | .applied suggestionId => (onSuggestionApplied suggestionId s).2

/-- The state reached from the initial state by a sequence of steps. -/
def reach (steps : List ScoreStep) : ScoreState := steps.foldl ScoreStep.exec ScoreState.initial

/-- The operation `ToInt32` on an integer. -/
def toInt32 (n : Int) : Int := (n + 2147483648) % 4294967296 - 2147483648

/-- The decimal digits of a natural number, as a string. -/
def decimal (n : Nat) : Str := (Nat.toDigits 10 n).map Char.toNat

/-- The function `generateSuggestionId`: the hash is updated for each code unit
by `((hash << 5) - hash) + unit`, where only the shift works on 32 bits. -/
def generateSuggestionId (type original suggestion : Str) : Str :=
  let text := type ++ str "-" ++ original ++ str "-" ++ suggestion
  let hash := text.foldl (fun (hash : Int) c => toInt32 (toInt32 hash * 32) - hash + (c : Int)) 0
  str "sug-" ++ decimal hash.natAbs

/-- What the sandbox call made by an Apply button comes to. -/
inductive ApplyOutcome where
  /-- The variable `sandboxProxy` is not set. -/
  | noProxy : ApplyOutcome
  /-- The call resolves with `success` true. -/
  | success : ApplyOutcome
  /-- The call resolves with `success` false. -/
  | reportsFailure : ApplyOutcome
  /-- The call rejects. -/
  | rejects : ApplyOutcome
deriving DecidableEq

/-- The functions `applyTextSuggestion`, `applyStyleSuggestion` and
`applyColorSuggestion` of `index.js`: each catches every error itself and
returns nothing, so all that is left of the outcome is the label of the button. -/
def applySuggestionLabel : ApplyOutcome → Str
  | .noProxy => str "Apply"
  | .success => str "Applied"
  | .reportsFailure => str "Apply"
  | .rejects => str "Apply"

/-- The click handler that `renderAuthResult` attaches to an Apply button of
kind `type` (text, style or color): it awaits the apply function and then
calls `onSuggestionApplied`.  The result is the label of the button and the
score state. -/
def applyClick (type original suggestion : Str) (outcome : ApplyOutcome) (s : ScoreState) :
    Str × ScoreState :=
  let suggestionId := generateSuggestionId type original suggestion
  let label := applySuggestionLabel outcome
  (label, (onSuggestionApplied suggestionId s).2)

/-! ### Paired-section parsers (`sandbox/code.js`) -/

/-- One suggestion of the text, style or colour kind. -/
structure Pair where
  original : Str
  suggestion : Str
deriving DecidableEq

/-- The variables of the line loop of a paired-section parser; `none` stands
for `null`. -/
structure PairState where
  out : List Pair
  currentOriginal : Option Str
  currentSuggestion : Option Str
  collectingSuggestion : Bool
deriving DecidableEq

/-- Truth value of a variable that holds `null` or a string. -/
def truthy : Option Str → Bool
  | some s => !s.isEmpty
  | none => false

/-- The pair pushed when both variables are truthy. -/
def flush (st : PairState) : List Pair :=
  if truthy st.currentOriginal && truthy st.currentSuggestion then
    st.out ++ [⟨st.currentOriginal.getD [], st.currentSuggestion.getD []⟩]
  else st.out

/-- The update `v += (v ? '\n' : '') + line`. -/
def appendLine (v line : Str) : Str := v ++ (if v.isEmpty then [] else str "\n") ++ line

/-- The count-header pattern `/^\d+\s+WORDS/` of a parser. -/
def reCountHeader (words : String) : Re :=
  Re.seqs [.bol, Re.plus Re.digit, Re.plus Re.ws, Re.lit words]

/-- One round of the line loop. -/
def pairStep (header : Re) (st : PairState) (rawLine : Str) : PairState :=
  let line := trim rawLine
  if startsWith line (str "Original:") then
    { out := flush st, currentOriginal := some [], currentSuggestion := none,
      collectingSuggestion := false }
  else if startsWith line (str "AI Suggestion:") then
    { st with collectingSuggestion := true, currentSuggestion := some [] }
  else if !line.isEmpty && !(header.test line) then
    match st.collectingSuggestion, st.currentSuggestion, st.currentOriginal with
    | true, some v, _ => { st with currentSuggestion := some (appendLine v line) }
    | false, _, some v => { st with currentOriginal := some (appendLine v line) }
    | _, _, _ => st
  else st

/-- The body that `parseTextSuggestions`, `parseStyleSuggestions` and
`parseColorSuggestions` share word for word, up to the two markers and the
count header: the section between the markers is cut out, trimmed and read
line by line. -/
def parsePairedSection (startMarker endMarker : Str) (header : Re) (response : Str) :
    List Pair :=
  match indexOf response startMarker, indexOf response endMarker with
  | some startIndex, some endIndex =>
    let sectionText := trim (substring response (startIndex + startMarker.length) endIndex)
    let lines := splitOn 10 sectionText
    flush (lines.foldl (pairStep header) ⟨[], none, none, false⟩)
  | _, _ => []

/-- The function `parseStyleSuggestions`. -/
def parseStyleSuggestions (response : Str) : List Pair :=
  parsePairedSection (str "STYLE_SUGGESTIONS_START") (str "STYLE_SUGGESTIONS_END")
    (reCountHeader "style suggestions") response

/-- The function `parseColorSuggestions`. -/
def parseColorSuggestions (response : Str) : List Pair :=
  parsePairedSection (str "COLOR_SUGGESTIONS_START") (str "COLOR_SUGGESTIONS_END")
    (reCountHeader "color suggestions") response

/-- The markers of prompt-template leakage that `parseTextSuggestions` looks
for in an original. -/
def leakageMarkers : List Str :=
  [str "Elements Suggestions**:", str "Color Suggestions**:", str "ELEMENTS_SUGGESTIONS",
   str "COLOR_SUGGESTIONS", str "STYLE_SUGGESTIONS", str "TEXT_SUGGESTIONS",
   str "Provide EXECUTABLE IMAGE", str "EXACT JSON format"]

/-- The filter of `parseTextSuggestions`. -/
def keepTextSuggestion (item : Pair) : Bool :=
  if leakageMarkers.any (fun marker => includes item.original marker) then false
  else if includes item.suggestion (str "[Remove - Placeholder") ||
      includes item.suggestion (str "Remove - Placeholder") then false
  else true

/-- The function `parseTextSuggestions`. -/
def parseTextSuggestions (response : Str) : List Pair :=
  (parsePairedSection (str "TEXT_SUGGESTIONS_START") (str "TEXT_SUGGESTIONS_END")
    (reCountHeader "text elements found") response).filter keepTextSuggestion

/-! ### JSON values and `JSON.parse` -/

/-- A value that `JSON.parse` returns.  A number is kept exactly. -/
inductive Json where
  | null : Json
  | bool (b : Bool) : Json
  | num (q : Rat) : Json
  | string (s : Str) : Json
  | arr (items : List Json) : Json
  | obj (fields : List (Str × Json)) : Json

mutual
/-- Equality of JSON values is decidable. -/
def Json.decEq : (a b : Json) → Decidable (a = b)
  | .null, .null => isTrue rfl
  | .bool a, .bool b =>
    if h : a = b then isTrue (by rw [h]) else isFalse (by intro e; cases e; exact h rfl)
  | .num a, .num b =>
    if h : a = b then isTrue (by rw [h]) else isFalse (by intro e; cases e; exact h rfl)
  | .string a, .string b =>
    if h : a = b then isTrue (by rw [h]) else isFalse (by intro e; cases e; exact h rfl)
  | .arr a, .arr b =>
    match Json.decEqList a b with
    | isTrue h => isTrue (by rw [h])
    | isFalse h => isFalse (by intro e; cases e; exact h rfl)
  | .obj a, .obj b =>
    match Json.decEqFields a b with
    | isTrue h => isTrue (by rw [h])
    | isFalse h => isFalse (by intro e; cases e; exact h rfl)
  | .null, .bool _ | .null, .num _ | .null, .string _ | .null, .arr _ | .null, .obj _ =>
    isFalse (by intro e; cases e)
  | .bool _, .null | .bool _, .num _ | .bool _, .string _ | .bool _, .arr _ | .bool _, .obj _ =>
    isFalse (by intro e; cases e)
  | .num _, .null | .num _, .bool _ | .num _, .string _ | .num _, .arr _ | .num _, .obj _ =>
    isFalse (by intro e; cases e)
  | .string _, .null | .string _, .bool _ | .string _, .num _ | .string _, .arr _
  | .string _, .obj _ =>
    isFalse (by intro e; cases e)
  | .arr _, .null | .arr _, .bool _ | .arr _, .num _ | .arr _, .string _ | .arr _, .obj _ =>
    isFalse (by intro e; cases e)
  | .obj _, .null | .obj _, .bool _ | .obj _, .num _ | .obj _, .string _ | .obj _, .arr _ =>
    isFalse (by intro e; cases e)
/-- Equality of lists of JSON values is decidable. -/
def Json.decEqList : (a b : List Json) → Decidable (a = b)
  | [], [] => isTrue rfl
  | a :: as, b :: bs =>
    match Json.decEq a b, Json.decEqList as bs with
    | isTrue h, isTrue k => isTrue (by rw [h, k])
    | isFalse h, _ => isFalse (by intro e; cases e; exact h rfl)
    | _, isFalse k => isFalse (by intro e; cases e; exact k rfl)
  | [], _ :: _ | _ :: _, [] => isFalse (by intro e; cases e)
/-- Equality of lists of members is decidable. -/
def Json.decEqFields : (a b : List (Str × Json)) → Decidable (a = b)
  | [], [] => isTrue rfl
  | (k1, a) :: as, (k2, b) :: bs =>
    if hk : k1 = k2 then
      match Json.decEq a b, Json.decEqFields as bs with
      | isTrue h, isTrue k => isTrue (by rw [hk, h, k])
      | isFalse h, _ => isFalse (by intro e; cases e; exact h rfl)
      | _, isFalse k => isFalse (by intro e; cases e; exact k rfl)
    else isFalse (by intro e; cases e; exact hk rfl)
  | [], _ :: _ | _ :: _, [] => isFalse (by intro e; cases e)
end

instance : DecidableEq Json := Json.decEq

/-- Truth value of a JSON value in a condition.  A number is falsy when it is
zero as a double: when it is zero or at most `2 ^ (-1075)` in magnitude. -/
def Json.truthy : Json → Bool
  | .null => false
  | .bool b => b
  | .num q => decide (1 < |q| * 2 ^ 1075)
  | .string s => !s.isEmpty
  | .arr _ => true
  | .obj _ => true

/-- The property `item[key]` of a parsed value, for a key that no prototype
defines: the member written last under that key, and `none` (for `undefined`)
where there is none or the value is not an object. -/
def Json.get (item : Json) (key : Str) : Option Json :=
  match item with
  | .obj fields => (fields.reverse.find? (fun e => e.1 == key)).map (fun e => e.2)
  | _ => none

/-- White space of the JSON grammar. -/
def isJsonWs (c : Nat) : Bool := c == 32 || c == 9 || c == 10 || c == 13

/-- The rest of a text after its leading JSON white space. -/
def skipWs (s : Str) : Str := s.dropWhile isJsonWs

/-- The body of a JSON string after the opening quote: the units read so far
are in `acc`; the result is the string and the text after the closing quote. -/
def parseStringBody : Str → Str → Option (Str × Str)
  | [], _ => none
  | 34 :: rest, acc => some (acc.reverse, rest)
  | 92 :: 34 :: rest, acc => parseStringBody rest (34 :: acc)
  | 92 :: 92 :: rest, acc => parseStringBody rest (92 :: acc)
  | 92 :: 47 :: rest, acc => parseStringBody rest (47 :: acc)
  | 92 :: 98 :: rest, acc => parseStringBody rest (8 :: acc)
  | 92 :: 102 :: rest, acc => parseStringBody rest (12 :: acc)
  | 92 :: 110 :: rest, acc => parseStringBody rest (10 :: acc)
  | 92 :: 114 :: rest, acc => parseStringBody rest (13 :: acc)
  | 92 :: 116 :: rest, acc => parseStringBody rest (9 :: acc)
  | 92 :: 117 :: a :: b :: c :: d :: rest, acc =>
    if isHex a && isHex b && isHex c && isHex d then
      parseStringBody rest (parseHex [a, b, c, d] :: acc)
    else none
  | 92 :: _, _ => none
  | x :: rest, acc => if x < 32 then none else parseStringBody rest (x :: acc)

/-- A JSON number at the head of a text: its value and the text after it. -/
def parseNumber (s : Str) : Option (Rat × Str) :=
  let (neg, s1) := match s with
    | 45 :: r => (true, r)
    | _ => (false, s)
  let intPart := s1.takeWhile isDigit
  let s2 := s1.dropWhile isDigit
  if intPart.isEmpty || (intPart.length > 1 && intPart.head? == some 48) then none else
  let fracOk : Option (Str × Str) := match s2 with
    | 46 :: r =>
      let f := r.takeWhile isDigit
      if f.isEmpty then none else some (f, r.dropWhile isDigit)
    | _ => some ([], s2)
  match fracOk with
  | none => none
  | some (frac, s3) =>
    let expOk : Option (Int × Str) := match s3 with
      | c :: r =>
        if c == 101 || c == 69 then
          let (eneg, r1) := match r with
            | 45 :: t => (true, t)
            | 43 :: t => (false, t)
            | _ => (false, r)
          let ds := r1.takeWhile isDigit
          if ds.isEmpty then none
          else some (if eneg then -(parseDec ds : Int) else (parseDec ds : Int),
            r1.dropWhile isDigit)
        else some (0, s3)
      | [] => some (0, s3)
    match expOk with
    | none => none
    | some (e, s4) =>
      let mant : Nat := parseDec (intPart ++ frac)
      let e10 : Int := e - frac.length
      let mag : Rat :=
        if 0 ≤ e10 then ((mant * 10 ^ e10.toNat : Nat) : Rat)
        else (mant : Rat) / ((10 ^ (-e10).toNat : Nat) : Rat)
      some (if neg then -mag else mag, s4)

mutual
/-- A JSON value at the head of a text, after white space: the value and the
text after it.  The first argument bounds the depth of the descent. -/
def parseValue : Nat → Str → Option (Json × Str)
  | 0, _ => none
  | n + 1, s =>
    match skipWs s with
    | 123 :: r =>
      match skipWs r with
      | 125 :: r1 => some (.obj [], r1)
      | r1 => parseMembers n r1 []
    | 91 :: r =>
      match skipWs r with
      | 93 :: r1 => some (.arr [], r1)
      | r1 => parseElements n r1 []
    | 34 :: r => (parseStringBody r []).map (fun p => (.string p.1, p.2))
    | 116 :: 114 :: 117 :: 101 :: r => some (.bool true, r)
    | 102 :: 97 :: 108 :: 115 :: 101 :: r => some (.bool false, r)
    | 110 :: 117 :: 108 :: 108 :: r => some (.null, r)
    | r => (parseNumber r).map (fun p => (.num p.1, p.2))
/-- The elements of an array after the opening bracket. -/
def parseElements : Nat → Str → List Json → Option (Json × Str)
  | 0, _, _ => none
  | n + 1, s, acc =>
    match parseValue n s with
    | none => none
    | some (v, r) =>
      match skipWs r with
      | 44 :: r1 => parseElements n r1 (v :: acc)
      | 93 :: r1 => some (.arr (v :: acc).reverse, r1)
      | _ => none
/-- The members of an object after the opening brace. -/
def parseMembers : Nat → Str → List (Str × Json) → Option (Json × Str)
  | 0, _, _ => none
  | n + 1, s, acc =>
    match skipWs s with
    | 34 :: r =>
      match parseStringBody r [] with
      | none => none
      | some (key, r1) =>
        match skipWs r1 with
        | 58 :: r2 =>
          match parseValue n r2 with
          | none => none
          | some (v, r3) =>
            match skipWs r3 with
            | 44 :: r4 => parseMembers n r4 ((key, v) :: acc)
            | 125 :: r4 => some (.obj ((key, v) :: acc).reverse, r4)
            | _ => none
        | _ => none
    | _ => none
end

/-- The function `JSON.parse`; `none` stands for the `SyntaxError`.  The bound
of the descent is out of reach: each call of the three parsers above that
lowers it is followed by the reading of at least one unit before the bound is
lowered twice more. -/
def jsonParse (text : Str) : Option Json :=
  match parseValue (2 * text.length + 4) text with
  | some (v, rest) => if (skipWs rest).isEmpty then some v else none
  | none => none

/-! ### Image suggestions (`parseElementsSuggestions`) -/

/-- One record pushed by `parseElementsSuggestions`. -/
structure ImageSuggestion where
  type : Json
  prompt : Json
  description : Json
  dimensions : Json
  isImagePrompt : Bool
deriving DecidableEq

/-- The object `{ width: 512, height: 512 }`. -/
def defaultDimensions : Json := .obj [(str "width", .num 512), (str "height", .num 512)]

/-- Truth value of a property that may be `undefined`. -/
def propTruthy : Option Json → Bool
  | some v => v.truthy
  | none => false

/-- The record built from an accepted item. -/
def toImageSuggestion (item : Json) : ImageSuggestion :=
  { type := (item.get (str "type")).getD .null,
    prompt := (item.get (str "prompt")).getD .null,
    description := (item.get (str "description")).getD .null,
    dimensions :=
      if propTruthy (item.get (str "dimensions")) then (item.get (str "dimensions")).getD .null
      else defaultDimensions,
    isImagePrompt := true }

/-- The test `item.type && item.prompt && item.description`. -/
def accepted (item : Json) : Bool :=
  propTruthy (item.get (str "type")) && propTruthy (item.get (str "prompt")) &&
    propTruthy (item.get (str "description"))

/-- The loop `jsonData.forEach(...)` over the items, pushing onto `acc`: the
list reached and whether the loop was left by the `TypeError` that reading a
property of `null` throws. -/
def pushItems : List ImageSuggestion → List Json → List ImageSuggestion × Bool
  | acc, [] => (acc, false)
  | acc, .null :: _ => (acc, true)
  | acc, item :: rest =>
    pushItems (if accepted item then acc ++ [toImageSuggestion item] else acc) rest

/-- The pattern of the fenced block, a fence tagged `json`, then `\s*([\s\S]*?)\s*`
and the closing fence. -/
def reFence : Re :=
  Re.seqs [Re.lit "```json", .star Re.ws, .grp 1 (.lazyStar (.cls (fun _ => true))),
    .star Re.ws, Re.lit "```"]

/-- The `catch (jsonError)` block of `parseElementsSuggestions`: the fallback
to a fenced block, with the records pushed before the error in `acc`. -/
def fenceFallback (sectionText : Str) (acc : List ImageSuggestion) : List ImageSuggestion :=
  match (reFence.exec sectionText).bind (fun m => m.group 1) with
  | some inner =>
    match jsonParse inner with
    | some (.arr items) => (pushItems acc items).1
    | _ => acc
  | none => acc

/-- The function `parseElementsSuggestions`. -/
def parseElementsSuggestions (response : Str) : List ImageSuggestion :=
  match indexOf response (str "ELEMENTS_SUGGESTIONS_START"),
      indexOf response (str "ELEMENTS_SUGGESTIONS_END") with
  | some startIndex, some endIndex =>
    let sectionText :=
      trim (substring response (startIndex + (str "ELEMENTS_SUGGESTIONS_START").length) endIndex)
    match jsonParse sectionText with
    | some (.arr items) =>
      match pushItems [] items with
      | (acc, false) => acc
      | (acc, true) => fenceFallback sectionText acc
    | some _ => []
    | none => fenceFallback sectionText []
  | _, _ => []

/-! ### Score and analysis of `analyzeElement` -/

/-- The quantifier `{1,3}` on `\d`. -/
def reDigits13 : Re := .seq Re.digit (Re.opt (.seq Re.digit (Re.opt Re.digit)))

/-- The pattern `/\b(\d{1,3})\b/`. -/
def reStandalone : Re := Re.seqs [.wordB, .grp 1 reDigits13, .wordB]

/-- The score that one line yields: the first match of the pattern, when its
value is at most 100. -/
def lineScore (line : Str) : Option Nat :=
  match (reStandalone.exec line).bind (fun m => m.group 1) with
  | some digits => if parseDec digits ≤ 100 then some (parseDec digits) else none
  | none => none

/-- The score loop of `analyzeElement` over the first five lines, with the
default 75. -/
def parseScore (result : Str) : Nat :=
  (((splitOn 10 result).take 5).findSome? lineScore).getD 75

/-- Removal of the first match: `s.replace(r, '')` for a pattern without the
`g` flag. -/
def removeFirst (r : Re) (s : Str) : Str :=
  match r.exec s with
  | some m => s.take m.index ++ s.drop (m.index + m.whole.length)
  | none => s

/-- The least of the indices that are present. -/
def firstSectionIndex (textStartIndex styleStartIndex : Option Nat) : Option Nat :=
  match textStartIndex, styleStartIndex with
  | some a, some b => some (min a b)
  | some a, none => some a
  | none, some b => some b
  | none, none => none

/-- The analysis paragraph that `analyzeElement` extracts from the response. -/
def parseAnalysis (result : Str) : Str :=
  match firstSectionIndex (indexOf result (str "TEXT_SUGGESTIONS_START"))
      (indexOf result (str "STYLE_SUGGESTIONS_START")) with
  | some index =>
    let head := removeFirst (Re.seqs [.bol, Re.plus Re.digit, .star Re.ws, .eol])
      (substring result 0 index)
    let lines := (splitOn 10 (trim head)).filter
      (fun line => !(trim line).isEmpty && !((Re.seqs [.bol, Re.plus Re.digit, .eol]).test line))
    substring (join (str " ") lines) 0 200
  | none =>
    match reStandalone.exec result with
    | some m =>
      let afterScore :=
        trim (removeFirst (Re.seqs [.bol, Re.plus Re.digit, .star Re.ws]) (result.drop m.index))
      (((splitOn 10 afterScore).filter (fun line => !(trim line).isEmpty)).head?).getD []
    | none => []

/-! ### Translation (`index.js`) -/

/-- The constant `SARVAM_API_KEY`. -/
def SARVAM_API_KEY : Str := str "YOUR SARVAM API"

/-- The table `languageMap` of `getSarvamLanguageCode`. -/
def languageMap : List (Str × Str) :=
  [ (str "Hindi", str "hi-IN"), (str "Tamil", str "ta-IN"), (str "Telugu", str "te-IN"),
    (str "Bengali", str "bn-IN"), (str "Marathi", str "mr-IN"), (str "Gujarati", str "gu-IN"),
    (str "Kannada", str "kn-IN"), (str "Malayalam", str "ml-IN"), (str "Punjabi", str "pa-IN"),
    (str "Odia", str "or-IN"), (str "Assamese", str "as-IN"), (str "Urdu", str "ur-IN"),
    (str "English", str "en-IN"), (str "Konkani", str "kok-IN"), (str "Manipuri", str "mni-IN"),
    (str "Khasi", str "kha-IN"), (str "Garo", str "grt-IN"), (str "Mizo", str "lus-IN"),
    (str "Rajasthani", str "raj-IN"), (str "Nepali", str "ne-IN"), (str "Kokborok", str "trp-IN"),
    (str "Maithili", str "mai-IN"), (str "Chhattisgarhi", str "hne-IN"),
    (str "Santali", str "sat-IN"), (str "Bodo", str "brx-IN"), (str "Kashmiri", str "ks-IN"),
    (str "Dogri", str "doi-IN"), (str "Ladakhi", str "lbj-IN"), (str "Pahari", str "him-IN"),
    (str "Garhwali", str "gbm-IN"), (str "Kumaoni", str "kfy-IN"), (str "French", str "fr-IN") ]

/-- The value of `getSarvamLanguageCode`: a code, or the value that the table
inherits under one of the names of `Object.prototype`. -/
inductive LangCode where
  | code (c : Str) : LangCode
  | inherited (name : Str) : LangCode
deriving DecidableEq

/-- The function `getSarvamLanguageCode`. -/
def getSarvamLanguageCode (languageName : Str) : LangCode :=
  match languageMap.find? (fun e => e.1 == languageName) with
  | some e => if e.2.isEmpty then .code (str "en-IN") else .code e.2
  | none =>
    if inheritedNames.contains languageName then .inherited languageName
    else .code (str "en-IN")

/-- What `callSarvamTranslateAPI` comes to before any answer of the service. -/
inductive TranslateStep where
  /-- The function returns this text without a request. -/
  | returns (text : Str) : TranslateStep
  /-- The function throws an error with this message, without a request. -/
  | throws (message : Str) : TranslateStep
  /-- The function sends this request to the service. -/
  | requests (input : Str) (source target : LangCode) : TranslateStep
deriving DecidableEq

/-- The function `callSarvamTranslateAPI` up to its request. -/
def callSarvamTranslateAPI (input sourceLang targetLang : Str) : TranslateStep :=
  if SARVAM_API_KEY.isEmpty || SARVAM_API_KEY = str "YOUR_SARVAM_API_KEY_HERE" then
    .throws (str "Sarvam API key not configured")
  else if input.isEmpty || (trim input).length = 0 then
    .throws (str "Sarvam Translate API call failed: Input text cannot be empty")
  else
    let trimmedInput :=
      if (trim input).length > 2000 then substring (trim input) 0 2000 else trim input
    let sourceLangCode :=
      if sourceLang.isEmpty then LangCode.code (str "en-IN") else getSarvamLanguageCode sourceLang
    let targetLangCode := getSarvamLanguageCode targetLang
    if sourceLangCode = targetLangCode then .returns trimmedInput
    else .requests trimmedInput sourceLangCode targetLangCode

/-! ### Notions of the specification -/

/-- The six digits of a hex code `#hhhhhh` at the head of a text. -/
def hexCodeAt : Str → Option Str
  | 35 :: rest => if 6 ≤ rest.length && (rest.take 6).all isHex then some (rest.take 6) else none
  | _ => none

/-- The six digits of the first hex code `#hhhhhh` of a text. -/
def firstHexCode : Str → Option Str
  | [] => none
  | x :: xs =>
    match hexCodeAt (x :: xs) with
    | some h => some h
    | none => firstHexCode xs

/-- The colour that a hex code of six digits denotes: each byte over 255. -/
def colorOfHex (h : Str) : Color :=
  { red := (parseHex (substring h 0 2) : Rat) / 255,
    green := (parseHex (substring h 2 4) : Rat) / 255,
    blue := (parseHex (substring h 4 6) : Rat) / 255,
    alpha := 1 }

/-- The standalone integers of a line, in order: the values of the maximal
runs of digits that have no word character next to them.  `prev` tells whether
the unit before the text is a word character. -/
def standaloneIntegers : Nat → Bool → Str → List Nat
  | 0, _, _ => []
  | _ + 1, _, [] => []
  | n + 1, prev, x :: xs =>
    if isDigit x then
      let run := (x :: xs).takeWhile isDigit
      let rest := (x :: xs).dropWhile isDigit
      if !prev && !(wordSide rest) then parseDec run :: standaloneIntegers n true rest
      else standaloneIntegers n true rest
    else standaloneIntegers n (isWord x) xs

/-- The score as the specification words it: the first standalone integer in
the range 0..100 that occurs in the first five lines, and 75 when there is none. -/
def firstStandaloneInRange (result : Str) : Nat :=
  ((((splitOn 10 result).take 5).flatMap
    (fun line => standaloneIntegers (line.length + 1) false line)).find?
      (fun v => v ≤ 100)).getD 75

/-- The text of a paired section as the prompt lays it out: each pair as the
four parts `Original:`, the original, `AI Suggestion:`, the suggestion, on
lines of their own, with a blank line between two pairs. -/
def renderPairs (pairs : List Pair) : Str :=
  join (str "\n\n") (pairs.map (fun p =>
    str "Original:\n" ++ p.original ++ str "\nAI Suggestion:\n" ++ p.suggestion))

/-- A response that holds a style section and nothing else. -/
def styleBlob (pairs : List Pair) : Str :=
  str "STYLE_SUGGESTIONS_START" ++ str "\n" ++ renderPairs pairs ++ str "\n" ++
    str "STYLE_SUGGESTIONS_END"

/-- A line that a field of a round-trip pair may hold: trimmed, not empty, not
one of the two labels, not a count header and without the marker that ends
the section (the only marker that the parser could take for its own). -/
def PlainLine (line : Str) : Prop :=
  line ≠ [] ∧ trim line = line ∧ (∀ c ∈ line, c ≠ 10) ∧
  startsWith line (str "Original:") = false ∧
  startsWith line (str "AI Suggestion:") = false ∧
  (reCountHeader "style suggestions").test line = false ∧
  includes line (str "STYLE_SUGGESTIONS_END") = false

/-- A field of a round-trip pair: one or more plain lines joined by newlines. -/
def PlainField (field : Str) : Prop :=
  ∃ lines : List Str, lines ≠ [] ∧ (∀ l ∈ lines, PlainLine l) ∧ field = join (str "\n") lines

/-! ### Score state -/

/-- The equation between the three scores that every step establishes. -/
def ScoreInv (s : ScoreState) : Prop :=
  s.currentScore = min MAX_SCORE (s.baseScore + s.scoreBonus)

/-- The element of the Pongal scenario: one Tamil text, no colours, no fonts. -/
def pongalElement : ElementData :=
  { text := some (str "பொங்கல் வாழ்த்துக்கள்"), textElements := none, color := none,
    colors := none, font := none, fontStyles := none }

/-- The text from which the fallback branch of the analysis returns 201 units. -/
def longAnalysisResponse : Str := str "85\n" ++ List.replicate 201 97

/-- A word in the sense of `\w+`: one or more word characters. -/
def IsWordRun (w : Str) : Prop := w ≠ [] ∧ ∀ c ∈ w, isWord c = true

/-- The number of texts of the element that are in the script of the language. -/
def regionalCount (elementData : ElementData) (language : Str) : Nat :=
  ((extractAllText elementData).filter (fun t => isInRegionalLanguage t language)).length

/-- An element with five texts in Latin letters, the first of which also holds
one Tamil letter. -/
def mixedElement : ElementData :=
  { text := some (str "abcdefghijத"),
    textElements := some [some (str "hello"), some (str "hello"), some (str "hello"),
      some (str "hello")],
    color := none, colors := none, font := none, fontStyles := none }

/-- A hex colour string: six hexadecimal digits after an optional `#`. -/
def isHexColor : Str → Bool
  | 35 :: h => h.length == 6 && h.all isHex
  | h => h.length == 6 && h.all isHex

/-- The three bytes that a hex colour string denotes. -/
def rgbOfHex (color : Str) : Nat × Nat × Nat :=
  let h := match color with
    | 35 :: h => h
    | h => h
  (parseHex (h.take 2), parseHex ((h.drop 2).take 2), parseHex ((h.drop 4).take 2))

/-- The square of the Euclidean distance of two colours in RGB space. -/
def sqDistance (c1 c2 : Nat × Nat × Nat) : Nat :=
  sqDiff c1.1 c2.1 + sqDiff c1.2.1 c2.2.1 + sqDiff c1.2.2 c2.2.2

/-- The number of colours of the element whose distance to some colour of the
palette is below 40, that is whose squared distance is below 1600. -/
def similarCount (elementData : ElementData) (palette : List Str) : Nat :=
  ((extractColors elementData).filter
    (fun c => palette.any (fun p => sqDistance (rgbOfHex c) (rgbOfHex p) < 1600))).length

/-- An element with two colours, the first of which is in the palette of Tamil Nadu. -/
def twoColorElement : ElementData :=
  { text := none, textElements := none, color := some (str "#ff9933"),
    colors := some [some (str "123456")], font := none, fontStyles := none }

/-- The text of the section of a response between the two markers of the
image suggestions, trimmed, once both markers are found. -/
def elementsSection (response : Str) : Option Str :=
  match indexOf response (str "ELEMENTS_SUGGESTIONS_START"),
      indexOf response (str "ELEMENTS_SUGGESTIONS_END") with
  | some startIndex, some endIndex =>
    some (trim
      (substring response (startIndex + (str "ELEMENTS_SUGGESTIONS_START").length) endIndex))
  | _, _ => none

/-- The one item of the fenced-block scenario. -/
def iconItem : Json :=
  .obj [(str "type", .string (str "icon")), (str "prompt", .string (str "p")),
    (str "description", .string (str "d"))]

/-- A response whose image section is a fenced block tagged `json`. -/
def taggedFenceResponse : Str :=
  str "ELEMENTS_SUGGESTIONS_START\n```json\n[\x7b\"type\":\"icon\",\"prompt\":\"p\",\"description\":\"d\"\x7d]\n```\nELEMENTS_SUGGESTIONS_END"

/-- A response whose image section is a fenced block without a tag. -/
def untaggedFenceResponse : Str :=
  str "ELEMENTS_SUGGESTIONS_START\n```\n[\x7b\"type\":\"icon\",\"prompt\":\"p\",\"description\":\"d\"\x7d]\n```\nELEMENTS_SUGGESTIONS_END"

/-- A response whose image section is a plain JSON array of two objects, the
second without a prompt. -/
def plainArrayResponse : Str :=
  str "ELEMENTS_SUGGESTIONS_START\n[\x7b\"type\":\"icon\",\"prompt\":\"p\",\"description\":\"d\",\"dimensions\":\x7b\"width\":256,\"height\":256\x7d\x7d,\x7b\"type\":\"icon\",\"description\":\"d\"\x7d]\nELEMENTS_SUGGESTIONS_END"

/-- The lines in which the prompt lays out one pair, given the lines of its
two fields. -/
def pairLines (p : List Str × List Str) : List Str :=
  [str "Original:"] ++ p.1 ++ [str "AI Suggestion:"] ++ p.2

/-- The lines of a paired section: the lines of its pairs, with one blank line
between two pairs. -/
def linesOf : List (List Str × List Str) → List Str
  | [] => []
  | [p] => pairLines p
  | p :: q :: rest => pairLines p ++ [[]] ++ linesOf (q :: rest)

/-- The pair whose fields are the given lines joined by newlines. -/
def toPair (p : List Str × List Str) : Pair :=
  { original := join (str "\n") p.1, suggestion := join (str "\n") p.2 }

/-- The lines of the two fields of a pair are as the round trip requires. -/
def GoodLines (p : List Str × List Str) : Prop :=
  p.1 ≠ [] ∧ p.2 ≠ [] ∧ (∀ l ∈ p.1, PlainLine l) ∧ (∀ l ∈ p.2, PlainLine l)

instance (line : Str) : Decidable (PlainLine line) := by
  unfold PlainLine
  infer_instance

/-- Two pairs for the round trip, the first with a suggestion of two lines. -/
def samplePairs : List Pair :=
  [⟨str "Arial, 12pt", str "Raleway\nbold"⟩, ⟨str "x", str "y"⟩]

/-- Whether a string begins with six hexadecimal digits. -/
def sixHex (t : Str) : Bool := decide (6 ≤ t.length) && (t.take 6).all isHex

/-- Whether a string begins with six hexadecimal digits after an optional
`#`, whatever follows them. -/
def beginsHexColor : Str → Bool
  | 35 :: h => sixHex h
  | h => sixHex h

/-- The leakage markers in the order in which the specification lists them. -/
def listedLeakageMarkers : List Str :=
  [str "TEXT_SUGGESTIONS", str "STYLE_SUGGESTIONS", str "ELEMENTS_SUGGESTIONS",
   str "COLOR_SUGGESTIONS", str "Elements Suggestions**:", str "Color Suggestions**:",
   str "Provide EXECUTABLE IMAGE", str "EXACT JSON format"]

/-- A pair that the specification has removed from the text suggestions: its
original contains a leakage marker, or its suggestion contains
`Remove - Placeholder`. -/
def isLeakedPair (item : Pair) : Bool :=
  listedLeakageMarkers.any (fun marker => includes item.original marker) ||
    includes item.suggestion (str "Remove - Placeholder")

/-- A pair with a non-empty original and a non-empty suggestion. -/
def Pair.Filled (item : Pair) : Prop := item.original ≠ [] ∧ item.suggestion ≠ []

/-- A response with one text suggestion. -/
def oneTextSuggestion : Str :=
  str "TEXT_SUGGESTIONS_START\nOriginal:\nHello\nAI Suggestion:\nVanakkam\nTEXT_SUGGESTIONS_END"

/-- An element with the lowest score: one text of digits, one colour far from
every palette of Tamil Nadu, one font that is neither regional nor readable. -/
def lowestElement : ElementData :=
  { text := some (str "12345"), textElements := none, color := some (str "#000000"),
    colors := none, font := some (str "Comic Sans"), fontStyles := none }

/-- The four lines `startMarker`, `Original: a`, `AI Suggestion: b` and
`endMarker`: a section whose two fields stand on the lines of their labels. -/
def sameLineSection (startMarker endMarker a b : Str) : Str :=
  startMarker ++ str "\n" ++ (str "Original: " ++ a) ++ str "\n" ++
    (str "AI Suggestion: " ++ b) ++ str "\n" ++ endMarker

/-- White space in the sense of `\s+`: one or more white-space units. -/
def IsWsRun (w : Str) : Prop := w ≠ [] ∧ ∀ c ∈ w, isWs c = true

/-- The word `n` stands in `text` right after `like` and white space, and no
word character follows it. -/
def AfterLike (text n : Str) : Prop :=
  ∃ pre ws post, text = pre ++ (str "like" ++ (ws ++ (n ++ post))) ∧ IsWsRun ws ∧ IsWordRun n ∧
    wordSide post = false

/-- The word `n` stands in `text` right after one of `switch`, `change`, `use`
and `apply`, white space, an optional `the` with white space, `font`, white
space, `to` and white space, and no word character follows it. -/
def AfterFontTo (text n : Str) : Prop :=
  ∃ pre verb gap ws2 ws3 post,
    text = pre ++ (verb ++ (gap ++ (str "font" ++ (ws2 ++ (str "to" ++ (ws3 ++ (n ++ post))))))) ∧
    verb ∈ [str "switch", str "change", str "use", str "apply"] ∧
    (IsWsRun gap ∨ ∃ g1 g2, gap = g1 ++ (str "the" ++ g2) ∧ IsWsRun g1 ∧ IsWsRun g2) ∧
    IsWsRun ws2 ∧ IsWsRun ws3 ∧ IsWordRun n ∧ wordSide post = false

/-! ## Theorems -/

/-! ### Score state -/

theorem scoreInv_exec (s : ScoreState) (step : ScoreStep) (h : ScoreInv s) :
    ScoreInv (step.exec s) := by
  cases step with
  | render score => simp [ScoreStep.exec, renderAuthResult, ScoreInv]
  | applied suggestionId =>
    simp only [ScoreStep.exec, onSuggestionApplied]
    split
    · exact h
    · simp [ScoreInv]

theorem scoreInv_foldl (steps : List ScoreStep) (s : ScoreState) (h : ScoreInv s) :
    ScoreInv (steps.foldl ScoreStep.exec s) := by
  induction steps generalizing s with
  | nil => exact h
  | cons step rest ih => exact ih _ (scoreInv_exec s step h)

/-- C1, at the failing input: for the state name `constructor`, which the
keyword table inherits from `Object.prototype`, `calculateScore` throws on the
empty element and returns no score. -/
theorem calculateScore_inherited_state_throws :
    calculateScore ⟨none, none, none, none, none, none⟩ (str "constructor") (str "Tamil")
      = none := by
  decide!

/-- Whenever `calculateScore` returns, the score is at most 100 (and, being a
natural number, at least 0). -/
theorem calculateScore_le_100 (elementData : ElementData) (state language : Str) (n : Nat)
    (h : calculateScore elementData state language = some n) : n ≤ 100 := by
  unfold calculateScore at h
  simp only [Option.bind_eq_some, Option.some.injEq] at h
  obtain ⟨a, _, b, _, c, _, d, _, e, _, rfl⟩ := h
  exact Nat.min_le_left _ _

/-- C3: from every score state and for every id, the second of two calls of
`onSuggestionApplied` with that id returns false and leaves the state as the
first call left it; and when the id is fresh the first call returns true and
adds 2 to `scoreBonus`, so that the two calls together add exactly 2. -/
theorem onSuggestionApplied_twice (s : ScoreState) (suggestionId : Str) :
    (onSuggestionApplied suggestionId (onSuggestionApplied suggestionId s).2).1 = false ∧
    (onSuggestionApplied suggestionId (onSuggestionApplied suggestionId s).2).2
      = (onSuggestionApplied suggestionId s).2 ∧
    (suggestionId ∉ s.appliedSuggestions →
      (onSuggestionApplied suggestionId s).1 = true ∧
      (onSuggestionApplied suggestionId s).2.scoreBonus = s.scoreBonus + 2 ∧
      (onSuggestionApplied suggestionId (onSuggestionApplied suggestionId s).2).2.scoreBonus
        = s.scoreBonus + 2) := by
  by_cases h : suggestionId ∈ s.appliedSuggestions
  · simp [onSuggestionApplied, h]
  · simp [onSuggestionApplied, h, SCORE_INCREMENT]

/-- C3, at a concrete state: `sug-1` is fresh in the initial state, and two
calls raise the bonus from 0 to 2. -/
theorem onSuggestionApplied_twice_witness :
    (onSuggestionApplied (str "sug-1") ScoreState.initial).1 = true ∧
    (onSuggestionApplied (str "sug-1") ScoreState.initial).2.scoreBonus
      = ScoreState.initial.scoreBonus + 2 ∧
    (onSuggestionApplied (str "sug-1")
      (onSuggestionApplied (str "sug-1") ScoreState.initial).2).2.scoreBonus
      = ScoreState.initial.scoreBonus + 2 :=
  (onSuggestionApplied_twice ScoreState.initial (str "sug-1")).2.2 (by decide)

/-- C4: in every state reached from the initial state by steps of
`renderAuthResult` and `onSuggestionApplied`, `currentScore` is
`min(100, baseScore + scoreBonus)`, hence at most 100. -/
theorem currentScore_eq_min_reachable (steps : List ScoreStep) :
    (reach steps).currentScore = min 100 ((reach steps).baseScore + (reach steps).scoreBonus) ∧
    (reach steps).currentScore ≤ 100 := by
  have h : ScoreInv (reach steps) := scoreInv_foldl steps _ (by unfold ScoreInv; decide)
  unfold ScoreInv MAX_SCORE at h
  exact ⟨h, by rw [h]; exact min_le_left _ _⟩

/-- C6, at the failing input: in the initial state, a click on the Apply
button of the text suggestion (`a`, `b`) whose sandbox call reports
`success = false` leaves the button at `Apply` and yet adds 2 to `scoreBonus`
and `currentScore` and records the suggestion as applied. -/
theorem applyClick_failure_changes_score :
    applyClick (str "text") (str "a") (str "b") .reportsFailure ScoreState.initial
      = (str "Apply",
          { currentScore := 2, baseScore := 0, scoreBonus := 2,
            appliedSuggestions := [generateSuggestionId (str "text") (str "a") (str "b")] }) := by
  decide!

/-! ### Concrete scenarios -/

/-- C9 as stated fails: for the Tamil text of the Pongal scenario with state
`Tamil Nadu` and language `Tamil` it is not the case that the language factor
is 30, the cultural factor at least 10 and the total above 60. -/
theorem pongal_scenario_claim_fails :
    ¬ (scoreLanguage pongalElement (str "Tamil") = 30 ∧
        (∃ c, scoreCulturalElements pongalElement (str "Tamil Nadu") = some c ∧ 10 ≤ c) ∧
        (∃ n, calculateScore pongalElement (str "Tamil Nadu") (str "Tamil") = some n ∧ 60 < n)) := by
  rintro ⟨-, ⟨c, hc, h10⟩, -⟩
  have h5 : scoreCulturalElements pongalElement (str "Tamil Nadu") = some 5 := by decide!
  rw [h5] at hc
  cases hc
  omega

/-- C9 as amended: in the Pongal scenario the language factor is 30, the
cultural-keyword factor is 5 (the keywords are Latin transliterations, none of
which occurs in a text in Tamil script), the colour, typography and content
factors are 10, 8 and 3, and the total score is 56. -/
theorem pongal_scenario_scores :
    scoreLanguage pongalElement (str "Tamil") = 30 ∧
    scoreCulturalElements pongalElement (str "Tamil Nadu") = some 5 ∧
    scoreColors pongalElement (str "Tamil Nadu") = some 10 ∧
    scoreTypography pongalElement (str "Tamil") = some 8 ∧
    scoreContent pongalElement (str "Tamil Nadu") = some 3 ∧
    calculateScore pongalElement (str "Tamil Nadu") (str "Tamil") = some 56 := by
  decide!

/-- C10: `Switch the font to Raleway for a contemporary look` is classified
as font family `raleway`; on its lower-cased text the colour, visual and border
stages and the guard of the font-size stage are all false, and the
`switch ... font to NAME` pattern captures `raleway`. -/
theorem parseRecommendation_switch_font_raleway :
    parseRecommendation (str "Switch the font to Raleway for a contemporary look")
      = .fontFamily (str "raleway") ∧
    isColorStage (toLowerCase (str "Switch the font to Raleway for a contemporary look"))
      = false ∧
    isVisualStage (toLowerCase (str "Switch the font to Raleway for a contemporary look"))
      = false ∧
    isBorderStage (toLowerCase (str "Switch the font to Raleway for a contemporary look"))
      = false ∧
    isFontSizeGuard (toLowerCase (str "Switch the font to Raleway for a contemporary look"))
      = false ∧
    (reLikePattern.exec
      (toLowerCase (str "Switch the font to Raleway for a contemporary look"))).isNone = true ∧
    ((reSwitchPattern.exec
      (toLowerCase (str "Switch the font to Raleway for a contemporary look"))).bind
        (fun m => m.group 1)) = some (str "raleway") := by
  decide!

/-- C20, at the failing input: for the response `85`, a newline and 201
letters `a`, which holds no section marker, the analysis is the whole second
line, 201 units long. -/
theorem parseAnalysis_fallback_exceeds_200 :
    indexOf longAnalysisResponse (str "TEXT_SUGGESTIONS_START") = none ∧
    indexOf longAnalysisResponse (str "STYLE_SUGGESTIONS_START") = none ∧
    parseAnalysis longAnalysisResponse = List.replicate 201 97 ∧
    (parseAnalysis longAnalysisResponse).length = 201 := by
  decide!

/-- Where a section marker is present the analysis is cut to 200 units. -/
theorem parseAnalysis_le_200_of_marker (result : Str) (index : Nat)
    (h : firstSectionIndex (indexOf result (str "TEXT_SUGGESTIONS_START"))
      (indexOf result (str "STYLE_SUGGESTIONS_START")) = some index) :
    (parseAnalysis result).length ≤ 200 := by
  unfold parseAnalysis
  rw [h]
  simp [substring, List.length_take]

/-! ### Lemmas on strings -/

theorem indexOfFrom_isSome (pat s : Str) (i : Nat) :
    (indexOfFrom pat s i).isSome = true ↔ pat <:+: s := by
  induction s generalizing i with
  | nil =>
    simp only [indexOfFrom, List.isPrefixOf_iff_prefix]
    split <;> simp_all [List.prefix_nil, List.infix_nil]
  | cons x xs ih =>
    simp only [indexOfFrom, List.isPrefixOf_iff_prefix]
    split
    · rename_i h
      simp only [Option.isSome_some, true_iff]
      exact h.isInfix
    · rename_i h
      rw [ih, List.infix_cons_iff]
      simp [h]

theorem includes_iff (s pat : Str) : includes s pat = true ↔ pat <:+: s := by
  unfold includes indexOf
  exact indexOfFrom_isSome pat s 0

theorem includes_eq_false_iff (s pat : Str) : includes s pat = false ↔ ¬ pat <:+: s := by
  rw [← includes_iff]
  simp

theorem indexOfFrom_append (pat a b : Str) (i : Nat) (hpat : pat ≠ [])
    (h : ∀ k, k < a.length → ¬ pat <+: (a ++ pat ++ b).drop k) :
    indexOfFrom pat (a ++ pat ++ b) i = some (i + a.length) := by
  induction a generalizing i with
  | nil =>
    cases pat with
    | nil => exact absurd rfl hpat
    | cons p ps =>
      simp only [List.nil_append, List.cons_append, indexOfFrom, List.isPrefixOf_iff_prefix]
      rw [if_pos]
      · simp
      · exact List.prefix_append _ _
  | cons x xs ih =>
    have h0 := h 0 (by simp)
    simp only [List.drop_zero] at h0
    have hstep : indexOfFrom pat (x :: (xs ++ pat ++ b)) i
        = indexOfFrom pat (xs ++ pat ++ b) (i + 1) := by
      simp only [indexOfFrom, List.isPrefixOf_iff_prefix]
      rw [if_neg (by simpa using h0)]
    have hcons : x :: xs ++ pat ++ b = x :: (xs ++ pat ++ b) := by simp
    rw [hcons, hstep, ih (i + 1)]
    · simp only [List.length_cons]
      congr 1
      omega
    · intro k hk
      have := h (k + 1) (by simpa using hk)
      simpa using this

/-! ### Lemmas on the matcher -/

theorem run_seqs_cons (a : Re) (l : List Re) (c : Cur) :
    (Re.seqs (a :: l)).run c = (a.run c).flatMap (Re.seqs l).run := by
  cases l with
  | nil => simp [Re.seqs, Re.run]
  | cons b rest => simp [Re.seqs, Re.run]

theorem mem_run_seq {a b : Re} {c m d : Cur} (h1 : m ∈ a.run c) (h2 : d ∈ b.run m) :
    d ∈ (Re.seq a b).run c := by
  simp only [Re.run, List.mem_flatMap]
  exact ⟨m, h1, h2⟩

theorem mem_run_seqs_cons {a : Re} {l : List Re} {c m d : Cur} (h1 : m ∈ a.run c)
    (h2 : d ∈ (Re.seqs l).run m) : d ∈ (Re.seqs (a :: l)).run c := by
  rw [run_seqs_cons, List.mem_flatMap]
  exact ⟨m, h1, h2⟩

theorem mem_run_alts {a : Re} {l : List Re} {c d : Cur} (ha : a ∈ l) (h : d ∈ a.run c) :
    d ∈ (Re.alts l).run c := by
  induction l with
  | nil => cases ha
  | cons b rest ih =>
    cases rest with
    | nil =>
      simp only [List.mem_singleton] at ha
      subst ha
      simpa [Re.alts] using h
    | cons b2 rest2 =>
      simp only [Re.alts, Re.run, List.mem_append]
      rcases List.mem_cons.1 ha with rfl | ha2
      · exact Or.inl h
      · exact Or.inr (ih ha2)

theorem mem_starLoop_self (step : Cur → List Cur) (n : Nat) (c : Cur) :
    c ∈ starLoop step n c := by
  cases n <;> simp [starLoop]

theorem mem_run_star_self (a : Re) (c : Cur) : c ∈ (Re.star a).run c := by
  simp only [Re.run]
  exact mem_starLoop_self _ _ _

theorem mem_run_opt_self (a : Re) (c : Cur) : c ∈ (Re.opt a).run c := by
  simp [Re.opt, Re.run]

theorem mem_run_cls {p : Nat → Bool} {x : Nat} {b xs : List Nat} {caps : List (Nat × Str)}
    (h : p x = true) : (⟨x :: b, xs, caps⟩ : Cur) ∈ (Re.cls p).run ⟨b, x :: xs, caps⟩ := by
  simp [Re.run, h]

theorem mem_run_plus_one {p : Nat → Bool} {x : Nat} {b xs : List Nat} {caps : List (Nat × Str)}
    (h : p x = true) :
    (⟨x :: b, xs, caps⟩ : Cur) ∈ (Re.plus (.cls p)).run ⟨b, x :: xs, caps⟩ :=
  mem_run_seq (mem_run_cls h) (mem_run_star_self _ _)

theorem mem_run_clsList (ps : List (Nat → Bool)) (w : Str) (b rest : List Nat)
    (caps : List (Nat × Str)) (h : List.Forall₂ (fun p x => p x = true) ps w) :
    (⟨w.reverse ++ b, rest, caps⟩ : Cur) ∈ (Re.seqs (ps.map Re.cls)).run ⟨b, w ++ rest, caps⟩ := by
  induction h generalizing b with
  | nil => simp [Re.seqs, Re.run]
  | @cons p x ps w hpx _ ih =>
    simp only [List.map_cons, List.cons_append]
    refine mem_run_seqs_cons (mem_run_cls hpx) ?_
    have := ih (x :: b)
    simpa using this

theorem mem_run_litI (s : String) (w : Str) (b rest : List Nat) (caps : List (Nat × Str))
    (h : List.Forall₂ (fun c x => eqI c x = true) (str s) w) :
    (⟨w.reverse ++ b, rest, caps⟩ : Cur) ∈ (Re.litI s).run ⟨b, w ++ rest, caps⟩ := by
  have := mem_run_clsList ((str s).map eqI) w b rest caps (by
    rw [List.forall₂_map_left_iff]
    exact h)
  simpa [Re.litI, Re.unitI, List.map_map] using this

theorem execFrom_isSome (r : Re) (b s : List Nat) :
    (r.execFrom b s).isSome = true ↔
      ∃ pre post, s = pre ++ post ∧ r.run ⟨pre.reverse ++ b, post, []⟩ ≠ [] := by
  induction s generalizing b with
  | nil =>
    simp only [Re.execFrom]
    split
    · rename_i d ds h
      simp only [Option.isSome_some, true_iff]
      exact ⟨[], [], rfl, by simp [h]⟩
    · rename_i h
      simp only [Option.isSome_none, Bool.false_eq_true, false_iff]
      rintro ⟨pre, post, hs, hr⟩
      have hp : pre = [] ∧ post = [] := by
        simpa using hs.symm
      rw [hp.1, hp.2] at hr
      exact hr (by simpa using h)
  | cons x xs ih =>
    simp only [Re.execFrom]
    split
    · rename_i d ds h
      simp only [Option.isSome_some, true_iff]
      exact ⟨[], x :: xs, rfl, by simp [h]⟩
    · rename_i h
      rw [ih]
      constructor
      · rintro ⟨pre, post, hs, hr⟩
        exact ⟨x :: pre, post, by simp [hs], by simpa using hr⟩
      · rintro ⟨pre, post, hs, hr⟩
        cases pre with
        | nil =>
          simp only [List.nil_append] at hs
          subst hs
          exact absurd (by simpa using h) hr
        | cons y pre2 =>
          simp only [List.cons_append, List.cons.injEq] at hs
          obtain ⟨rfl, rfl⟩ := hs
          exact ⟨pre2, post, rfl, by simpa using hr⟩

theorem test_iff (r : Re) (s : Str) :
    r.test s = true ↔ ∃ pre post, s = pre ++ post ∧ r.run ⟨pre.reverse, post, []⟩ ≠ [] := by
  unfold Re.test Re.exec
  rw [execFrom_isSome]
  simp

theorem test_of_mem {r : Re} {pre post : Str} {d : Cur}
    (h : d ∈ r.run ⟨pre.reverse, post, []⟩) : r.test (pre ++ post) = true :=
  (test_iff r _).2 ⟨pre, post, rfl, List.ne_nil_of_mem h⟩

/-! ### The instruction guard of `parseRecommendation` -/

theorem lowerUnit_of_isWs {w : Nat} (h : isWs w = true) : lowerUnit w = [w] := by
  simp only [isWs, Bool.or_eq_true, beq_iff_eq, Bool.and_eq_true, decide_eq_true_eq] at h
  have h1 : isUpper w = false := by
    simp only [isUpper, Bool.and_eq_false_imp, decide_eq_true_eq, decide_eq_false_iff_not]
    omega
  have h2 : w ≠ 304 := by omega
  have h3 : w ≠ 8490 := by omega
  simp [lowerUnit, h1, h2, h3]

theorem toLowerCase_append (a b : Str) : toLowerCase (a ++ b) = toLowerCase a ++ toLowerCase b := by
  simp [toLowerCase]

theorem toLowerCase_cons (x : Nat) (b : Str) : toLowerCase (x :: b) = lowerUnit x ++ toLowerCase b := by
  simp [toLowerCase]

theorem textStage_some {s text e : Str} (h : textStage s text = some e) :
    e = extractTextFromRecommendation s ∧ e ≠ [] ∧ e ≠ s := by
  unfold textStage at h
  split at h
  · simp only at h
    split at h
    · rename_i hc
      simp only [Option.some.injEq] at h
      subst h
      simp only [Bool.and_eq_true, decide_eq_true_eq, bne_iff_ne, ne_eq] at hc
      refine ⟨rfl, ?_, hc.1.2⟩
      intro h0
      rw [h0] at hc
      simp at hc
    · cases h
  · cases h

theorem reInstruction_test_of_verb (verb rest : Str) (w : Nat)
    (hverb : verb ∈ [str "add", str "create", str "include", str "use", str "change"])
    (hw : isWs w = true) : reInstruction.test (verb ++ w :: rest) = true := by
  have key : ∀ (name : String), name ∈ ["add", "create", "include", "use", "change"] →
      List.Forall₂ (fun c x => eqI c x = true) (str name) (str name) →
      reInstruction.test (str name ++ w :: rest) = true := by
    intro name hname hall
    have hrun : (⟨w :: ((str name).reverse ++ []), rest,
        [(1, Cur.span ⟨[], str name ++ w :: rest, []⟩ ⟨(str name).reverse ++ [], w :: rest, []⟩)]⟩ : Cur)
        ∈ reInstruction.run ⟨([] : Str).reverse, str name ++ w :: rest, []⟩ := by
      unfold reInstruction
      refine mem_run_seqs_cons (m := ⟨[], str name ++ w :: rest, []⟩) (by simp [Re.run]) ?_
      refine mem_run_seqs_cons
        (m := ⟨(str name).reverse ++ [], w :: rest,
          [(1, Cur.span ⟨[], str name ++ w :: rest, []⟩
            ⟨(str name).reverse ++ [], w :: rest, []⟩)]⟩) ?_ ?_
      · simp only [Re.run, List.mem_map]
        refine ⟨⟨(str name).reverse ++ [], w :: rest, []⟩, ?_, rfl⟩
        exact mem_run_alts (List.mem_map.2 ⟨name, hname, rfl⟩)
          (mem_run_litI name (str name) [] (w :: rest) [] hall)
      · simp only [Re.seqs]
        exact mem_run_plus_one hw
    have := @test_of_mem reInstruction [] (str name ++ w :: rest) _ hrun
    simpa using this
  simp only [List.mem_cons, List.mem_singleton, List.not_mem_nil, or_false] at hverb
  rcases hverb with h | h | h | h | h <;> subst h
  · exact key "add" (by simp) (by decide)
  · exact key "create" (by simp) (by decide)
  · exact key "include" (by simp) (by decide)
  · exact key "use" (by simp) (by decide)
  · exact key "change" (by simp) (by decide)

/-- C5: for every input that begins, in any case, with add, create, include,
use or change followed by white space, `parseRecommendation` never returns
type `text` with the whole input as its text; when no earlier stage matches
and no text is extracted it returns type `text` with the empty string; and
`addRecommendationToCanvas` rejects that result with an error, whatever the
selection, instead of inserting the instruction. -/
theorem instruction_never_inserted_literally (s p rest verb : Str) (w : Nat)
    (hverb : verb ∈ [str "add", str "create", str "include", str "use", str "change"])
    (hs : s = p ++ w :: rest) (hp : toLowerCase p = verb) (hw : isWs w = true) :
    parseRecommendation s ≠ .text s ∧
    (isColorStage (toLowerCase s) = false → isVisualStage (toLowerCase s) = false →
      isBorderStage (toLowerCase s) = false → fontSizeStage s (toLowerCase s) = none →
      fontFamilyStage s (toLowerCase s) = none → textStage s (toLowerCase s) = none →
      parseRecommendation s = .text []) ∧
    (parseRecommendation s = .text [] →
      ∀ (selectedElementId : Option Str) (selection : List Str),
        addRecommendationToCanvas s selectedElementId selection
          = .error (rethrow (str "Could not extract text content from recommendation: " ++ s))) := by
  have ht : reInstruction.test (toLowerCase s) = true := by
    rw [hs, toLowerCase_append, toLowerCase_cons, hp, lowerUnit_of_isWs hw]
    exact reInstruction_test_of_verb verb (toLowerCase rest) w hverb hw
  have hne : s ≠ [] := by rw [hs]; simp
  refine ⟨?_, ?_, ?_⟩
  · unfold parseRecommendation
    simp only [ht, if_true]
    split
    · simp
    · split
      · simp
      · split
        · simp
        · split
          · simp
          · split
            · simp
            · split
              · rename_i e he
                intro h
                simp only [Parsed.text.injEq] at h
                exact (textStage_some he).2.2 h
              · intro h
                simp only [Parsed.text.injEq] at h
                exact hne h.symm
  · intro h1 h2 h3 h4 h5 h6
    unfold parseRecommendation
    simp [h1, h2, h3, h4, h5, h6, ht]
  · intro h selectedElementId selection
    unfold addRecommendationToCanvas
    rw [h]
    simp

/-- C5, at a concrete input: `Add a nice greeting` begins with `Add` and a
space; it is classified as type `text` with the empty string, not as its own
text, and applying it is an error. -/
theorem instruction_never_inserted_literally_witness :
    parseRecommendation (str "Add a nice greeting") ≠ .text (str "Add a nice greeting") ∧
    parseRecommendation (str "Add a nice greeting") = .text [] ∧
    addRecommendationToCanvas (str "Add a nice greeting") none []
      = .error (rethrow (str "Could not extract text content from recommendation: " ++
          str "Add a nice greeting")) :=
  have h := instruction_never_inserted_literally (str "Add a nice greeting") (str "Add")
    (str "a nice greeting") (str "add") 32 (by decide) (by decide) (by decide) (by decide)
  ⟨h.1, h.2.1 (by decide!) (by decide!) (by decide!) (by decide!) (by decide!) (by decide!),
    h.2.2 (h.2.1 (by decide!) (by decide!) (by decide!) (by decide!) (by decide!) (by decide!))
      none []⟩

/-! ### Hex codes -/

theorem run_rep_cls (p : Nat → Bool) (n : Nat) (b t : List Nat) (caps : List (Nat × Str)) :
    (Re.rep n (.cls p)).run ⟨b, t, caps⟩ =
      if n ≤ t.length ∧ (t.take n).all p = true then [⟨(t.take n).reverse ++ b, t.drop n, caps⟩]
      else [] := by
  induction n generalizing b t with
  | zero => simp [Re.rep, Re.run]
  | succ n ih =>
    cases t with
    | nil => simp [Re.rep, Re.run]
    | cons x xs =>
      by_cases hx : p x = true
      · simp only [Re.rep, Re.run, hx, if_true, List.flatMap_cons, List.flatMap_nil,
          List.append_nil]
        have := ih (x :: b) xs
        simp only [Re.run] at this
        rw [this]
        simp [hx]
      · simp [Re.rep, Re.run, hx]

theorem span_of_before (b w : List Nat) (a1 a2 : List Nat) (c1 c2 : List (Nat × Str)) :
    Cur.span ⟨b, a1, c1⟩ ⟨w.reverse ++ b, a2, c2⟩ = w := by
  simp [Cur.span]

theorem hexCodeAt_cons_sharp (rest : Str) :
    hexCodeAt (35 :: rest) =
      if 6 ≤ rest.length ∧ (rest.take 6).all isHex = true then some (rest.take 6) else none := by
  simp [hexCodeAt]

theorem hexCodeAt_of_ne_sharp (x : Nat) (rest : Str) (h : x ≠ 35) :
    hexCodeAt (x :: rest) = none := by
  unfold hexCodeAt
  split
  · rename_i heq
    simp only [List.cons.injEq] at heq
    exact absurd heq.1.symm (by simpa using h.symm)
  · rfl

theorem hexCodeAt_nil : hexCodeAt [] = none := rfl

theorem run_reHexGroup (b t : List Nat) :
    reHexGroup.run ⟨b, t, []⟩ =
      match hexCodeAt t with
      | some h => [⟨h.reverse ++ 35 :: b, t.drop 7, [(1, h)]⟩]
      | none => [] := by
  cases t with
  | nil => simp [reHexGroup, Re.run, Re.unit, hexCodeAt_nil]
  | cons x rest =>
    by_cases hx : x = 35
    · subst hx
      rw [hexCodeAt_cons_sharp]
      simp only [reHexGroup, Re.run, Re.unit, beq_self_eq_true, if_true, List.flatMap_cons,
        List.flatMap_nil, List.append_nil, Re.hex]
      have := run_rep_cls isHex 6 (35 :: b) rest []
      simp only [Re.run] at this
      rw [this]
      split
      · simp [Cur.span]
      · simp
    · rw [hexCodeAt_of_ne_sharp x rest hx]
      simp [reHexGroup, Re.run, Re.unit, hx]

theorem run_reHexCode_ne_nil (b t : List Nat) :
    reHexCode.run ⟨b, t, []⟩ ≠ [] ↔ (hexCodeAt t).isSome = true := by
  cases t with
  | nil => simp [reHexCode, Re.run, Re.unit, hexCodeAt_nil]
  | cons x rest =>
    by_cases hx : x = 35
    · subst hx
      rw [hexCodeAt_cons_sharp]
      simp only [reHexCode, Re.run, Re.unit, beq_self_eq_true, if_true, List.flatMap_cons,
        List.flatMap_nil, List.append_nil, Re.hex]
      have := run_rep_cls isHex 6 (35 :: b) rest []
      simp only [Re.run] at this
      rw [this]
      split <;> simp
    · rw [hexCodeAt_of_ne_sharp x rest hx]
      simp [reHexCode, Re.run, Re.unit, hx]

theorem group_one_singleton (index : Nat) (whole h : Str) :
    (⟨index, whole, [(1, h)]⟩ : Match).group 1 = some h := by
  simp [Match.group]

theorem execFrom_reHexGroup (b s : List Nat) :
    (reHexGroup.execFrom b s).bind (fun m => m.group 1) = firstHexCode s := by
  induction s generalizing b with
  | nil => simp [Re.execFrom, run_reHexGroup, hexCodeAt_nil, firstHexCode]
  | cons x xs ih =>
    simp only [Re.execFrom, run_reHexGroup, firstHexCode]
    cases hh : hexCodeAt (x :: xs) with
    | some h => simp [Match.group]
    | none => simpa using ih (x :: b)

theorem lowerUnit_of_isHex {c : Nat} (h : isHex c = true) :
    ∃ d, lowerUnit c = [d] ∧ isHex d = true := by
  simp only [isHex, isDigit, Bool.or_eq_true, Bool.and_eq_true, decide_eq_true_eq] at h
  by_cases hu : isUpper c = true
  · refine ⟨c + 32, by simp [lowerUnit, hu], ?_⟩
    simp only [isUpper, Bool.and_eq_true, decide_eq_true_eq] at hu
    simp only [isHex, isDigit, Bool.or_eq_true, Bool.and_eq_true, decide_eq_true_eq]
    omega
  · refine ⟨c, ?_, by
      simp only [isHex, isDigit, Bool.or_eq_true, Bool.and_eq_true, decide_eq_true_eq]
      exact h⟩
    have h2 : c ≠ 304 := by omega
    have h3 : c ≠ 8490 := by omega
    simp [lowerUnit, hu, h2, h3]

theorem toLowerCase_hex (h : Str) (hhex : ∀ c ∈ h, isHex c = true) :
    (toLowerCase h).length = h.length ∧ ∀ c ∈ toLowerCase h, isHex c = true := by
  induction h with
  | nil => simp [toLowerCase]
  | cons x xs ih =>
    obtain ⟨d, hd, hdh⟩ := lowerUnit_of_isHex (hhex x (by simp))
    have := ih (fun c hc => hhex c (by simp [hc]))
    rw [toLowerCase_cons, hd]
    refine ⟨by simp [this.1], ?_⟩
    intro c hc
    simp only [List.singleton_append, List.mem_cons] at hc
    rcases hc with rfl | hc
    · exact hdh
    · exact this.2 c hc

theorem hexCodeAt_isSome_of (h post : Str) (hlen : h.length = 6)
    (hhex : ∀ c ∈ h, isHex c = true) : (hexCodeAt (35 :: h ++ post)).isSome = true := by
  have hc : 35 :: h ++ post = 35 :: (h ++ post) := by simp
  rw [hc, hexCodeAt_cons_sharp]
  have htake : (h ++ post).take 6 = h := by
    rw [← hlen]
    simp
  rw [htake, if_pos]
  · simp
  · refine ⟨by simp [hlen], ?_⟩
    simpa using hhex

theorem firstHexCode_isSome_of (pre h post : Str) (hlen : h.length = 6)
    (hhex : ∀ c ∈ h, isHex c = true) : (firstHexCode (pre ++ 35 :: h ++ post)).isSome = true := by
  induction pre with
  | nil =>
    have := hexCodeAt_isSome_of h post hlen hhex
    simp only [List.nil_append, List.cons_append, firstHexCode] at this ⊢
    cases hh : hexCodeAt (35 :: (h ++ post)) with
    | some v => simp
    | none => simp [hh] at this
  | cons x xs ih =>
    simp only [List.cons_append, List.append_assoc, firstHexCode] at ih ⊢
    cases hh : hexCodeAt (x :: (xs ++ 35 :: (h ++ post))) with
    | some v => simp [hh]
    | none => simpa [hh] using ih

theorem reHexCode_test_lower (pre h post : Str) (hlen : h.length = 6)
    (hhex : ∀ c ∈ h, isHex c = true) :
    reHexCode.test (toLowerCase (pre ++ 35 :: h ++ post)) = true := by
  have hl := toLowerCase_hex h hhex
  have hsplit : toLowerCase (pre ++ 35 :: h ++ post)
      = toLowerCase pre ++ (35 :: toLowerCase h ++ toLowerCase post) := by
    have h35 : lowerUnit 35 = [35] := by decide
    simp [toLowerCase_append, toLowerCase_cons, h35]
  rw [hsplit, test_iff]
  refine ⟨toLowerCase pre, 35 :: toLowerCase h ++ toLowerCase post, rfl, ?_⟩
  rw [run_reHexCode_ne_nil]
  exact hexCodeAt_isSome_of _ _ (by rw [hl.1, hlen]) hl.2

/-- C7: every input that contains `#` followed by six hexadecimal digits is
classified as a colour, whose red, green and blue are the three bytes of the
first such hex code of the input, each over 255, with alpha 1; in particular
`Use saffron color #FF9933 for better appeal` gives 255/255, 153/255, 51/255. -/
theorem hex_code_classified_color :
    (∀ (s pre h post : Str), s = pre ++ 35 :: h ++ post → h.length = 6 →
      (∀ c ∈ h, isHex c = true) →
      ∃ first, firstHexCode s = some first ∧ parseRecommendation s = .color (colorOfHex first)) ∧
    parseRecommendation (str "Use saffron color #FF9933 for better appeal")
      = .color { red := 255 / 255, green := 153 / 255, blue := 51 / 255, alpha := 1 } := by
  refine ⟨?_, by decide!⟩
  intro s pre h post hs hlen hhex
  subst hs
  have hsome := firstHexCode_isSome_of pre h post hlen hhex
  obtain ⟨first, hfirst⟩ := Option.isSome_iff_exists.1 hsome
  refine ⟨first, hfirst, ?_⟩
  have hstage : isColorStage (toLowerCase (pre ++ 35 :: h ++ post)) = true := by
    have ht := reHexCode_test_lower pre h post hlen hhex
    unfold isColorStage hasColorLiteral
    rw [ht]
    simp
  have hexec : (reHexGroup.exec (pre ++ 35 :: h ++ post)).bind (fun m => m.group 1)
      = some first := by
    unfold Re.exec
    rw [execFrom_reHexGroup, hfirst]
  unfold parseRecommendation
  simp only [hstage, if_true]
  unfold extractColorFromRecommendation
  rw [hexec]
  rfl

/-- C7, at a concrete input: in `paint it #00ff7F now` the first hex code is
`00ff7F`, and the colour has the bytes 0, 255 and 127 over 255. -/
theorem hex_code_classified_color_witness :
    ∃ first, firstHexCode (str "paint it #00ff7F now") = some first ∧
      parseRecommendation (str "paint it #00ff7F now") = .color (colorOfHex first) :=
  hex_code_classified_color.1 (str "paint it #00ff7F now") (str "paint it ") (str "00ff7F")
    (str " now") (by decide) (by decide) (by decide)

/-! ### Soundness of the matcher -/

theorem starLoop_sound (step : Cur → List Cur) (L : Str → Prop)
    (hstep : ∀ c d, d ∈ step c →
      ∃ w, c.after = w ++ d.after ∧ d.before = w.reverse ++ c.before ∧ L w)
    (n : Nat) (c d : Cur) (h : d ∈ starLoop step n c) :
    ∃ w, c.after = w ++ d.after ∧ d.before = w.reverse ++ c.before ∧
      ∃ ws : List Str, w = ws.flatten ∧ ∀ u ∈ ws, L u := by
  induction n generalizing c with
  | zero =>
    simp only [starLoop, List.mem_singleton] at h
    subst h
    exact ⟨[], by simp, by simp, [], by simp, by simp⟩
  | succ n ih =>
    simp only [starLoop, List.mem_append, List.mem_flatMap, List.mem_filter,
      List.mem_singleton] at h
    rcases h with ⟨m, ⟨hm, -⟩, hd⟩ | rfl
    · obtain ⟨u, hu1, hu2, hu3⟩ := hstep c m hm
      obtain ⟨v, hv1, hv2, ws, hws, hall⟩ := ih m hd
      refine ⟨u ++ v, by rw [hu1, hv1]; simp, by rw [hv2, hu2]; simp, u :: ws, by simp [hws], ?_⟩
      intro x hx
      rcases List.mem_cons.1 hx with rfl | hx
      · exact hu3
      · exact hall x hx
    · exact ⟨[], by simp, by simp, [], by simp, by simp⟩

theorem lazyLoop_sound (step : Cur → List Cur) (L : Str → Prop)
    (hstep : ∀ c d, d ∈ step c →
      ∃ w, c.after = w ++ d.after ∧ d.before = w.reverse ++ c.before ∧ L w)
    (n : Nat) (c d : Cur) (h : d ∈ lazyLoop step n c) :
    ∃ w, c.after = w ++ d.after ∧ d.before = w.reverse ++ c.before ∧
      ∃ ws : List Str, w = ws.flatten ∧ ∀ u ∈ ws, L u := by
  induction n generalizing c with
  | zero =>
    simp only [lazyLoop, List.mem_singleton] at h
    subst h
    exact ⟨[], by simp, by simp, [], by simp, by simp⟩
  | succ n ih =>
    simp only [lazyLoop, List.mem_cons, List.mem_flatMap, List.mem_filter] at h
    rcases h with rfl | ⟨m, ⟨hm, -⟩, hd⟩
    · exact ⟨[], by simp, by simp, [], by simp, by simp⟩
    · obtain ⟨u, hu1, hu2, hu3⟩ := hstep c m hm
      obtain ⟨v, hv1, hv2, ws, hws, hall⟩ := ih m hd
      refine ⟨u ++ v, by rw [hu1, hv1]; simp, by rw [hv2, hu2]; simp, u :: ws, by simp [hws], ?_⟩
      intro x hx
      rcases List.mem_cons.1 hx with rfl | hx
      · exact hu3
      · exact hall x hx

theorem run_sound (r : Re) : ∀ (c d : Cur), d ∈ r.run c →
    ∃ w, c.after = w ++ d.after ∧ d.before = w.reverse ++ c.before ∧ r.Lang w := by
  induction r with
  | eps =>
    intro c d h
    simp only [Re.run, List.mem_singleton] at h
    subst h
    exact ⟨[], by simp, by simp, rfl⟩
  | cls p =>
    intro c d h
    simp only [Re.run] at h
    split at h
    · cases h
    · rename_i x xs hafter
      split at h
      · rename_i hp
        simp only [List.mem_singleton] at h
        subst h
        exact ⟨[x], by simp [hafter], by simp, x, rfl, hp⟩
      · cases h
  | seq a b iha ihb =>
    intro c d h
    simp only [Re.run, List.mem_flatMap] at h
    obtain ⟨m, hm, hd⟩ := h
    obtain ⟨u, hu1, hu2, hu3⟩ := iha c m hm
    obtain ⟨v, hv1, hv2, hv3⟩ := ihb m d hd
    exact ⟨u ++ v, by rw [hu1, hv1]; simp, by rw [hv2, hu2]; simp, u, v, rfl, hu3, hv3⟩
  | alt a b iha ihb =>
    intro c d h
    simp only [Re.run, List.mem_append] at h
    rcases h with h | h
    · obtain ⟨w, h1, h2, h3⟩ := iha c d h
      exact ⟨w, h1, h2, Or.inl h3⟩
    · obtain ⟨w, h1, h2, h3⟩ := ihb c d h
      exact ⟨w, h1, h2, Or.inr h3⟩
  | star a iha =>
    intro c d h
    simp only [Re.run] at h
    exact starLoop_sound a.run a.Lang iha _ c d h
  | lazyStar a iha =>
    intro c d h
    simp only [Re.run] at h
    exact lazyLoop_sound a.run a.Lang iha _ c d h
  | grp n a iha =>
    intro c d h
    simp only [Re.run, List.mem_map] at h
    obtain ⟨d1, hd1, rfl⟩ := h
    exact iha c d1 hd1
  | bol =>
    intro c d h
    simp only [Re.run] at h
    split at h
    · simp only [List.mem_singleton] at h
      subst h
      exact ⟨[], by simp, by simp, rfl⟩
    · cases h
  | eol =>
    intro c d h
    simp only [Re.run] at h
    split at h
    · simp only [List.mem_singleton] at h
      subst h
      exact ⟨[], by simp, by simp, rfl⟩
    · cases h
  | wordB =>
    intro c d h
    simp only [Re.run] at h
    split at h
    · simp only [List.mem_singleton] at h
      subst h
      exact ⟨[], by simp, by simp, rfl⟩
    · cases h

theorem starLoop_caps (step : Cur → List Cur) (P : Cur → Prop)
    (hstep : ∀ c d, d ∈ step c → P c → P d) (n : Nat) (c d : Cur)
    (h : d ∈ starLoop step n c) (hc : P c) : P d := by
  induction n generalizing c with
  | zero =>
    simp only [starLoop, List.mem_singleton] at h
    subst h
    exact hc
  | succ n ih =>
    simp only [starLoop, List.mem_append, List.mem_flatMap, List.mem_filter,
      List.mem_singleton] at h
    rcases h with ⟨m, ⟨hm, -⟩, hd⟩ | rfl
    · exact ih m hd (hstep c m hm hc)
    · exact hc

theorem lazyLoop_caps (step : Cur → List Cur) (P : Cur → Prop)
    (hstep : ∀ c d, d ∈ step c → P c → P d) (n : Nat) (c d : Cur)
    (h : d ∈ lazyLoop step n c) (hc : P c) : P d := by
  induction n generalizing c with
  | zero =>
    simp only [lazyLoop, List.mem_singleton] at h
    subst h
    exact hc
  | succ n ih =>
    simp only [lazyLoop, List.mem_cons, List.mem_flatMap, List.mem_filter] at h
    rcases h with rfl | ⟨m, ⟨hm, -⟩, hd⟩
    · exact hc
    · exact ih m hd (hstep c m hm hc)

theorem run_caps (Q : Nat → Str → Prop) (r : Re) : r.CapsSat Q → ∀ (c d : Cur), d ∈ r.run c →
    (∀ e ∈ c.caps, Q e.1 e.2) → ∀ e ∈ d.caps, Q e.1 e.2 := by
  induction r with
  | eps =>
    intro _ c d h hc
    simp only [Re.run, List.mem_singleton] at h
    subst h
    exact hc
  | cls p =>
    intro _ c d h hc
    simp only [Re.run] at h
    split at h
    · cases h
    · split at h
      · simp only [List.mem_singleton] at h
        subst h
        exact hc
      · cases h
  | seq a b iha ihb =>
    intro hs c d h hc
    simp only [Re.run, List.mem_flatMap] at h
    obtain ⟨m, hm, hd⟩ := h
    exact ihb hs.2 m d hd (iha hs.1 c m hm hc)
  | alt a b iha ihb =>
    intro hs c d h hc
    simp only [Re.run, List.mem_append] at h
    rcases h with h | h
    · exact iha hs.1 c d h hc
    · exact ihb hs.2 c d h hc
  | star a iha =>
    intro hs c d h hc
    simp only [Re.run] at h
    exact starLoop_caps a.run (fun c => ∀ e ∈ c.caps, Q e.1 e.2) (iha hs) _ c d h hc
  | lazyStar a iha =>
    intro hs c d h hc
    simp only [Re.run] at h
    exact lazyLoop_caps a.run (fun c => ∀ e ∈ c.caps, Q e.1 e.2) (iha hs) _ c d h hc
  | grp n a iha =>
    intro hs c d h hc
    simp only [Re.run, List.mem_map] at h
    obtain ⟨d1, hd1, rfl⟩ := h
    intro e he
    simp only [List.mem_cons] at he
    rcases he with rfl | he
    · obtain ⟨w, h1, h2, h3⟩ := run_sound a c d1 hd1
      have hspan : c.span d1 = w := by
        simp [Cur.span, h2]
      simp only [hspan]
      exact hs.1 w h3
    · exact iha hs.2 c d1 hd1 hc e he
  | bol =>
    intro _ c d h hc
    simp only [Re.run] at h
    split at h
    · simp only [List.mem_singleton] at h
      subst h
      exact hc
    · cases h
  | eol =>
    intro _ c d h hc
    simp only [Re.run] at h
    split at h
    · simp only [List.mem_singleton] at h
      subst h
      exact hc
    · cases h
  | wordB =>
    intro _ c d h hc
    simp only [Re.run] at h
    split at h
    · simp only [List.mem_singleton] at h
      subst h
      exact hc
    · cases h

theorem execFrom_some (r : Re) (b s : List Nat) (m : Match) (h : r.execFrom b s = some m) :
    ∃ pre post d, s = pre ++ post ∧ d ∈ r.run ⟨pre.reverse ++ b, post, []⟩ ∧ m.caps = d.caps ∧
      m.whole = Cur.span ⟨pre.reverse ++ b, post, []⟩ d ∧ m.index = b.length + pre.length := by
  induction s generalizing b with
  | nil =>
    simp only [Re.execFrom] at h
    split at h
    · rename_i d ds hrun
      simp only [Option.some.injEq] at h
      subst h
      exact ⟨[], [], d, rfl, by simp [hrun], rfl, rfl, by simp⟩
    · cases h
  | cons x xs ih =>
    simp only [Re.execFrom] at h
    split at h
    · rename_i d ds hrun
      simp only [Option.some.injEq] at h
      subst h
      exact ⟨[], x :: xs, d, rfl, by simp [hrun], rfl, rfl, by simp⟩
    · obtain ⟨pre, post, d, hs, hd, hc, hw, hi⟩ := ih (x :: b) h
      refine ⟨x :: pre, post, d, by simp [hs], by simpa using hd, hc, by simpa using hw, ?_⟩
      rw [hi]
      simp only [List.length_cons]
      omega

theorem exec_group_sat (Q : Nat → Str → Prop) (r : Re) (hr : r.CapsSat Q) (s g : Str) (n : Nat)
    (m : Match) (h : r.exec s = some m) (hg : m.group n = some g) : Q n g := by
  obtain ⟨pre, post, d, -, hd, hc, -, -⟩ := execFrom_some r [] s m h
  have hall := run_caps Q r hr _ d hd (by simp)
  unfold Match.group at hg
  rw [hc] at hg
  cases hf : d.caps.find? (fun e => e.1 == n) with
  | none => simp [hf] at hg
  | some e =>
    simp only [hf, Option.map_some', Option.some.injEq] at hg
    have hmem := List.mem_of_find?_eq_some hf
    have hk := List.find?_some hf
    simp only [beq_iff_eq] at hk
    have := hall e hmem
    rw [hk, hg] at this
    exact this

/-! ### Literal patterns on lower-cased text -/

theorem lang_seqs_cons (a : Re) (l : List Re) (w : Str) (h : (Re.seqs (a :: l)).Lang w) :
    ∃ u v, w = u ++ v ∧ a.Lang u ∧ (Re.seqs l).Lang v := by
  cases l with
  | nil => exact ⟨w, [], by simp, by simpa [Re.seqs] using h, rfl⟩
  | cons b rest => simpa [Re.seqs, Re.Lang] using h

theorem lang_clsList (ps : List (Nat → Bool)) (w : Str)
    (h : (Re.seqs (ps.map Re.cls)).Lang w) : List.Forall₂ (fun p x => p x = true) ps w := by
  induction ps generalizing w with
  | nil =>
    simp only [List.map_nil, Re.seqs, Re.Lang] at h
    subst h
    exact List.Forall₂.nil
  | cons p ps ih =>
    obtain ⟨u, v, rfl, hu, hv⟩ := lang_seqs_cons _ _ w h
    obtain ⟨x, rfl, hx⟩ := hu
    exact List.Forall₂.cons hx (ih v hv)

theorem lang_litI (s : String) (w : Str) (h : (Re.litI s).Lang w) :
    List.Forall₂ (fun c x => eqI c x = true) (str s) w := by
  have := lang_clsList ((str s).map eqI) w (by
    simpa [Re.litI, Re.unitI, List.map_map] using h)
  rw [List.forall₂_map_left_iff] at this
  exact this

theorem lowerUnit_noUpper (c x : Nat) (h : x ∈ lowerUnit c) : isUpper x = false := by
  unfold lowerUnit at h
  split at h
  · rename_i hu
    simp only [List.mem_singleton] at h
    subst h
    simp only [isUpper, Bool.and_eq_true, decide_eq_true_eq] at hu
    simp only [isUpper, Bool.and_eq_false_imp, decide_eq_true_eq, decide_eq_false_iff_not]
    omega
  · split at h
    · simp only [List.mem_cons, List.mem_singleton, List.not_mem_nil, or_false] at h
      rcases h with rfl | rfl <;> decide
    · split at h
      · simp only [List.mem_singleton] at h
        subst h
        decide
      · rename_i hu _ _
        simp only [List.mem_singleton] at h
        subst h
        simpa using hu

theorem toLowerCase_noUpper (s : Str) : ∀ x ∈ toLowerCase s, isUpper x = false := by
  intro x hx
  simp only [toLowerCase, List.mem_flatMap] at hx
  obtain ⟨c, -, hc⟩ := hx
  exact lowerUnit_noUpper c x hc

theorem eqI_eq_of_noUpper {c x : Nat} (h : eqI c x = true) (hx : isUpper x = false)
    (hc : isUpper c = false) : x = c := by
  simp only [eqI, Bool.or_eq_true, beq_iff_eq, Bool.and_eq_true] at h
  rcases h with (h | ⟨hl, h⟩) | ⟨hu, -⟩
  · exact h
  · exfalso
    simp only [isLower, Bool.and_eq_true, decide_eq_true_eq] at hl
    simp only [isUpper, Bool.and_eq_false_imp, decide_eq_true_eq, decide_eq_false_iff_not] at hx
    omega
  · rw [hc] at hu
    cases hu

theorem forall₂_eqI_eq (pat w : Str) (h : List.Forall₂ (fun c x => eqI c x = true) pat w)
    (hw : ∀ x ∈ w, isUpper x = false) (hp : ∀ c ∈ pat, isUpper c = false) : w = pat := by
  induction h with
  | nil => rfl
  | @cons c x pat w hcx _ ih =>
    rw [eqI_eq_of_noUpper hcx (hw x (by simp)) (hp c (by simp)),
      ih (fun y hy => hw y (by simp [hy])) (fun y hy => hp y (by simp [hy]))]

theorem litI_test_false (s : String) (text : Str) (hinc : includes text (str s) = false)
    (htext : ∀ x ∈ text, isUpper x = false) (hpat : ∀ c ∈ str s, isUpper c = false) :
    (Re.litI s).test text = false := by
  rw [Bool.eq_false_iff]
  intro ht
  rw [test_iff] at ht
  obtain ⟨pre, post, hs, hne⟩ := ht
  obtain ⟨d, hd⟩ := List.exists_mem_of_ne_nil _ hne
  obtain ⟨w, hw1, -, hw3⟩ := run_sound _ _ d hd
  simp only at hw1
  have hall := lang_litI s w hw3
  have hwu : ∀ x ∈ w, isUpper x = false := by
    intro x hx
    exact htext x (by rw [hs, hw1]; simp [hx])
  have heq := forall₂_eqI_eq (str s) w hall hwu hpat
  rw [includes_eq_false_iff] at hinc
  apply hinc
  rw [hs, hw1, heq]
  exact ⟨pre, d.after, by simp⟩

theorem execFrom_reHexCode_isSome (b s : List Nat) :
    (reHexCode.execFrom b s).isSome = (firstHexCode s).isSome := by
  induction s generalizing b with
  | nil =>
    have h := run_reHexCode_ne_nil b []
    simp only [hexCodeAt_nil, Option.isSome_none, Bool.false_eq_true, iff_false, ne_eq,
      not_not] at h
    simp [Re.execFrom, h, firstHexCode]
  | cons x xs ih =>
    have h := run_reHexCode_ne_nil b (x :: xs)
    simp only [Re.execFrom, firstHexCode]
    cases hh : hexCodeAt (x :: xs) with
    | some v =>
      rw [hh] at h
      simp only [Option.isSome_some, iff_true] at h
      obtain ⟨d, ds, hd⟩ := List.exists_cons_of_ne_nil h
      simp [hd]
    | none =>
      rw [hh] at h
      simp only [Option.isSome_none, Bool.false_eq_true, iff_false, ne_eq, not_not] at h
      simpa [h] using ih (x :: b)

theorem reHexCode_test_eq (s : Str) : reHexCode.test s = (firstHexCode s).isSome := by
  unfold Re.test Re.exec
  exact execFrom_reHexCode_isSome [] s

theorem reVisualAction_test_of_verb (pre post : Str) (w : Nat) (name : String)
    (hname : name ∈ ["add", "create", "include", "insert"])
    (hall : List.Forall₂ (fun c x => eqI c x = true) (str name) (str name))
    (hside : wordSide (str name ++ w :: post) = true)
    (hpre : wordSide pre.reverse = false) (hw : isWs w = true) :
    reVisualAction.test (pre ++ (str name ++ w :: post)) = true := by
  have hrun : (⟨w :: ((str name).reverse ++ pre.reverse), post,
      [(1, Cur.span ⟨pre.reverse, str name ++ w :: post, []⟩
        ⟨(str name).reverse ++ pre.reverse, w :: post, []⟩)]⟩ : Cur)
      ∈ reVisualAction.run ⟨pre.reverse, str name ++ w :: post, []⟩ := by
    unfold reVisualAction
    refine mem_run_seqs_cons (m := ⟨pre.reverse, str name ++ w :: post, []⟩)
      (by simp [Re.run, hside, hpre]) ?_
    refine mem_run_seqs_cons
      (m := ⟨(str name).reverse ++ pre.reverse, w :: post,
        [(1, Cur.span ⟨pre.reverse, str name ++ w :: post, []⟩
          ⟨(str name).reverse ++ pre.reverse, w :: post, []⟩)]⟩) ?_ ?_
    · simp only [Re.run, List.mem_map]
      refine ⟨⟨(str name).reverse ++ pre.reverse, w :: post, []⟩, ?_, rfl⟩
      exact mem_run_alts (List.mem_map.2 ⟨name, hname, rfl⟩)
        (mem_run_litI name (str name) pre.reverse (w :: post) [] hall)
    · refine mem_run_seqs_cons (mem_run_plus_one hw) ?_
      refine mem_run_seqs_cons (mem_run_opt_self _ _) ?_
      simp only [Re.seqs]
      exact mem_run_opt_self _ _
  exact test_of_mem hrun

/-- C8: let the lower-cased input (on which the classifier works, so that
every condition is read without regard to case) contain no hex code
`#hhhhhh`, no `rgb(`, neither `color` nor `colour`, one of the words add,
create, include or insert with no word character before it and white space
after it, and `circle` or `ellipse`; then the input is classified as the
visual element `circle`.  In particular `Add a decorative circle in the corner`
and `add a red circle` are visual circles, not texts. -/
theorem circle_classified_visual :
    (∀ (s pre verb post : Str) (w : Nat),
      firstHexCode (toLowerCase s) = none →
      includes (toLowerCase s) (str "rgb(") = false →
      includes (toLowerCase s) (str "color") = false →
      includes (toLowerCase s) (str "colour") = false →
      verb ∈ [str "add", str "create", str "include", str "insert"] →
      toLowerCase s = pre ++ (verb ++ w :: post) → wordSide pre.reverse = false →
      isWs w = true →
      (includes (toLowerCase s) (str "circle") = true ∨
        includes (toLowerCase s) (str "ellipse") = true) →
      parseRecommendation s = .visual (str "circle")) ∧
    parseRecommendation (str "Add a decorative circle in the corner") = .visual (str "circle") ∧
    parseRecommendation (str "add a red circle") = .visual (str "circle") := by
  refine ⟨?_, by decide!, by decide!⟩
  intro s pre verb post w hhex hrgb hcolor hcolour hverb htext hpre hw hshape
  have h1 : reHexCode.test (toLowerCase s) = false := by
    rw [reHexCode_test_eq, hhex]
    rfl
  have h2 : reRgbOpen.test (toLowerCase s) = false :=
    litI_test_false "rgb(" _ hrgb (toLowerCase_noUpper s) (by decide)
  have hcol : isColorStage (toLowerCase s) = false := by
    simp [isColorStage, hasColorLiteral, h1, h2, hcolor, hcolour]
  have hact : reVisualAction.test (toLowerCase s) = true := by
    rw [htext]
    simp only [List.mem_cons, List.mem_singleton, List.not_mem_nil, or_false] at hverb
    rcases hverb with h | h | h | h <;> subst h
    · exact reVisualAction_test_of_verb pre post w "add" (by simp) (by decide) rfl hpre hw
    · exact reVisualAction_test_of_verb pre post w "create" (by simp) (by decide) rfl hpre hw
    · exact reVisualAction_test_of_verb pre post w "include" (by simp) (by decide) rfl hpre hw
    · exact reVisualAction_test_of_verb pre post w "insert" (by simp) (by decide) rfl hpre hw
  have hkey : visualKeywords.any (fun keyword => includes (toLowerCase s) keyword) = true := by
    rw [List.any_eq_true]
    rcases hshape with h | h
    · exact ⟨str "circle", by simp [visualKeywords], h⟩
    · exact ⟨str "ellipse", by simp [visualKeywords], h⟩
  have hvis : isVisualStage (toLowerCase s) = true := by
    simp [isVisualStage, hact, hkey]
  have hel : extractElementFromRecommendation s = str "circle" := by
    unfold extractElementFromRecommendation
    rcases hshape with h | h <;> simp [h]
  unfold parseRecommendation
  simp [hcol, hvis, hel]

/-- C8, at a concrete input: `Please insert an ELLIPSE here` meets every
condition through the word `insert` and is a visual circle. -/
theorem circle_classified_visual_witness :
    parseRecommendation (str "Please insert an ELLIPSE here") = .visual (str "circle") :=
  circle_classified_visual.1 (str "Please insert an ELLIPSE here") (str "please ")
    (str "insert") (str "an ellipse here") 32 (by decide!) (by decide!) (by decide!)
    (by decide!) (by decide) (by decide!) (by decide) (by decide) (Or.inr (by decide!))

/-! ### Totality and the later stages of the classifier -/

/-- C16: `parseRecommendation` is a total function: for every input it returns
one result, whose type is one of `color`, `visual`, `border`, `fontSize`,
`fontFamily` and `text`; and the result of type `text` with an empty text is
the failure sentinel, which `addRecommendationToCanvas` turns into an error. -/
theorem parseRecommendation_total (s : Str) :
    (∃! p : Parsed, parseRecommendation s = p) ∧
    (parseRecommendation s).type ∈
      [str "color", str "visual", str "border", str "fontSize", str "fontFamily", str "text"] ∧
    (parseRecommendation s = .text [] →
      ∀ (selectedElementId : Option Str) (selection : List Str),
        addRecommendationToCanvas s selectedElementId selection
          = .error (rethrow (str "Could not extract text content from recommendation: " ++ s))) := by
  refine ⟨⟨parseRecommendation s, rfl, fun p hp => hp.symm⟩, ?_, ?_⟩
  · cases parseRecommendation s <;> simp [Parsed.type]
  · intro h selectedElementId selection
    unfold addRecommendationToCanvas
    rw [h]
    simp

theorem parseRecommendation_visual {s e : Str} (h : parseRecommendation s = .visual e) :
    e = extractElementFromRecommendation s := by
  unfold parseRecommendation at h
  simp only at h
  split at h
  · cases h
  · split at h
    · simp only [Parsed.visual.injEq] at h
      exact h.symm
    · split at h
      · cases h
      · split at h
        · cases h
        · split at h
          · cases h
          · split at h
            · cases h
            · split at h <;> cases h

theorem parseRecommendation_fontFamily {s n : Str} (h : parseRecommendation s = .fontFamily n) :
    fontFamilyStage s (toLowerCase s) = some n := by
  unfold parseRecommendation at h
  simp only at h
  split at h
  · cases h
  · split at h
    · cases h
    · split at h
      · cases h
      · split at h
        · cases h
        · split at h
          · rename_i fontName hf
            simp only [Parsed.fontFamily.injEq] at h
            rw [hf, h]
          · split at h
            · cases h
            · split at h <;> cases h

/-- C18 as stated fails: `Add a decorative symbol` is classified as visual and
names none of circle, ellipse, rectangle, square, triangle, shape and element,
and yet applying it raises no error: it creates a rectangle. -/
theorem visual_without_shape_is_not_rejected :
    (parseRecommendation (str "Add a decorative symbol")).type = str "visual" ∧
    ([str "circle", str "ellipse", str "rectangle", str "square", str "triangle", str "shape",
      str "element"].all
        (fun k => !(includes (toLowerCase (str "Add a decorative symbol")) k))) = true ∧
    addRecommendationToCanvas (str "Add a decorative symbol") none []
      = .ok (.createVisualRecommendation (str "rectangle")) := by
  decide!

/-- C18 as amended: every recommendation that is classified as visual and
names none of circle, ellipse, rectangle, square, triangle, shape and element
carries the element `rectangle`, the final default of
`extractElementFromRecommendation`, and applying it creates a rectangle; the
error for an undetermined element is never raised. -/
theorem visual_without_shape_defaults_to_rectangle (s e : Str)
    (hvis : parseRecommendation s = .visual e)
    (hnone : ∀ k ∈ [str "circle", str "ellipse", str "rectangle", str "square",
      str "triangle", str "shape", str "element"], includes (toLowerCase s) k = false) :
    parseRecommendation s = .visual (str "rectangle") ∧
    ∀ (selectedElementId : Option Str) (selection : List Str),
      addRecommendationToCanvas s selectedElementId selection
        = .ok (.createVisualRecommendation (str "rectangle")) := by
  have he : e = str "rectangle" := by
    rw [parseRecommendation_visual hvis]
    unfold extractElementFromRecommendation
    simp [hnone (str "circle") (by simp), hnone (str "ellipse") (by simp),
      hnone (str "rectangle") (by simp), hnone (str "square") (by simp),
      hnone (str "triangle") (by simp), hnone (str "shape") (by simp),
      hnone (str "element") (by simp)]
  refine ⟨by rw [hvis, he], ?_⟩
  intro selectedElementId selection
  unfold addRecommendationToCanvas
  rw [hvis, he]
  rfl

/-- C18 as amended, at a concrete input: `Add a decorative symbol`. -/
theorem visual_without_shape_defaults_to_rectangle_witness :
    parseRecommendation (str "Add a decorative symbol") = .visual (str "rectangle") ∧
    ∀ (selectedElementId : Option Str) (selection : List Str),
      addRecommendationToCanvas (str "Add a decorative symbol") selectedElementId selection
        = .ok (.createVisualRecommendation (str "rectangle")) :=
  visual_without_shape_defaults_to_rectangle (str "Add a decorative symbol") (str "rectangle")
    (by decide!) (by decide!)

theorem capsSat_seqs (Q : Nat → Str → Prop) (l : List Re) (h : ∀ a ∈ l, a.CapsSat Q) :
    (Re.seqs l).CapsSat Q := by
  induction l with
  | nil => simp [Re.seqs, Re.CapsSat]
  | cons a rest ih =>
    cases rest with
    | nil => simpa [Re.seqs] using h a (by simp)
    | cons b rest2 =>
      simp only [Re.seqs, Re.CapsSat]
      exact ⟨h a (by simp), ih (fun x hx => h x (by simp [hx]))⟩

theorem capsSat_alts (Q : Nat → Str → Prop) (l : List Re) (h : ∀ a ∈ l, a.CapsSat Q) :
    (Re.alts l).CapsSat Q := by
  induction l with
  | nil => simp [Re.alts, Re.CapsSat]
  | cons a rest ih =>
    cases rest with
    | nil => simpa [Re.alts] using h a (by simp)
    | cons b rest2 =>
      simp only [Re.alts, Re.CapsSat]
      exact ⟨h a (by simp), ih (fun x hx => h x (by simp [hx]))⟩

theorem capsSat_litI (Q : Nat → Str → Prop) (s : String) : (Re.litI s).CapsSat Q := by
  unfold Re.litI
  apply capsSat_seqs
  intro a ha
  simp only [List.mem_map] at ha
  obtain ⟨c, -, rfl⟩ := ha
  simp [Re.unitI, Re.CapsSat]

theorem capsSat_wordsI (Q : Nat → Str → Prop) (l : List String) : (Re.wordsI l).CapsSat Q := by
  unfold Re.wordsI
  apply capsSat_alts
  intro a ha
  simp only [List.mem_map] at ha
  obtain ⟨c, -, rfl⟩ := ha
  exact capsSat_litI Q c

theorem capsSat_plus_cls (Q : Nat → Str → Prop) (p : Nat → Bool) :
    (Re.plus (.cls p)).CapsSat Q := by
  simp [Re.plus, Re.CapsSat]

theorem lang_plus_cls (p : Nat → Bool) (w : Str) (h : (Re.plus (.cls p)).Lang w) :
    w ≠ [] ∧ ∀ c ∈ w, p c = true := by
  simp only [Re.plus, Re.Lang] at h
  obtain ⟨u, v, rfl, ⟨x, rfl, hx⟩, ws, rfl, hall⟩ := h
  refine ⟨by simp, ?_⟩
  intro c hc
  simp only [List.singleton_append, List.mem_cons, List.mem_flatten] at hc
  rcases hc with rfl | ⟨l, hl, hcl⟩
  · exact hx
  · obtain ⟨y, rfl, hy⟩ := hall l hl
    simp only [List.mem_singleton] at hcl
    subst hcl
    exact hy

theorem capsSat_word_group (n : Nat) :
    (Re.grp n (Re.plus Re.word)).CapsSat (fun _ w => IsWordRun w) := by
  simp only [Re.CapsSat, Re.word]
  exact ⟨fun w hw => lang_plus_cls isWord w hw, trivial, trivial⟩

theorem capsSat_reLikePattern : reLikePattern.CapsSat (fun _ w => IsWordRun w) := by
  unfold reLikePattern
  apply capsSat_seqs
  intro a ha
  simp only [List.mem_cons, List.mem_singleton, List.not_mem_nil, or_false] at ha
  rcases ha with rfl | rfl | rfl | rfl
  · exact capsSat_litI _ _
  · exact capsSat_plus_cls _ _
  · exact capsSat_word_group 1
  · have h1 : (Re.seqs [Re.plus Re.ws, Re.litI "or", Re.plus Re.ws, Re.plus Re.word]).CapsSat
        (fun _ w => IsWordRun w) := by
      apply capsSat_seqs
      intro a ha
      simp only [List.mem_cons, List.mem_singleton, List.not_mem_nil, or_false] at ha
      rcases ha with rfl | rfl | rfl | rfl
      · exact capsSat_plus_cls _ _
      · exact capsSat_litI _ _
      · exact capsSat_plus_cls _ _
      · exact capsSat_plus_cls _ _
    exact ⟨h1, trivial⟩

theorem capsSat_reSwitchPattern : reSwitchPattern.CapsSat (fun _ w => IsWordRun w) := by
  unfold reSwitchPattern
  apply capsSat_seqs
  intro a ha
  simp only [List.mem_cons, List.mem_singleton, List.not_mem_nil, or_false] at ha
  rcases ha with rfl | rfl | rfl | rfl | rfl | rfl | rfl | rfl
  · exact capsSat_wordsI _ _
  · exact capsSat_plus_cls _ _
  · have h1 : (Re.litI "the").CapsSat (fun _ w => IsWordRun w) := capsSat_litI _ _
    have h2 : (Re.plus Re.ws).CapsSat (fun _ w => IsWordRun w) := capsSat_plus_cls _ _
    exact ⟨⟨h1, h2⟩, trivial⟩
  · exact capsSat_litI _ _
  · exact capsSat_plus_cls _ _
  · exact capsSat_litI _ _
  · exact capsSat_plus_cls _ _
  · exact capsSat_word_group 1

theorem captured_font_name (r : Re) (hr : r.CapsSat (fun _ w => IsWordRun w)) (text n : Str)
    (m : Match) (hm : r.exec text = some m) (hn : (m.group 1).getD [] = n) (hne : n ≠ []) :
    IsWordRun n := by
  cases hg : m.group 1 with
  | none =>
    rw [hg] at hn
    exact absurd hn.symm hne
  | some g =>
    rw [hg] at hn
    simp only [Option.getD_some] at hn
    subst hn
    exact exec_group_sat _ r hr text g 1 m hm hg

/-! ### The place of a captured word -/

theorem run_caps_eq (r : Re) : r.CapsSat (fun _ _ => False) → ∀ (c d : Cur), d ∈ r.run c →
    d.caps = c.caps := by
  induction r with
  | eps =>
    intro _ c d h
    simp only [Re.run, List.mem_singleton] at h
    subst h
    rfl
  | cls p =>
    intro _ c d h
    simp only [Re.run] at h
    split at h
    · cases h
    · split at h
      · simp only [List.mem_singleton] at h
        subst h
        rfl
      · cases h
  | seq a b iha ihb =>
    intro hs c d h
    simp only [Re.run, List.mem_flatMap] at h
    obtain ⟨m, hm, hd⟩ := h
    rw [ihb hs.2 m d hd, iha hs.1 c m hm]
  | alt a b iha ihb =>
    intro hs c d h
    simp only [Re.run, List.mem_append] at h
    rcases h with h | h
    · exact iha hs.1 c d h
    · exact ihb hs.2 c d h
  | star a iha =>
    intro hs c d h
    simp only [Re.run] at h
    exact starLoop_caps a.run (fun x => x.caps = c.caps)
      (fun x y hy hx => (iha hs x y hy).trans hx) _ c d h rfl
  | lazyStar a iha =>
    intro hs c d h
    simp only [Re.run] at h
    exact lazyLoop_caps a.run (fun x => x.caps = c.caps)
      (fun x y hy hx => (iha hs x y hy).trans hx) _ c d h rfl
  | grp n a iha =>
    intro hs c d h
    simp only [Re.run, List.mem_map] at h
    obtain ⟨d1, hd1, rfl⟩ := h
    obtain ⟨w, -, -, h3⟩ := run_sound a c d1 hd1
    exact absurd h3 (hs.1 w)
  | bol =>
    intro _ c d h
    simp only [Re.run] at h
    split at h
    · simp only [List.mem_singleton] at h
      subst h
      rfl
    · cases h
  | eol =>
    intro _ c d h
    simp only [Re.run] at h
    split at h
    · simp only [List.mem_singleton] at h
      subst h
      rfl
    · cases h
  | wordB =>
    intro _ c d h
    simp only [Re.run] at h
    split at h
    · simp only [List.mem_singleton] at h
      subst h
      rfl
    · cases h

theorem execFrom_some_head (r : Re) (b s : List Nat) (m : Match) (h : r.execFrom b s = some m) :
    ∃ pre post d rest, s = pre ++ post ∧ r.run ⟨pre.reverse ++ b, post, []⟩ = d :: rest ∧
      m.caps = d.caps := by
  induction s generalizing b with
  | nil =>
    simp only [Re.execFrom] at h
    split at h
    · rename_i d ds hrun
      simp only [Option.some.injEq] at h
      subst h
      exact ⟨[], [], d, ds, rfl, by simpa using hrun, rfl⟩
    · cases h
  | cons x xs ih =>
    simp only [Re.execFrom] at h
    split at h
    · rename_i d ds hrun
      simp only [Option.some.injEq] at h
      subst h
      exact ⟨[], x :: xs, d, ds, rfl, by simpa using hrun, rfl⟩
    · obtain ⟨pre, post, d, rest, hs, hd, hc⟩ := ih (x :: b) h
      exact ⟨x :: pre, post, d, rest, by simp [hs], by simpa using hd, hc⟩

theorem flatMap_head {α β : Type} (l : List α) (f : α → List β) (d : β) (rest : List β)
    (h : l.flatMap f = d :: rest) : ∃ x ∈ l, ∃ rest2, f x = d :: rest2 := by
  induction l with
  | nil => simp at h
  | cons a l ih =>
    rw [List.flatMap_cons] at h
    cases hfa : f a with
    | nil =>
      rw [hfa, List.nil_append] at h
      obtain ⟨x, hx, r2, hr2⟩ := ih h
      exact ⟨x, by simp [hx], r2, hr2⟩
    | cons e es =>
      rw [hfa, List.cons_append] at h
      simp only [List.cons.injEq] at h
      exact ⟨a, by simp, es, by rw [hfa, h.1]⟩

theorem flatMap_head_first {α β : Type} (l : List α) (f : α → List β) (d : β) (rest : List β)
    (h : l.flatMap f = d :: rest) (hf : ∀ x, f x ≠ []) :
    ∃ x l2 rest2, l = x :: l2 ∧ f x = d :: rest2 := by
  cases l with
  | nil => simp at h
  | cons a l =>
    rw [List.flatMap_cons] at h
    cases hfa : f a with
    | nil => exact absurd hfa (hf a)
    | cons e es =>
      rw [hfa, List.cons_append] at h
      simp only [List.cons.injEq] at h
      exact ⟨a, l, es, rfl, by rw [hfa, h.1]⟩

theorem run_seqs_append_head (l1 l2 : List Re) (c d : Cur) (rest : List Cur)
    (h : (Re.seqs (l1 ++ l2)).run c = d :: rest) :
    ∃ m ∈ (Re.seqs l1).run c, ∃ rest2, (Re.seqs l2).run m = d :: rest2 := by
  induction l1 generalizing c rest with
  | nil => exact ⟨c, by simp [Re.seqs, Re.run], rest, by simpa using h⟩
  | cons a l1 ih =>
    rw [List.cons_append, run_seqs_cons] at h
    obtain ⟨x, hx, r2, hr2⟩ := flatMap_head _ _ d rest h
    obtain ⟨m, hm, r3, hr3⟩ := ih x r2 hr2
    exact ⟨m, mem_run_seqs_cons hx hm, r3, hr3⟩

theorem starLoop_cls_head (p : Nat → Bool) (t b : List Nat) (caps : List (Nat × Str)) (n : Nat)
    (hn : t.length ≤ n) :
    ∃ rest, starLoop (Re.cls p).run n ⟨b, t, caps⟩
      = ⟨(t.takeWhile p).reverse ++ b, t.dropWhile p, caps⟩ :: rest := by
  induction t generalizing b n with
  | nil =>
    have hstep : (Re.cls p).run ⟨b, [], caps⟩ = [] := by simp [Re.run]
    cases n with
    | zero => exact ⟨[], by simp [starLoop]⟩
    | succ n => exact ⟨[], by simp only [starLoop]; rw [hstep]; simp⟩
  | cons x t ih =>
    cases n with
    | zero => simp at hn
    | succ n =>
      by_cases hx : p x = true
      · obtain ⟨rest, hrest⟩ := ih (x :: b) n (by simpa using hn)
        have hstep : (Re.cls p).run ⟨b, x :: t, caps⟩ = [⟨x :: b, t, caps⟩] := by
          simp [Re.run, hx]
        refine ⟨rest ++ [⟨b, x :: t, caps⟩], ?_⟩
        simp only [starLoop]
        rw [hstep]
        simp [hrest, hx]
      · have hstep : (Re.cls p).run ⟨b, x :: t, caps⟩ = [] := by simp [Re.run, hx]
        refine ⟨[], ?_⟩
        simp only [starLoop]
        rw [hstep]
        simp [hx]

theorem run_plus_cls_head (p : Nat → Bool) (b t : List Nat) (caps : List (Nat × Str))
    (d : Cur) (rest : List Cur) (h : (Re.plus (.cls p)).run ⟨b, t, caps⟩ = d :: rest) :
    d = ⟨(t.takeWhile p).reverse ++ b, t.dropWhile p, caps⟩ ∧ t.takeWhile p ≠ [] := by
  have hrun : (Re.plus (.cls p)).run ⟨b, t, caps⟩
      = ((Re.cls p).run ⟨b, t, caps⟩).flatMap
        (fun m => starLoop (Re.cls p).run m.after.length m) := rfl
  rw [hrun] at h
  cases t with
  | nil =>
    have hstep : (Re.cls p).run ⟨b, [], caps⟩ = [] := by simp [Re.run]
    rw [hstep] at h
    simp at h
  | cons x t =>
    by_cases hx : p x = true
    · obtain ⟨r2, hr2⟩ := starLoop_cls_head p t (x :: b) caps t.length (le_refl _)
      have hstep : (Re.cls p).run ⟨b, x :: t, caps⟩ = [⟨x :: b, t, caps⟩] := by
        simp [Re.run, hx]
      rw [hstep] at h
      simp only [List.flatMap_cons, List.flatMap_nil, List.append_nil] at h
      rw [hr2] at h
      simp only [List.cons.injEq] at h
      refine ⟨?_, by simp [hx]⟩
      rw [← h.1]
      simp [hx]
    · have hstep : (Re.cls p).run ⟨b, x :: t, caps⟩ = [] := by simp [Re.run, hx]
      rw [hstep] at h
      simp at h

theorem wordSide_dropWhile (t : List Nat) : wordSide (t.dropWhile isWord) = false := by
  induction t with
  | nil => rfl
  | cons x t ih =>
    by_cases hx : isWord x = true
    · simpa [List.dropWhile_cons, hx] using ih
    · simp [List.dropWhile_cons, hx, wordSide]

theorem takeWhile_isWordRun (t : List Nat) (h : t.takeWhile isWord ≠ []) :
    IsWordRun (t.takeWhile isWord) :=
  ⟨h, fun _ hc => (List.mem_takeWhile_imp hc)⟩

theorem run_word_group_head (n : Nat) (b t : List Nat) (d : Cur) (rest : List Cur)
    (h : (Re.grp n (Re.plus Re.word)).run ⟨b, t, []⟩ = d :: rest) :
    d = ⟨(t.takeWhile isWord).reverse ++ b, t.dropWhile isWord, [(n, t.takeWhile isWord)]⟩ ∧
      IsWordRun (t.takeWhile isWord) := by
  have hrun : (Re.grp n (Re.plus Re.word)).run ⟨b, t, []⟩
      = ((Re.plus (.cls isWord)).run ⟨b, t, []⟩).map
        (fun d => ⟨d.before, d.after, (n, Cur.span ⟨b, t, []⟩ d) :: d.caps⟩) := rfl
  rw [hrun, List.map_eq_cons_iff] at h
  obtain ⟨d1, l1, hd1, hd, -⟩ := h
  obtain ⟨h1, h2⟩ := run_plus_cls_head isWord b t [] d1 l1 hd1
  subst h1
  refine ⟨?_, takeWhile_isWordRun t h2⟩
  rw [← hd]
  simp [Cur.span]

theorem lang_alts (l : List Re) (w : Str) (h : (Re.alts l).Lang w) : ∃ a ∈ l, a.Lang w := by
  induction l with
  | nil =>
    simp only [Re.alts, Re.Lang] at h
    obtain ⟨x, -, hx⟩ := h
    cases hx
  | cons a rest ih =>
    cases rest with
    | nil => exact ⟨a, by simp, by simpa [Re.alts] using h⟩
    | cons b rest2 =>
      simp only [Re.alts, Re.Lang] at h
      rcases h with h | h
      · exact ⟨a, by simp, h⟩
      · obtain ⟨x, hx, hl⟩ := ih h
        exact ⟨x, by simp [hx], hl⟩

theorem lang_litI_lower (s : String) (w : Str) (h : (Re.litI s).Lang w)
    (hw : ∀ x ∈ w, isUpper x = false) (hs : ∀ c ∈ str s, isUpper c = false) : w = str s :=
  forall₂_eqI_eq (str s) w (lang_litI s w h) hw hs

theorem lang_ws_run (w : Str) (h : (Re.plus Re.ws).Lang w) : IsWsRun w :=
  lang_plus_cls isWs w h

theorem reLikePattern_capture (text : Str) (htext : ∀ x ∈ text, isUpper x = false) (m : Match)
    (hm : reLikePattern.exec text = some m) :
    ∃ n, m.group 1 = some n ∧ AfterLike text n := by
  obtain ⟨pre, post, d, rest, hs, hrun, hc⟩ := execFrom_some_head reLikePattern [] text m hm
  simp only [List.append_nil] at hrun
  have hpat : reLikePattern = Re.seqs ([Re.litI "like", Re.plus Re.ws] ++
      [.grp 1 (Re.plus Re.word),
        Re.opt (Re.seqs [Re.plus Re.ws, Re.litI "or", Re.plus Re.ws, Re.plus Re.word])]) := rfl
  rw [hpat] at hrun
  obtain ⟨m2, hm2, r2, hr2⟩ := run_seqs_append_head _ _ _ d rest hrun
  obtain ⟨w, hw1, -, hw3⟩ := run_sound _ _ m2 hm2
  have hcaps2 : m2.caps = [] :=
    run_caps_eq _ (capsSat_seqs _ _ (by
      intro a ha
      simp only [List.mem_cons, List.mem_singleton, List.not_mem_nil, or_false] at ha
      rcases ha with rfl | rfl
      · exact capsSat_litI _ _
      · exact capsSat_plus_cls _ _)) _ m2 hm2
  obtain ⟨u, v, rfl, hu, hv⟩ := lang_seqs_cons _ _ w hw3
  simp only [Re.seqs] at hv
  simp only at hw1
  have htail : (Re.opt (Re.seqs [Re.plus Re.ws, Re.litI "or", Re.plus Re.ws,
      Re.plus Re.word])).CapsSat (fun _ _ => False) := by
    have h1 : (Re.seqs [Re.plus Re.ws, Re.litI "or", Re.plus Re.ws, Re.plus Re.word]).CapsSat
        (fun _ _ => False) := by
      apply capsSat_seqs
      intro a ha
      simp only [List.mem_cons, List.mem_singleton, List.not_mem_nil, or_false] at ha
      rcases ha with rfl | rfl | rfl | rfl
      · exact capsSat_plus_cls _ _
      · exact capsSat_litI _ _
      · exact capsSat_plus_cls _ _
      · exact capsSat_plus_cls _ _
    exact ⟨h1, trivial⟩
  rw [run_seqs_cons] at hr2
  obtain ⟨c3, l2, r3, hl, hr3⟩ := flatMap_head_first _ _ d r2 hr2
    (fun y => List.ne_nil_of_mem (by simp only [Re.seqs]; exact mem_run_opt_self _ y))
  obtain ⟨mb, ma, mc⟩ := m2
  simp only at hcaps2 hw1
  subst hcaps2
  obtain ⟨hc3, hword⟩ := run_word_group_head 1 mb ma c3 l2 hl
  have hd : d ∈ (Re.opt (Re.seqs [Re.plus Re.ws, Re.litI "or", Re.plus Re.ws,
      Re.plus Re.word])).run c3 := by
    have hr4 : (Re.opt (Re.seqs [Re.plus Re.ws, Re.litI "or", Re.plus Re.ws,
        Re.plus Re.word])).run c3 = d :: r3 := hr3
    rw [hr4]
    simp
  have hdc : d.caps = c3.caps := run_caps_eq _ htail c3 d hd
  have htext2 : text = pre ++ ((u ++ v) ++ (ma.takeWhile isWord ++ ma.dropWhile isWord)) := by
    rw [List.takeWhile_append_dropWhile, ← hw1, hs]
  have hu2 : u = str "like" := by
    apply lang_litI_lower "like" u hu _ (by decide)
    intro x hx
    exact htext x (by rw [htext2]; simp [hx])
  refine ⟨ma.takeWhile isWord, ?_, pre, v, ma.dropWhile isWord, ?_, lang_ws_run v hv, hword,
    wordSide_dropWhile ma⟩
  · rw [Match.group, hc, hdc, hc3]
    simp
  · rw [htext2, hu2]
    simp

theorem lang_wordsI_lower (l : List String) (w : Str) (h : (Re.wordsI l).Lang w)
    (hw : ∀ x ∈ w, isUpper x = false) (hl : ∀ s ∈ l, ∀ c ∈ str s, isUpper c = false) :
    w ∈ l.map str := by
  unfold Re.wordsI at h
  obtain ⟨a, ha, hlang⟩ := lang_alts _ w h
  simp only [List.mem_map] at ha
  obtain ⟨s, hs, rfl⟩ := ha
  rw [lang_litI_lower s w hlang hw (hl s hs)]
  exact List.mem_map.2 ⟨s, hs, rfl⟩

theorem reSwitchPattern_capture (text : Str) (htext : ∀ x ∈ text, isUpper x = false) (m : Match)
    (hm : reSwitchPattern.exec text = some m) :
    ∃ n, m.group 1 = some n ∧ AfterFontTo text n := by
  obtain ⟨pre, post, d, rest, hs, hrun, hc⟩ := execFrom_some_head reSwitchPattern [] text m hm
  simp only [List.append_nil] at hrun
  have hpat : reSwitchPattern = Re.seqs ([Re.wordsI ["switch", "change", "use", "apply"],
      Re.plus Re.ws, Re.opt (.seq (Re.litI "the") (Re.plus Re.ws)), Re.litI "font",
      Re.plus Re.ws, Re.litI "to", Re.plus Re.ws] ++ [.grp 1 (Re.plus Re.word)]) := rfl
  rw [hpat] at hrun
  obtain ⟨m2, hm2, r2, hr2⟩ := run_seqs_append_head _ _ _ d rest hrun
  obtain ⟨w, hw1, -, hw3⟩ := run_sound _ _ m2 hm2
  have hcaps2 : m2.caps = [] :=
    run_caps_eq _ (capsSat_seqs _ _ (by
      intro a ha
      simp only [List.mem_cons, List.mem_singleton, List.not_mem_nil, or_false] at ha
      rcases ha with rfl | rfl | rfl | rfl | rfl | rfl | rfl
      · exact capsSat_wordsI _ _
      · exact capsSat_plus_cls _ _
      · have h1 : (Re.litI "the").CapsSat (fun _ _ => False) := capsSat_litI _ _
        have h2 : (Re.plus Re.ws).CapsSat (fun _ _ => False) := capsSat_plus_cls _ _
        exact ⟨⟨h1, h2⟩, trivial⟩
      · exact capsSat_litI _ _
      · exact capsSat_plus_cls _ _
      · exact capsSat_litI _ _
      · exact capsSat_plus_cls _ _)) _ m2 hm2
  obtain ⟨u1, v1, rfl, hu1, hv1⟩ := lang_seqs_cons _ _ w hw3
  obtain ⟨u2, v2, rfl, hu2, hv2⟩ := lang_seqs_cons _ _ v1 hv1
  obtain ⟨u3, v3, rfl, hu3, hv3⟩ := lang_seqs_cons _ _ v2 hv2
  obtain ⟨u4, v4, rfl, hu4, hv4⟩ := lang_seqs_cons _ _ v3 hv3
  obtain ⟨u5, v5, rfl, hu5, hv5⟩ := lang_seqs_cons _ _ v4 hv4
  obtain ⟨u6, u7, rfl, hu6, hu7⟩ := lang_seqs_cons _ _ v5 hv5
  simp only [Re.seqs] at hu7
  obtain ⟨mb, ma, mc⟩ := m2
  simp only at hcaps2 hw1
  subst hcaps2
  have hr3 : (Re.grp 1 (Re.plus Re.word)).run ⟨mb, ma, []⟩ = d :: r2 := hr2
  obtain ⟨hd, hword⟩ := run_word_group_head 1 mb ma d r2 hr3
  have htext2 : text = pre ++ ((u1 ++ (u2 ++ (u3 ++ (u4 ++ (u5 ++ (u6 ++ u7)))))) ++
      (ma.takeWhile isWord ++ ma.dropWhile isWord)) := by
    rw [List.takeWhile_append_dropWhile, ← hw1, hs]
  have hsub : ∀ p : Str, (∀ x ∈ p, x ∈ u1 ++ (u2 ++ (u3 ++ (u4 ++ (u5 ++ (u6 ++ u7)))))) →
      ∀ x ∈ p, isUpper x = false := by
    intro p hp x hx
    exact htext x (by rw [htext2]; simp only [List.mem_append]; exact Or.inr (Or.inl (by
      simpa only [List.mem_append] using hp x hx)))
  have h1 : u1 ∈ [str "switch", str "change", str "use", str "apply"] := by
    have := lang_wordsI_lower _ u1 hu1 (hsub u1 (fun x hx => by simp [hx])) (by decide)
    simpa using this
  have h4 : u4 = str "font" :=
    lang_litI_lower "font" u4 hu4 (hsub u4 (fun x hx => by simp [hx])) (by decide)
  have h6 : u6 = str "to" :=
    lang_litI_lower "to" u6 hu6 (hsub u6 (fun x hx => by simp [hx])) (by decide)
  have h3 : u3 = [] ∨ ∃ g2, u3 = str "the" ++ g2 ∧ IsWsRun g2 := by
    simp only [Re.opt, Re.Lang] at hu3
    rcases hu3 with ⟨a, b, rfl, ha, hb⟩ | h
    · right
      refine ⟨b, ?_, lang_ws_run b hb⟩
      rw [lang_litI_lower "the" a ha (hsub a (fun x hx => by simp [hx])) (by decide)]
    · exact Or.inl h
  refine ⟨ma.takeWhile isWord, ?_, pre, u1, u2 ++ u3, u5, u7, ma.dropWhile isWord, ?_, h1, ?_,
    lang_ws_run u5 hu5, lang_ws_run u7 hu7, hword, wordSide_dropWhile ma⟩
  · rw [Match.group, hc, hd]
    simp
  · rw [htext2, h4, h6]
    simp
  · rcases h3 with h | ⟨g2, hg, hws⟩
    · left
      rw [h, List.append_nil]
      exact lang_ws_run u2 hu2
    · right
      exact ⟨u2, g2, by rw [hg], lang_ws_run u2 hu2, hws⟩

/-- C17 as stated fails: `Use a font like Roboto` is classified as font family
with the name `roboto`, which is not in the list of known font names. -/
theorem fontFamily_outside_known_names :
    parseRecommendation (str "Use a font like Roboto") = .fontFamily (str "roboto") ∧
    str "roboto" ∉ fontNames := by
  decide!

/-- C17 as amended: whenever `parseRecommendation` returns type `fontFamily`,
the font name is one of the known font names or, when the word captured
matches none of them, that captured word itself: a word of the lower-cased
input that stands right after `like` and white space, or right after
`switch`, `change`, `use` or `apply`, an optional `the`, `font` and `to` with
white space between them, and that no word character follows. -/
theorem fontFamily_known_or_captured (s n : Str) (h : parseRecommendation s = .fontFamily n) :
    n ∈ fontNames ∨
    (IsWordRun n ∧ findKnownFont n = none ∧
      (AfterLike (toLowerCase s) n ∨ AfterFontTo (toLowerCase s) n)) := by
  have hstage := parseRecommendation_fontFamily h
  unfold fontFamilyStage at hstage
  split at hstage
  · split at hstage
    · rename_i fontName hext
      split at hstage
      · simp only [Option.some.injEq] at hstage
        subst hstage
        unfold extractFontFamilyFromRecommendation at hext
        split at hext
        · cases hext
        · simp only at hext
          split at hext
          · rename_i m hm
            obtain ⟨n0, hg, hafter⟩ :=
              reLikePattern_capture (toLowerCase s) (toLowerCase_noUpper s) m hm
            have hw : IsWordRun n0 := by
              obtain ⟨_, _, _, _, _, hw, _⟩ := hafter
              exact hw
            rw [hg, Option.getD_some] at hext
            cases hfind : findKnownFont n0 with
            | some matchedFont =>
              rw [hfind] at hext
              simp only [Option.some.injEq] at hext
              subst hext
              exact Or.inl (List.mem_of_find?_eq_some hfind)
            | none =>
              rw [hfind] at hext
              simp only [Option.some.injEq] at hext
              subst hext
              exact Or.inr ⟨hw, hfind, Or.inl hafter⟩
          · split at hext
            · rename_i m hm
              obtain ⟨n0, hg, hafter⟩ :=
                reSwitchPattern_capture (toLowerCase s) (toLowerCase_noUpper s) m hm
              have hw : IsWordRun n0 := by
                obtain ⟨_, _, _, _, _, _, _, _, _, _, _, hw, _⟩ := hafter
                exact hw
              rw [hg, Option.getD_some] at hext
              cases hfind : findKnownFont n0 with
              | some matchedFont =>
                rw [hfind] at hext
                simp only [Option.some.injEq] at hext
                subst hext
                exact Or.inl (List.mem_of_find?_eq_some hfind)
              | none =>
                rw [hfind] at hext
                simp only [Option.some.injEq] at hext
                subst hext
                exact Or.inr ⟨hw, hfind, Or.inr hafter⟩
            · exact Or.inl (List.mem_of_find?_eq_some hext)
      · cases hstage
    · cases hstage
  · cases hstage

/-- C17 as amended, at a concrete input: in `Use a font like Roboto` the word
`roboto` stands after `like` and a space, and ends the text. -/
theorem fontFamily_known_or_captured_witness :
    str "roboto" ∈ fontNames ∨
    (IsWordRun (str "roboto") ∧ findKnownFont (str "roboto") = none ∧
      (AfterLike (toLowerCase (str "Use a font like Roboto")) (str "roboto") ∨
        AfterFontTo (toLowerCase (str "Use a font like Roboto")) (str "roboto"))) :=
  fontFamily_known_or_captured (str "Use a font like Roboto") (str "roboto") (by decide!)

/-! ### Translation with equal source and target -/

/-- C19, at the failing inputs: for the text ` hi ` (with a space on each
side) and the language Tamil as source and target, the function returns `hi`,
not the text it was given; for a text of 2001 letters it returns the first
2000 of them; and for a text of one space, which is not empty, it throws. -/
theorem translate_same_language_changes_text :
    callSarvamTranslateAPI (str " hi ") (str "Tamil") (str "Tamil") = .returns (str "hi") ∧
    str "hi" ≠ str " hi " ∧
    callSarvamTranslateAPI (List.replicate 2001 97) (str "Tamil") (str "Tamil")
      = .returns (List.replicate 2000 97) ∧
    callSarvamTranslateAPI (str " ") (str "Tamil") (str "Tamil")
      = .throws (str "Sarvam Translate API call failed: Input text cannot be empty") := by
  decide!

/-- What the branch for equal languages returns: for every language name `L`
and every text that is not all white space, `callSarvamTranslateAPI(text, L, L)`
sends no request and returns the trimmed text, cut to its first 2000 code
units when it is longer. -/
theorem translate_same_language_returns_trimmed (text language : Str)
    (h : trim text ≠ []) :
    callSarvamTranslateAPI text language language
      = .returns (if (trim text).length > 2000 then substring (trim text) 0 2000
          else trim text) := by
  have hkey : (SARVAM_API_KEY.isEmpty || decide (SARVAM_API_KEY = str "YOUR_SARVAM_API_KEY_HERE"))
      = false := by decide
  have hne : text ≠ [] := by
    intro h0
    rw [h0] at h
    exact h rfl
  have hlen : (trim text).length ≠ 0 := by
    intro h0
    exact h (List.length_eq_zero.1 h0)
  have hempty : getSarvamLanguageCode [] = LangCode.code (str "en-IN") := by decide
  unfold callSarvamTranslateAPI
  simp only [hkey, Bool.false_eq_true, if_false]
  rw [if_neg (by simp [hne, hlen])]
  by_cases hl : language = []
  · subst hl
    simp [hempty]
  · simp [hl]

/-- The branch for equal languages at ` hi ` with Tamil as both languages. -/
theorem translate_same_language_returns_trimmed_witness :
    callSarvamTranslateAPI (str " hi ") (str "Tamil") (str "Tamil")
      = .returns (if (trim (str " hi ")).length > 2000 then substring (trim (str " hi ")) 0 2000
          else trim (str " hi ")) :=
  translate_same_language_returns_trimmed (str " hi ") (str "Tamil") (by decide)

/-! ### The score read from the response -/

theorem lineScore_le (line : Str) (v : Nat) (h : lineScore line = some v) : v ≤ 100 := by
  unfold lineScore at h
  split at h
  · split at h
    · rename_i hle
      simp only [Option.some.injEq] at h
      rw [← h]
      exact hle
    · cases h
  · cases h

/-- C13 as stated fails: in the response `250 85` the first standalone integer
in the range 0..100 of the first five lines is 85, but the score is 75: the
loop reads only the first standalone number of a line, here 250, and then
moves on to the next line. -/
theorem parseScore_skips_later_numbers :
    firstStandaloneInRange (str "250 85") = 85 ∧ parseScore (str "250 85") = 75 := by
  decide!

/-- C13 as amended: the score is always at most 100; it is the value that the
first of the first five lines with a value yields, where a line yields the
value of its first match of `\b(\d{1,3})\b` when that value is at most 100 and
nothing otherwise; and it is 75 when none of those lines yields a value. -/
theorem parseScore_first_yielding_line (result : Str) :
    parseScore result ≤ 100 ∧
    ((∃ before line after, (splitOn 10 result).take 5 = before ++ line :: after ∧
        (∀ l ∈ before, lineScore l = none) ∧ lineScore line = some (parseScore result)) ∨
      ((∀ l ∈ (splitOn 10 result).take 5, lineScore l = none) ∧ parseScore result = 75)) := by
  unfold parseScore
  cases h : ((splitOn 10 result).take 5).findSome? lineScore with
  | none =>
    simp only [Option.getD_none]
    refine ⟨by omega, Or.inr ⟨?_, trivial⟩⟩
    exact List.findSome?_eq_none_iff.1 h
  | some v =>
    simp only [Option.getD_some]
    obtain ⟨before, line, after, hsplit, hline, hbefore⟩ := List.findSome?_eq_some_iff.1 h
    exact ⟨lineScore_le line v hline, Or.inl ⟨before, line, after, hsplit, hbefore, hline⟩⟩

/-! ### The language factor -/

theorem ratio_gt_iff (a b r t : Nat) (ht : 0 < t) (hb : 0 < b) :
    b * r > a * t ↔ (r : Rat) / t > (a : Rat) / b := by
  have ht' : (0 : Rat) < t := by exact_mod_cast ht
  have hb' : (0 : Rat) < b := by exact_mod_cast hb
  rw [gt_iff_lt, gt_iff_lt, div_lt_div_iff₀ hb' ht']
  constructor
  · intro h
    have : ((a * t : Nat) : Rat) < ((b * r : Nat) : Rat) := by exact_mod_cast h
    push_cast at this
    linarith
  · intro h
    have : ((a * t : Nat) : Rat) < ((b * r : Nat) : Rat) := by
      push_cast
      linarith
    exact_mod_cast this

theorem truthyStrings_ne_nil (own : Option Str) (others : Option (List (Option Str)))
    (t : Str) (ht : t ∈ truthyStrings own others) : t ≠ [] := by
  unfold truthyStrings at ht
  simp only [List.mem_append] at ht
  rcases ht with ht | ht
  · cases own with
    | none => simp at ht
    | some s =>
      by_cases hs : s.isEmpty = true
      · simp [hs] at ht
      · simp only [hs, Bool.false_eq_true, if_false, List.mem_singleton] at ht
        subst ht
        intro h0
        exact hs (by simp [h0])
  · cases others with
    | none => simp at ht
    | some l =>
      simp only [List.mem_filterMap] at ht
      obtain ⟨a, -, ha⟩ := ht
      cases a with
      | none => simp [Option.filter] at ha
      | some v =>
        by_cases hv : v.isEmpty = true
        · simp [Option.filter, hv] at ha
        · simp only [Option.filter, hv, Bool.not_false, if_true, Option.some.injEq] at ha
          subst ha
          intro h0
          exact hv (by simp [h0])

theorem isEnglish_iff (text : Str) (h : text ≠ []) :
    isEnglish text = true ↔ ((text.filter isLatin).length : Rat) / text.length > 7 / 10 := by
  have hlen : 0 < text.length := List.length_pos.2 h
  have := ratio_gt_iff 7 10 (text.filter isLatin).length text.length hlen (by omega)
  simp only [Nat.cast_ofNat] at this
  rw [← this]
  simp [isEnglish]

/-- C14 as stated fails: the five texts of this element all have more than 70%
ASCII letters, one of them is also in Tamil script, so that the share of
Tamil texts is 1/5, not above 0.2; the claim gives 10 and the function 5. -/
theorem scoreLanguage_all_english_not_ten :
    (extractAllText mixedElement).length = 5 ∧
    regionalCount mixedElement (str "Tamil") = 1 ∧
    (∀ t ∈ extractAllText mixedElement, isEnglish t = true) ∧
    scoreLanguage mixedElement (str "Tamil") = 5 := by
  decide!

/-- C14 as amended: `scoreLanguage` is 15 for an element without texts;
otherwise, with `R` the number of texts in the script of the language and `T`
the number of texts, it is 30 if `R/T > 0.8`, else 25 if `R/T > 0.5`, else 20
if `R/T > 0.2`, else 10 if no text is in the script and every text is English,
else 5; a text being English when more than 70% of its units are ASCII letters. -/
theorem scoreLanguage_eq (elementData : ElementData) (language : Str) :
    scoreLanguage elementData language =
      (if (extractAllText elementData).length = 0 then 15
       else if (regionalCount elementData language : Rat) / (extractAllText elementData).length
          > 8 / 10 then 30
       else if (regionalCount elementData language : Rat) / (extractAllText elementData).length
          > 5 / 10 then 25
       else if (regionalCount elementData language : Rat) / (extractAllText elementData).length
          > 2 / 10 then 20
       else if ∀ t ∈ extractAllText elementData,
          isInRegionalLanguage t language = false ∧ isEnglish t = true then 10
       else 5) ∧
    (∀ t ∈ extractAllText elementData,
      (isEnglish t = true ↔ ((t.filter isLatin).length : Rat) / t.length > 7 / 10)) := by
  constructor
  · unfold scoreLanguage regionalCount
    by_cases h0 : (extractAllText elementData).length = 0
    · have : extractAllText elementData = [] := List.length_eq_zero.1 h0
      simp [this]
    · have hpos : 0 < (extractAllText elementData).length := Nat.pos_of_ne_zero h0
      have hne : (extractAllText elementData).isEmpty = false := by
        cases h : extractAllText elementData with
        | nil => simp [h] at h0
        | cons _ _ => rfl
      have e1 := ratio_gt_iff 4 5 ((extractAllText elementData).filter
        (fun t => isInRegionalLanguage t language)).length _ hpos (by omega)
      have e2 := ratio_gt_iff 1 2 ((extractAllText elementData).filter
        (fun t => isInRegionalLanguage t language)).length _ hpos (by omega)
      have e3 := ratio_gt_iff 1 5 ((extractAllText elementData).filter
        (fun t => isInRegionalLanguage t language)).length _ hpos (by omega)
      have e1' : (8 : Rat) / 10 = ((4 : Nat) : Rat) / ((5 : Nat) : Rat) := by norm_num
      have e2' : (5 : Rat) / 10 = ((1 : Nat) : Rat) / ((2 : Nat) : Rat) := by norm_num
      have e3' : (2 : Rat) / 10 = ((1 : Nat) : Rat) / ((5 : Nat) : Rat) := by norm_num
      rw [e1', e2', e3']
      simp only [hne, Bool.false_eq_true, if_false, h0, ← e1, ← e2, ← e3, one_mul,
        List.filter_length_eq_length, Bool.and_eq_true, Bool.not_eq_true', gt_iff_lt]
  · intro t ht
    exact isEnglish_iff t (truthyStrings_ne_nil _ _ t ht)

/-! ### The colour factor -/

theorem sqDiff_eq (a b : Nat) : (sqDiff a b : Int) = ((a : Int) - b) ^ 2 := by
  unfold sqDiff
  rcases Nat.le_total a b with h | h
  · rw [Nat.sub_eq_zero_of_le h]
    push_cast [Nat.cast_sub h]
    ring
  · rw [Nat.sub_eq_zero_of_le h]
    push_cast [Nat.cast_sub h]
    ring

theorem isHex_ne_sharp {x : Nat} (h : isHex x = true) : (x == 35) = false := by
  simp only [isHex, isDigit, Bool.or_eq_true, Bool.and_eq_true, decide_eq_true_eq] at h
  simp only [beq_eq_false_iff_ne, ne_eq]
  omega

theorem hexToRgb_six (a b c d e f : Nat) (ha : isHex a = true) (hb : isHex b = true)
    (hc : isHex c = true) (hd : isHex d = true) (he : isHex e = true) (hf : isHex f = true) :
    hexToRgb [a, b, c, d, e, f] = some (parseHex [a, b], parseHex [c, d], parseHex [e, f]) := by
  have hna := isHex_ne_sharp ha
  have hna2 : a ≠ 35 := by simpa using hna
  simp [hexToRgb, Re.exec, Re.execFrom, Re.run, Re.seqs, Re.rep, Re.opt, Re.unit, Re.hex,
    Cur.span, Match.group, ha, hb, hc, hd, he, hf, hna, hna2]

theorem hexToRgb_seven (a b c d e f : Nat) (ha : isHex a = true) (hb : isHex b = true)
    (hc : isHex c = true) (hd : isHex d = true) (he : isHex e = true) (hf : isHex f = true) :
    hexToRgb [35, a, b, c, d, e, f]
      = some (parseHex [a, b], parseHex [c, d], parseHex [e, f]) := by
  simp [hexToRgb, Re.exec, Re.execFrom, Re.run, Re.seqs, Re.rep, Re.opt, Re.unit, Re.hex,
    Cur.span, Match.group, ha, hb, hc, hd, he, hf]

theorem isHexColor_cases (color : Str) (h : isHexColor color = true) :
    ∃ a b c d e f, isHex a = true ∧ isHex b = true ∧ isHex c = true ∧ isHex d = true ∧
      isHex e = true ∧ isHex f = true ∧
      (color = [a, b, c, d, e, f] ∨ color = [35, a, b, c, d, e, f]) := by
  have key : ∀ l : Str, (l.length == 6 && l.all isHex) = true →
      ∃ a b c d e f, isHex a = true ∧ isHex b = true ∧ isHex c = true ∧ isHex d = true ∧
        isHex e = true ∧ isHex f = true ∧ l = [a, b, c, d, e, f] := by
    intro l hl
    simp only [Bool.and_eq_true, beq_iff_eq, List.all_eq_true] at hl
    obtain ⟨hlen, hall⟩ := hl
    rcases l with _ | ⟨a, _ | ⟨b, _ | ⟨c, _ | ⟨d, _ | ⟨e, _ | ⟨f, _ | ⟨g, rest⟩⟩⟩⟩⟩⟩⟩ <;>
      simp at hlen
    exact ⟨a, b, c, d, e, f, hall a (by simp), hall b (by simp), hall c (by simp),
      hall d (by simp), hall e (by simp), hall f (by simp), rfl⟩
  unfold isHexColor at h
  split at h
  · obtain ⟨a, b, c, d, e, f, ha, hb, hc, hd, he, hf, rfl⟩ := key _ h
    exact ⟨a, b, c, d, e, f, ha, hb, hc, hd, he, hf, Or.inr rfl⟩
  · obtain ⟨a, b, c, d, e, f, ha, hb, hc, hd, he, hf, rfl⟩ := key _ h
    exact ⟨a, b, c, d, e, f, ha, hb, hc, hd, he, hf, Or.inl rfl⟩

theorem rgbOfHex_six (a b c d e f : Nat) (ha : isHex a = true) :
    rgbOfHex [a, b, c, d, e, f] = (parseHex [a, b], parseHex [c, d], parseHex [e, f]) := by
  have hna2 : a ≠ 35 := by simpa using isHex_ne_sharp ha
  unfold rgbOfHex
  split
  · rename_i heq
    simp only [List.cons.injEq] at heq
    exact absurd heq.1 hna2
  · rfl

theorem rgbOfHex_seven (a b c d e f : Nat) :
    rgbOfHex [35, a, b, c, d, e, f] = (parseHex [a, b], parseHex [c, d], parseHex [e, f]) := rfl

theorem hexToRgb_of_isHexColor (color : Str) (h : isHexColor color = true) :
    hexToRgb color = some (rgbOfHex color) := by
  obtain ⟨a, b, c, d, e, f, ha, hb, hc, hd, he, hf, rfl | rfl⟩ := isHexColor_cases color h
  · rw [hexToRgb_six a b c d e f ha hb hc hd he hf, rgbOfHex_six a b c d e f ha]
  · rw [hexToRgb_seven a b c d e f ha hb hc hd he hf, rgbOfHex_seven]

theorem upperUnit_of_isHex {x : Nat} (h : isHex x = true) :
    ∃ y, upperUnit x = [y] ∧ isHex y = true ∧ hexDigit y = hexDigit x := by
  simp only [isHex, isDigit, Bool.or_eq_true, Bool.and_eq_true, decide_eq_true_eq] at h
  by_cases hl : isLower x = true
  · refine ⟨x - 32, by simp [upperUnit, hl], ?_, ?_⟩
    · simp only [isLower, Bool.and_eq_true, decide_eq_true_eq] at hl
      simp only [isHex, isDigit, Bool.or_eq_true, Bool.and_eq_true, decide_eq_true_eq]
      omega
    · simp only [isLower, Bool.and_eq_true, decide_eq_true_eq] at hl
      have h1 : isDigit (x - 32) = false := by
        simp only [isDigit, Bool.and_eq_false_imp, decide_eq_true_eq, decide_eq_false_iff_not]
        omega
      have h2 : isDigit x = false := by
        simp only [isDigit, Bool.and_eq_false_imp, decide_eq_true_eq, decide_eq_false_iff_not]
        omega
      have h3 : ¬ (97 ≤ x - 32) := by omega
      have h4 : 97 ≤ x := by omega
      simp only [hexDigit, h1, h2, Bool.false_eq_true, if_false, h3, h4, if_true]
      omega
  · refine ⟨x, ?_, by
      simp only [isHex, isDigit, Bool.or_eq_true, Bool.and_eq_true, decide_eq_true_eq]
      exact h, rfl⟩
    have hl2 : isLower x = false := by simpa using hl
    simp only [isLower, Bool.and_eq_false_imp, decide_eq_true_eq, decide_eq_false_iff_not] at hl2
    have hs : x ≠ 223 ∧ x ≠ 305 ∧ x ≠ 329 ∧ x ≠ 383 ∧ x ≠ 496 ∧ x ≠ 7830 ∧ x ≠ 7831 ∧
        x ≠ 7832 ∧ x ≠ 7833 ∧ x ≠ 7834 ∧ x ≠ 64256 ∧ x ≠ 64257 ∧ x ≠ 64258 ∧ x ≠ 64259 ∧
        x ≠ 64260 ∧ x ≠ 64261 ∧ x ≠ 64262 := by omega
    simp [upperUnit, hl, hs]

theorem parseHex_pair (p q : Nat) : parseHex [p, q] = 16 * hexDigit p + hexDigit q := by
  simp [parseHex]

theorem hexToRgb_normalizeColor (color : Str) (h : isHexColor color = true) :
    hexToRgb (normalizeColor color) = some (rgbOfHex color) := by
  obtain ⟨a, b, c, d, e, f, ha, hb, hc, hd, he, hf, hcol⟩ := isHexColor_cases color h
  obtain ⟨a2, ea, ha2, va⟩ := upperUnit_of_isHex ha
  obtain ⟨b2, eb, hb2, vb⟩ := upperUnit_of_isHex hb
  obtain ⟨c2, ec, hc2, vc⟩ := upperUnit_of_isHex hc
  obtain ⟨d2, ed, hd2, vd⟩ := upperUnit_of_isHex hd
  obtain ⟨e2, ee, he2, ve⟩ := upperUnit_of_isHex he
  obtain ⟨f2, ef, hf2, vf⟩ := upperUnit_of_isHex hf
  have h35 : upperUnit 35 = [35] := by decide
  rcases hcol with rfl | rfl
  · have hup : normalizeColor [a, b, c, d, e, f] = [a2, b2, c2, d2, e2, f2] := by
      simp [normalizeColor, toUpperCase, ea, eb, ec, ed, ee, ef]
    rw [hup, hexToRgb_six a2 b2 c2 d2 e2 f2 ha2 hb2 hc2 hd2 he2 hf2,
      rgbOfHex_six a b c d e f ha]
    simp only [parseHex_pair, va, vb, vc, vd, ve, vf]
  · have hup : normalizeColor [35, a, b, c, d, e, f] = [35, a2, b2, c2, d2, e2, f2] := by
      simp [normalizeColor, toUpperCase, ea, eb, ec, ed, ee, ef, h35]
    rw [hup, hexToRgb_seven a2 b2 c2 d2 e2 f2 ha2 hb2 hc2 hd2 he2 hf2, rgbOfHex_seven]
    simp only [parseHex_pair, va, vb, vc, vd, ve, vf]

theorem areColorsSimilar_eq (color paletteColor : Str) (hc : isHexColor color = true)
    (hp : isHexColor paletteColor = true) :
    areColorsSimilar (normalizeColor color) paletteColor
      = decide (sqDistance (rgbOfHex color) (rgbOfHex paletteColor) < 1600) := by
  unfold areColorsSimilar
  rw [hexToRgb_normalizeColor color hc, hexToRgb_of_isHexColor paletteColor hp]
  rfl

theorem regional_palette_hex (state : Str) (palette : List Str)
    (h : lookupOrEmpty REGIONAL_COLORS state = some palette) :
    ∀ p ∈ palette, isHexColor p = true := by
  have hall : ∀ e ∈ REGIONAL_COLORS, ∀ p ∈ e.2, isHexColor p = true := by decide
  unfold lookupOrEmpty at h
  split at h
  · rename_i e he
    simp only [Option.some.injEq] at h
    subst h
    exact hall e (List.mem_of_find?_eq_some he)
  · split at h
    · cases h
    · simp only [Option.some.injEq] at h
      subst h
      simp

/-- C15: for a state whose palette the table yields (the palette of a known
state, the empty palette of an unknown one) and an element whose colours are
hex strings, `scoreColors` is 10 when there are no colours; otherwise, with `M`
the number of colours whose squared RGB distance to some colour of the palette
is below 1600 (distance below 40) and `N` the number of colours, it is 20 if
`M/N > 0.7`, else 16 if `M/N > 0.5`, else 12 if `M/N > 0.3`, else 8 if
`M/N > 0.1`, else 5. -/
theorem scoreColors_eq (elementData : ElementData) (state : Str) (palette : List Str)
    (hstate : lookupOrEmpty REGIONAL_COLORS state = some palette)
    (hhex : ∀ c ∈ extractColors elementData, isHexColor c = true) :
    scoreColors elementData state = some
      (if (extractColors elementData).length = 0 then 10
       else if (similarCount elementData palette : Rat) / (extractColors elementData).length
          > 7 / 10 then 20
       else if (similarCount elementData palette : Rat) / (extractColors elementData).length
          > 5 / 10 then 16
       else if (similarCount elementData palette : Rat) / (extractColors elementData).length
          > 3 / 10 then 12
       else if (similarCount elementData palette : Rat) / (extractColors elementData).length
          > 1 / 10 then 8
       else 5) := by
  have hpal := regional_palette_hex state palette hstate
  have hcount : ((extractColors elementData).filter
      (fun c => isColorInPalette c palette)).length = similarCount elementData palette := by
    unfold similarCount
    congr 1
    apply List.filter_congr
    intro c hc
    unfold isColorInPalette
    rw [Bool.eq_iff_iff]
    simp only [List.any_eq_true, decide_eq_true_eq]
    constructor
    · rintro ⟨p, hp, hsim⟩
      rw [areColorsSimilar_eq c p (hhex c hc) (hpal p hp)] at hsim
      exact ⟨p, hp, by simpa using hsim⟩
    · rintro ⟨p, hp, hsim⟩
      refine ⟨p, hp, ?_⟩
      rw [areColorsSimilar_eq c p (hhex c hc) (hpal p hp)]
      simpa using hsim
  unfold scoreColors
  by_cases h0 : (extractColors elementData).length = 0
  · have : extractColors elementData = [] := List.length_eq_zero.1 h0
    simp [this]
  · have hpos : 0 < (extractColors elementData).length := Nat.pos_of_ne_zero h0
    have hne : (extractColors elementData).isEmpty = false := by
      cases h : extractColors elementData with
      | nil => simp [h] at h0
      | cons _ _ => rfl
    have e1 := ratio_gt_iff 7 10 (similarCount elementData palette) _ hpos (by omega)
    have e2 := ratio_gt_iff 1 2 (similarCount elementData palette) _ hpos (by omega)
    have e3 := ratio_gt_iff 3 10 (similarCount elementData palette) _ hpos (by omega)
    have e4 := ratio_gt_iff 1 10 (similarCount elementData palette) _ hpos (by omega)
    have e1' : (7 : Rat) / 10 = ((7 : Nat) : Rat) / ((10 : Nat) : Rat) := by norm_num
    have e2' : (5 : Rat) / 10 = ((1 : Nat) : Rat) / ((2 : Nat) : Rat) := by norm_num
    have e3' : (3 : Rat) / 10 = ((3 : Nat) : Rat) / ((10 : Nat) : Rat) := by norm_num
    have e4' : (1 : Rat) / 10 = ((1 : Nat) : Rat) / ((10 : Nat) : Rat) := by norm_num
    rw [e1', e2', e3', e4']
    simp only [hne, Bool.false_eq_true, if_false, hstate, hcount, h0, ← e1, ← e2, ← e3, ← e4,
      one_mul, gt_iff_lt]
    split_ifs <;> rfl

/-- C15, at a concrete input: an element with the colours `#ff9933` and
`123456` and the state Tamil Nadu. -/
theorem scoreColors_eq_witness :
    scoreColors twoColorElement (str "Tamil Nadu") = some
      (if (extractColors twoColorElement).length = 0 then 10
       else if (similarCount twoColorElement
          [str "#FF9933", str "#DC143C", str "#FFD700", str "#228B22", str "#800020"] : Rat) /
            (extractColors twoColorElement).length > 7 / 10 then 20
       else if (similarCount twoColorElement
          [str "#FF9933", str "#DC143C", str "#FFD700", str "#228B22", str "#800020"] : Rat) /
            (extractColors twoColorElement).length > 5 / 10 then 16
       else if (similarCount twoColorElement
          [str "#FF9933", str "#DC143C", str "#FFD700", str "#228B22", str "#800020"] : Rat) /
            (extractColors twoColorElement).length > 3 / 10 then 12
       else if (similarCount twoColorElement
          [str "#FF9933", str "#DC143C", str "#FFD700", str "#228B22", str "#800020"] : Rat) /
            (extractColors twoColorElement).length > 1 / 10 then 8
       else 5) :=
  scoreColors_eq twoColorElement (str "Tamil Nadu")
    [str "#FF9933", str "#DC143C", str "#FFD700", str "#228B22", str "#800020"]
    (by decide!) (by decide!)

/-! ### Image suggestions -/

theorem pushItems_objects (acc : List ImageSuggestion) (items : List Json)
    (hobj : ∀ item ∈ items, ∃ fields, item = .obj fields) :
    pushItems acc items = (acc ++ (items.filter accepted).map toImageSuggestion, false) := by
  induction items generalizing acc with
  | nil => simp [pushItems]
  | cons item rest ih =>
    obtain ⟨fields, rfl⟩ := hobj item (by simp)
    have hrest : ∀ acc2, pushItems acc2 rest
        = (acc2 ++ (rest.filter accepted).map toImageSuggestion, false) :=
      fun acc2 => ih acc2 (fun x hx => hobj x (by simp [hx]))
    simp only [pushItems]
    rw [hrest]
    by_cases ha : accepted (.obj fields) = true
    · simp [ha]
    · simp [ha]

theorem elementsSection_some (response body : Str) (h : elementsSection response = some body) :
    parseElementsSuggestions response =
      match jsonParse body with
      | some (.arr items) =>
        match pushItems [] items with
        | (acc, false) => acc
        | (acc, true) => fenceFallback body acc
      | some _ => []
      | none => fenceFallback body [] := by
  unfold elementsSection at h
  unfold parseElementsSuggestions
  split at h
  · rename_i startIndex endIndex hs he
    simp only [Option.some.injEq] at h
    simp only [h]
  · cases h

/-- C11: when the trimmed text between the two markers parses as a JSON array
of objects, `parseElementsSuggestions` returns, in the order of the array, one
record for each item whose `type`, `prompt` and `description` are truthy (for
a string: not empty) and none for any other item; every record has
`isImagePrompt` true and carries the `dimensions` of its item when the item
has truthy ones (any object is) and width 512, height 512 when the item has
none, or has null, false, zero or the empty string in their place. -/
theorem parseElementsSuggestions_of_array (response body : Str) (items : List Json)
    (hbody : elementsSection response = some body)
    (hjson : jsonParse body = some (.arr items))
    (hobj : ∀ item ∈ items, ∃ fields, item = .obj fields) :
    parseElementsSuggestions response = (items.filter accepted).map toImageSuggestion ∧
    (∀ item, accepted item = true ↔
      (∃ t p d, item.get (str "type") = some t ∧ item.get (str "prompt") = some p ∧
        item.get (str "description") = some d ∧ t.truthy = true ∧ p.truthy = true ∧
        d.truthy = true)) ∧
    (∀ s : Str, (Json.string s).truthy = true ↔ s ≠ []) ∧
    (∀ item, (toImageSuggestion item).isImagePrompt = true ∧
      (∀ dims, item.get (str "dimensions") = some dims → dims.truthy = true →
        (toImageSuggestion item).dimensions = dims) ∧
      ((item.get (str "dimensions") = none ∨
          ∃ dims, item.get (str "dimensions") = some dims ∧ dims.truthy = false) →
        (toImageSuggestion item).dimensions
          = .obj [(str "width", .num 512), (str "height", .num 512)])) := by
  refine ⟨?_, ?_, ?_, ?_⟩
  · rw [elementsSection_some response body hbody, hjson]
    simp only [pushItems_objects [] items hobj, List.nil_append]
  · intro item
    unfold accepted
    cases h1 : item.get (str "type") <;> cases h2 : item.get (str "prompt") <;>
      cases h3 : item.get (str "description") <;> simp [propTruthy, and_assoc]
  · intro s
    cases s <;> simp [Json.truthy]
  · intro item
    refine ⟨rfl, ?_, ?_⟩
    · intro dims hd ht
      simp [toImageSuggestion, hd, propTruthy, ht]
    · rintro (hd | ⟨dims, hd, ht⟩)
      · simp [toImageSuggestion, hd, propTruthy, defaultDimensions]
      · simp [toImageSuggestion, hd, propTruthy, ht, defaultDimensions]

/-- C11, at a concrete input: an array of two objects, of which the first is
accepted with its own dimensions and the second, without a prompt, is not. -/
theorem parseElementsSuggestions_of_array_witness :
    parseElementsSuggestions plainArrayResponse
      = [{ type := .string (str "icon"), prompt := .string (str "p"),
           description := .string (str "d"),
           dimensions := .obj [(str "width", .num 256), (str "height", .num 256)],
           isImagePrompt := true }] :=
  (parseElementsSuggestions_of_array plainArrayResponse
    (str "[\x7b\"type\":\"icon\",\"prompt\":\"p\",\"description\":\"d\",\"dimensions\":\x7b\"width\":256,\"height\":256\x7d\x7d,\x7b\"type\":\"icon\",\"description\":\"d\"\x7d]")
    [.obj [(str "type", .string (str "icon")), (str "prompt", .string (str "p")),
        (str "description", .string (str "d")),
        (str "dimensions", .obj [(str "width", .num 256), (str "height", .num 256)])],
      .obj [(str "type", .string (str "icon")), (str "description", .string (str "d"))]]
    (by decide!) (by decide!) (by simp)).1.trans (by decide!)

/-- C12 as stated fails: the section of this response is not valid JSON and
holds a fenced block without the `json` tag whose contents are a JSON array of
one acceptable item, and yet nothing is returned. -/
theorem untagged_fence_is_ignored :
    (∃ body, elementsSection untaggedFenceResponse = some body ∧ jsonParse body = none ∧
      body = str "```\n[\x7b\"type\":\"icon\",\"prompt\":\"p\",\"description\":\"d\"\x7d]\n```") ∧
    jsonParse (str "[\x7b\"type\":\"icon\",\"prompt\":\"p\",\"description\":\"d\"\x7d]")
      = some (.arr [iconItem]) ∧
    accepted iconItem = true ∧
    parseElementsSuggestions untaggedFenceResponse = [] := by
  refine ⟨⟨_, by decide!, by decide!, rfl⟩, by decide!, by decide!, by decide!⟩

/-- C12 as amended: when the section is not valid JSON and its first fenced
block tagged `json` (the match of the fence pattern, which demands the tag)
holds a JSON array of objects, the accepted items of that array are returned;
for a fenced block tagged `json` around the one-item array of the scenario
exactly one record is returned, with dimensions 512 by 512; and when the
section is not valid JSON and no tagged block holds valid JSON, nothing is
returned. -/
theorem parseElementsSuggestions_tagged_fence :
    (∀ (response body inner : Str) (items : List Json),
      elementsSection response = some body → jsonParse body = none →
      (reFence.exec body).bind (fun m => m.group 1) = some inner →
      jsonParse inner = some (.arr items) →
      (∀ item ∈ items, ∃ fields, item = .obj fields) →
      parseElementsSuggestions response = (items.filter accepted).map toImageSuggestion) ∧
    parseElementsSuggestions taggedFenceResponse
      = [{ type := .string (str "icon"), prompt := .string (str "p"),
           description := .string (str "d"),
           dimensions := .obj [(str "width", .num 512), (str "height", .num 512)],
           isImagePrompt := true }] ∧
    (∀ (response body : Str), elementsSection response = some body → jsonParse body = none →
      (∀ inner, (reFence.exec body).bind (fun m => m.group 1) = some inner →
        jsonParse inner = none) →
      parseElementsSuggestions response = []) := by
  refine ⟨?_, by decide!, ?_⟩
  · intro response body inner items hbody hnone hfence hinner hobj
    rw [elementsSection_some response body hbody, hnone]
    simp only [fenceFallback, hfence, hinner, pushItems_objects [] items hobj, List.nil_append]
  · intro response body hbody hnone hfence
    rw [elementsSection_some response body hbody, hnone]
    simp only [fenceFallback]
    cases hf : (reFence.exec body).bind (fun m => m.group 1) with
    | none => rfl
    | some inner => simp only [hfence inner hf]

/-- C12 as amended, at a concrete input: the tagged fenced block of the scenario. -/
theorem parseElementsSuggestions_tagged_fence_witness :
    parseElementsSuggestions taggedFenceResponse
      = ([iconItem].filter accepted).map toImageSuggestion :=
  parseElementsSuggestions_tagged_fence.1 taggedFenceResponse
    (str "```json\n[\x7b\"type\":\"icon\",\"prompt\":\"p\",\"description\":\"d\"\x7d]\n```")
    (str "[\x7b\"type\":\"icon\",\"prompt\":\"p\",\"description\":\"d\"\x7d]") [iconItem]
    (by decide!) (by decide!) (by decide!) (by decide!) (by simp [iconItem])

/-! ### Lines, joins and splits -/

theorem join_cons (sep a : Str) (l : List Str) (h : l ≠ []) :
    join sep (a :: l) = a ++ sep ++ join sep l := by
  cases l with
  | nil => exact absurd rfl h
  | cons b rest => rfl

theorem join_append (sep : Str) (l1 l2 : List Str) (h1 : l1 ≠ []) (h2 : l2 ≠ []) :
    join sep (l1 ++ l2) = join sep l1 ++ sep ++ join sep l2 := by
  induction l1 with
  | nil => exact absurd rfl h1
  | cons a rest ih =>
    cases rest with
    | nil =>
      simp only [List.singleton_append, join]
      exact join_cons sep a l2 h2
    | cons b rest2 =>
      have hne : (b :: rest2) ++ l2 ≠ [] := by simp
      rw [List.cons_append, join_cons sep a _ hne, ih (by simp), join_cons sep a _ (by simp)]
      simp [List.append_assoc]

theorem splitOn_cons_ne (sep x : Nat) (t : Str) (hx : x ≠ sep) :
    splitOn sep (x :: t) =
      match splitOn sep t with
      | l :: ls => (x :: l) :: ls
      | [] => [[x]] := by
  simp only [splitOn, hx, if_false]

theorem splitOn_of_not_mem (sep : Nat) (l : Str) (h : ∀ c ∈ l, c ≠ sep) : splitOn sep l = [l] := by
  induction l with
  | nil => rfl
  | cons x xs ih =>
    have hx : x ≠ sep := h x (by simp)
    simp only [splitOn, hx, if_false]
    rw [ih (fun c hc => h c (by simp [hc]))]

theorem splitOn_append_sep (sep : Nat) (l rest : Str) (h : ∀ c ∈ l, c ≠ sep) :
    splitOn sep (l ++ sep :: rest) = l :: splitOn sep rest := by
  induction l with
  | nil => simp [splitOn]
  | cons x xs ih =>
    have hx : x ≠ sep := h x (by simp)
    rw [List.cons_append, splitOn_cons_ne sep x _ hx, ih (fun c hc => h c (by simp [hc]))]

theorem splitOn_join (lines : List Str) (hne : lines ≠ [])
    (h : ∀ l ∈ lines, ∀ c ∈ l, c ≠ 10) : splitOn 10 (join (str "\n") lines) = lines := by
  induction lines with
  | nil => exact absurd rfl hne
  | cons a rest ih =>
    cases rest with
    | nil => exact splitOn_of_not_mem 10 a (h a (by simp))
    | cons b rest2 =>
      rw [join_cons _ a _ (by simp)]
      have hsep : str "\n" = [10] := by decide
      rw [hsep, List.append_assoc, List.singleton_append,
        splitOn_append_sep 10 a _ (h a (by simp)), ← hsep,
        ih (by simp) (fun l hl => h l (by simp [hl]))]

theorem prefix_of_append_sep (pat u v : Str) (sep : Nat) (hsep : sep ∉ pat)
    (h : pat <+: u ++ sep :: v) : pat <+: u := by
  rcases List.prefix_or_prefix_of_prefix h (List.prefix_append u (sep :: v)) with h1 | h1
  · exact h1
  · obtain ⟨t, ht⟩ := h1
    cases t with
    | nil =>
      rw [List.append_nil] at ht
      rw [ht]
    | cons y ys =>
      exfalso
      rw [← ht, List.prefix_append_right_inj] at h
      have hy : y = sep := by
        obtain ⟨z, hz⟩ := h
        simp only [List.cons_append, List.cons.injEq] at hz
        exact hz.1
      apply hsep
      rw [← ht, hy]
      simp

theorem infix_of_append_sep (pat u v : Str) (sep : Nat) (hsep : sep ∉ pat)
    (h : pat <:+: u ++ sep :: v) : pat <:+: u ∨ pat <:+: v := by
  induction u with
  | nil =>
    simp only [List.nil_append] at h
    rw [List.infix_cons_iff] at h
    rcases h with h | h
    · have := prefix_of_append_sep pat [] v sep hsep (by simpa using h)
      exact Or.inl this.isInfix
    · exact Or.inr h
  | cons x xs ih =>
    rw [List.cons_append, List.infix_cons_iff] at h
    rcases h with h | h
    · have := prefix_of_append_sep pat (x :: xs) v sep hsep (by simpa using h)
      exact Or.inl this.isInfix
    · rcases ih h with h1 | h1
      · exact Or.inl (List.infix_cons_iff.2 (Or.inr h1))
      · exact Or.inr h1

theorem not_infix_join (pat : Str) (hsep : 10 ∉ pat) (lines : List Str)
    (h : ∀ l ∈ lines, ¬ pat <:+: l) (hpat : pat ≠ []) : ¬ pat <:+: join (str "\n") lines := by
  induction lines with
  | nil =>
    simp only [join]
    intro hin
    exact hpat (List.infix_nil.1 hin)
  | cons a rest ih =>
    cases rest with
    | nil => exact h a (by simp)
    | cons b rest2 =>
      rw [join_cons _ a _ (by simp)]
      have hs : str "\n" = [10] := by decide
      rw [hs, List.append_assoc, List.singleton_append]
      intro hin
      rcases infix_of_append_sep pat a _ 10 hsep hin with h1 | h1
      · exact h a (by simp) h1
      · exact ih (fun l hl => h l (by simp [hl])) h1

theorem length_dropWhile_le2 (p : Nat → Bool) (l : Str) :
    (l.dropWhile p).length ≤ l.length :=
  (List.dropWhile_suffix p).length_le

theorem head_not_ws_of_trim (l : Str) (x : Nat) (xs : Str) (hl : l = x :: xs)
    (ht : trim l = l) : isWs x = false := by
  by_contra hx
  have hx2 : isWs x = true := by simpa using hx
  have hlen : (trim l).length ≤ (l.dropWhile isWs).length := by
    unfold trim
    rw [List.length_reverse]
    exact (length_dropWhile_le2 _ _).trans (by rw [List.length_reverse])
  rw [ht, hl] at hlen
  simp only [List.dropWhile_cons, hx2, if_true] at hlen
  have := length_dropWhile_le2 isWs xs
  simp only [List.length_cons] at hlen
  omega

theorem last_not_ws_of_trim (l : Str) (y : Nat) (ys : Str) (hl : l = ys ++ [y])
    (ht : trim l = l) : isWs y = false := by
  by_contra hy
  have hy2 : isWs y = true := by simpa using hy
  have hsuf : l.dropWhile isWs <:+ l := List.dropWhile_suffix _
  have hpre : (l.dropWhile isWs).reverse <+: l.reverse := List.reverse_prefix.2 hsuf
  have hlt : (trim l).length < l.length := by
    unfold trim
    rw [List.length_reverse]
    cases hr : (l.dropWhile isWs).reverse with
    | nil => simp [hl]
    | cons r rs =>
      rw [hr] at hpre
      have hlr : l.reverse = y :: ys.reverse := by rw [hl]; simp
      rw [hlr] at hpre
      have hry : r = y := (List.cons_prefix_cons.1 hpre).1
      subst hry
      simp only [List.dropWhile_cons, hy2, if_true]
      have h1 := length_dropWhile_le2 isWs rs
      have h2 : (r :: rs).length ≤ l.length := by
        rw [← hr, List.length_reverse]
        exact hsuf.length_le
      simp only [List.length_cons] at h2
      omega
  rw [ht] at hlt
  omega

/-! ### The line loop on a well-formed section -/

theorem pairStep_original (st : PairState) :
    pairStep (reCountHeader "style suggestions") st (str "Original:")
      = ⟨flush st, some [], none, false⟩ := by
  have h1 : trim (str "Original:") = str "Original:" := by decide
  have h2 : startsWith (str "Original:") (str "Original:") = true := by decide
  simp [pairStep, h1, h2]

theorem pairStep_suggestion (st : PairState) :
    pairStep (reCountHeader "style suggestions") st (str "AI Suggestion:")
      = ⟨st.out, st.currentOriginal, some [], true⟩ := by
  have h1 : trim (str "AI Suggestion:") = str "AI Suggestion:" := by decide
  have h2 : startsWith (str "AI Suggestion:") (str "Original:") = false := by decide
  have h3 : startsWith (str "AI Suggestion:") (str "AI Suggestion:") = true := by decide
  simp [pairStep, h1, h2, h3]

theorem pairStep_blank (st : PairState) :
    pairStep (reCountHeader "style suggestions") st [] = st := by
  have h1 : trim ([] : Str) = [] := by decide
  have h2 : startsWith ([] : Str) (str "Original:") = false := by decide
  have h3 : startsWith ([] : Str) (str "AI Suggestion:") = false := by decide
  simp [pairStep, h1, h2, h3]

theorem pairStep_plain_original (out : List Pair) (v : Str) (cs : Option Str) (l : Str)
    (hl : PlainLine l) :
    pairStep (reCountHeader "style suggestions") ⟨out, some v, cs, false⟩ l
      = ⟨out, some (appendLine v l), cs, false⟩ := by
  obtain ⟨hne, htrim, -, ho, hs, hh, -⟩ := hl
  have hemp : l.isEmpty = false := by
    cases l with
    | nil => exact absurd rfl hne
    | cons _ _ => rfl
  simp [pairStep, htrim, ho, hs, hh, hemp]

theorem pairStep_plain_suggestion (out : List Pair) (co : Option Str) (v : Str) (l : Str)
    (hl : PlainLine l) :
    pairStep (reCountHeader "style suggestions") ⟨out, co, some v, true⟩ l
      = ⟨out, co, some (appendLine v l), true⟩ := by
  obtain ⟨hne, htrim, -, ho, hs, hh, -⟩ := hl
  have hemp : l.isEmpty = false := by
    cases l with
    | nil => exact absurd rfl hne
    | cons _ _ => rfl
  simp [pairStep, htrim, ho, hs, hh, hemp]

theorem foldl_plain_original (ls : List Str) (hls : ∀ l ∈ ls, PlainLine l) (out : List Pair)
    (v : Str) (cs : Option Str) :
    ls.foldl (pairStep (reCountHeader "style suggestions")) ⟨out, some v, cs, false⟩
      = ⟨out, some (ls.foldl appendLine v), cs, false⟩ := by
  induction ls generalizing v with
  | nil => rfl
  | cons a rest ih =>
    simp only [List.foldl_cons]
    rw [pairStep_plain_original out v cs a (hls a (by simp)),
      ih (fun l hl => hls l (by simp [hl]))]

theorem foldl_plain_suggestion (ls : List Str) (hls : ∀ l ∈ ls, PlainLine l) (out : List Pair)
    (co : Option Str) (v : Str) :
    ls.foldl (pairStep (reCountHeader "style suggestions")) ⟨out, co, some v, true⟩
      = ⟨out, co, some (ls.foldl appendLine v), true⟩ := by
  induction ls generalizing v with
  | nil => rfl
  | cons a rest ih =>
    simp only [List.foldl_cons]
    rw [pairStep_plain_suggestion out co v a (hls a (by simp)),
      ih (fun l hl => hls l (by simp [hl]))]

theorem foldl_appendLine (ls : List Str) (hne : ls ≠ []) (hls : ∀ l ∈ ls, l ≠ []) (v : Str) :
    ls.foldl appendLine v
      = if v.isEmpty then join (str "\n") ls else v ++ str "\n" ++ join (str "\n") ls := by
  induction ls generalizing v with
  | nil => exact absurd rfl hne
  | cons a rest ih =>
    cases rest with
    | nil =>
      simp only [List.foldl_cons, List.foldl_nil, appendLine, join]
      cases v <;> simp
    | cons b rest2 =>
      have ha : a ≠ [] := hls a (by simp)
      have hv : (appendLine v a).isEmpty = false := by
        unfold appendLine
        cases a with
        | nil => exact absurd rfl ha
        | cons x xs => simp
      rw [List.foldl_cons, ih (by simp) (fun l hl => hls l (by simp [hl])), hv,
        join_cons _ a _ (by simp)]
      simp only [Bool.false_eq_true, if_false, appendLine]
      cases v <;> simp [List.append_assoc]

theorem join_ne_nil (ls : List Str) (hne : ls ≠ []) (hls : ∀ l ∈ ls, l ≠ []) :
    join (str "\n") ls ≠ [] := by
  cases ls with
  | nil => exact absurd rfl hne
  | cons a rest =>
    have ha : a ≠ [] := hls a (by simp)
    cases rest with
    | nil => simpa [join] using ha
    | cons b rest2 =>
      rw [join_cons _ a _ (by simp)]
      simp [ha]

theorem foldl_pairLines (p : List Str × List Str) (hp : GoodLines p) (st : PairState) :
    (pairLines p).foldl (pairStep (reCountHeader "style suggestions")) st
      = ⟨flush st, some (join (str "\n") p.1), some (join (str "\n") p.2), true⟩ := by
  obtain ⟨h1, h2, h3, h4⟩ := hp
  unfold pairLines
  simp only [List.foldl_append, List.foldl_cons, List.foldl_nil]
  rw [pairStep_original, foldl_plain_original p.1 h3, pairStep_suggestion,
    foldl_plain_suggestion p.2 h4,
    foldl_appendLine p.1 h1 (fun l hl => (h3 l hl).1),
    foldl_appendLine p.2 h2 (fun l hl => (h4 l hl).1)]
  simp

theorem flush_after_pair (out : List Pair) (p : List Str × List Str) (hp : GoodLines p) :
    flush ⟨out, some (join (str "\n") p.1), some (join (str "\n") p.2), true⟩
      = out ++ [toPair p] := by
  obtain ⟨h1, h2, h3, h4⟩ := hp
  have e1 := join_ne_nil p.1 h1 (fun l hl => (h3 l hl).1)
  have e2 := join_ne_nil p.2 h2 (fun l hl => (h4 l hl).1)
  have t1 : (join (str "\n") p.1).isEmpty = false := by
    cases h : join (str "\n") p.1 with
    | nil => exact absurd h e1
    | cons _ _ => rfl
  have t2 : (join (str "\n") p.2).isEmpty = false := by
    cases h : join (str "\n") p.2 with
    | nil => exact absurd h e2
    | cons _ _ => rfl
  simp [flush, truthy, t1, t2, toPair]

theorem flush_foldl_linesOf (lps : List (List Str × List Str)) (h : ∀ p ∈ lps, GoodLines p)
    (st : PairState) :
    flush ((linesOf lps).foldl (pairStep (reCountHeader "style suggestions")) st)
      = flush st ++ lps.map toPair := by
  induction lps generalizing st with
  | nil => simp [linesOf]
  | cons p rest ih =>
    cases rest with
    | nil =>
      simp only [linesOf, List.map_cons, List.map_nil]
      rw [foldl_pairLines p (h p (by simp)), flush_after_pair _ p (h p (by simp))]
    | cons q rest2 =>
      simp only [linesOf, List.foldl_append, List.foldl_cons, List.foldl_nil]
      rw [foldl_pairLines p (h p (by simp)), pairStep_blank,
        ih (fun x hx => h x (by simp [hx])), flush_after_pair _ p (h p (by simp))]
      simp
theorem join_pairLines (p : List Str × List Str) (hp : GoodLines p) :
    join (str "\n") (pairLines p)
      = str "Original:\n" ++ (toPair p).original ++ str "\nAI Suggestion:\n" ++
          (toPair p).suggestion := by
  obtain ⟨h1, h2, -, -⟩ := hp
  unfold pairLines toPair
  have e1 : [str "Original:"] ++ p.1 ++ [str "AI Suggestion:"] ++ p.2
      = str "Original:" :: (p.1 ++ (str "AI Suggestion:" :: p.2)) := by simp
  rw [e1, join_cons _ _ _ (by simp), join_append _ p.1 _ h1 (by simp),
    join_cons _ (str "AI Suggestion:") _ h2]
  have e2 : str "Original:\n" = str "Original:" ++ str "\n" := by decide
  have e3 : str "\nAI Suggestion:\n" = str "\n" ++ str "AI Suggestion:" ++ str "\n" := by decide
  rw [e2, e3]
  simp [List.append_assoc]

theorem linesOf_ne_nil (p : List Str × List Str) (rest : List (List Str × List Str)) :
    linesOf (p :: rest) ≠ [] := by
  cases rest <;> simp [linesOf, pairLines]

theorem renderPairs_eq (lps : List (List Str × List Str)) (h : ∀ p ∈ lps, GoodLines p) :
    renderPairs (lps.map toPair) = join (str "\n") (linesOf lps) := by
  induction lps with
  | nil => rfl
  | cons p rest ih =>
    cases rest with
    | nil =>
      simp only [renderPairs, List.map_cons, List.map_nil, join, linesOf]
      rw [join_pairLines p (h p (by simp))]
    | cons q rest2 =>
      have ihq := ih (fun x hx => h x (by simp [hx]))
      simp only [renderPairs, List.map_cons] at ihq ⊢
      rw [join_cons _ _ _ (by simp), ihq]
      have hl : linesOf (p :: q :: rest2) = pairLines p ++ ([] :: linesOf (q :: rest2)) := by
        simp [linesOf]
      rw [hl, join_append _ (pairLines p) _ (by simp [pairLines]) (by simp),
        join_cons _ [] _ (linesOf_ne_nil q rest2), join_pairLines p (h p (by simp))]
      have e : str "\n\n" = str "\n" ++ str "\n" := by decide
      rw [e]
      simp [List.append_assoc]

theorem mem_linesOf (lps : List (List Str × List Str)) (l : Str) (hl : l ∈ linesOf lps) :
    l = str "Original:" ∨ l = str "AI Suggestion:" ∨ l = [] ∨
      ∃ p ∈ lps, l ∈ p.1 ∨ l ∈ p.2 := by
  induction lps with
  | nil => simp [linesOf] at hl
  | cons p rest ih =>
    have hp : l ∈ pairLines p → l = str "Original:" ∨ l = str "AI Suggestion:" ∨ l = [] ∨
        ∃ q ∈ p :: rest, l ∈ q.1 ∨ l ∈ q.2 := by
      intro hin
      simp only [pairLines, List.mem_append, List.mem_singleton] at hin
      rcases hin with ((h1 | h1) | h1) | h1
      · exact Or.inl h1
      · exact Or.inr (Or.inr (Or.inr ⟨p, by simp, Or.inl h1⟩))
      · exact Or.inr (Or.inl h1)
      · exact Or.inr (Or.inr (Or.inr ⟨p, by simp, Or.inr h1⟩))
    cases rest with
    | nil => exact hp (by simpa [linesOf] using hl)
    | cons q rest2 =>
      simp only [linesOf, List.mem_append, List.mem_singleton] at hl
      rcases hl with (h1 | h1) | h1
      · exact hp h1
      · exact Or.inr (Or.inr (Or.inl h1))
      · rcases ih h1 with h2 | h2 | h2 | ⟨x, hx, h2⟩
        · exact Or.inl h2
        · exact Or.inr (Or.inl h2)
        · exact Or.inr (Or.inr (Or.inl h2))
        · exact Or.inr (Or.inr (Or.inr ⟨x, by simp [hx], h2⟩))

theorem linesOf_plain (lps : List (List Str × List Str)) (h : ∀ p ∈ lps, GoodLines p)
    (l : Str) (hl : l ∈ linesOf lps) :
    (∀ c ∈ l, c ≠ 10) ∧ ¬ str "STYLE_SUGGESTIONS_END" <:+: l := by
  rcases mem_linesOf lps l hl with h1 | h1 | h1 | ⟨p, hp, h1⟩
  · subst h1
    exact ⟨by decide, by rw [← includes_iff]; decide⟩
  · subst h1
    exact ⟨by decide, by rw [← includes_iff]; decide⟩
  · subst h1
    exact ⟨by decide, by rw [← includes_iff]; decide⟩
  · obtain ⟨-, -, h3, h4⟩ := h p hp
    have hpl : PlainLine l := by
      rcases h1 with h1 | h1
      · exact h3 l h1
      · exact h4 l h1
    exact ⟨hpl.2.2.1, (includes_eq_false_iff _ _).1 hpl.2.2.2.2.2.2⟩

theorem linesOf_head (p : List Str × List Str) (rest : List (List Str × List Str)) :
    ∃ tail, linesOf (p :: rest) = str "Original:" :: tail := by
  cases rest with
  | nil => exact ⟨p.1 ++ [str "AI Suggestion:"] ++ p.2, by simp [linesOf, pairLines]⟩
  | cons q rest2 =>
    exact ⟨p.1 ++ [str "AI Suggestion:"] ++ p.2 ++ [[]] ++ linesOf (q :: rest2),
      by simp [linesOf, pairLines]⟩

theorem linesOf_last (lps : List (List Str × List Str)) (hne : lps ≠ [])
    (h : ∀ p ∈ lps, GoodLines p) :
    ∃ init l, linesOf lps = init ++ [l] ∧ PlainLine l := by
  induction lps with
  | nil => exact absurd rfl hne
  | cons p rest ih =>
    cases rest with
    | nil =>
      obtain ⟨-, h2, -, h4⟩ := h p (by simp)
      refine ⟨[str "Original:"] ++ p.1 ++ [str "AI Suggestion:"] ++ p.2.dropLast,
        p.2.getLast h2, ?_, h4 _ (List.getLast_mem h2)⟩
      simp only [linesOf, pairLines, List.append_assoc]
      rw [List.dropLast_append_getLast h2]
    | cons q rest2 =>
      obtain ⟨init, l, hl, hpl⟩ := ih (by simp) (fun x hx => h x (by simp [hx]))
      refine ⟨pairLines p ++ [[]] ++ init, l, ?_, hpl⟩
      simp only [linesOf]
      rw [hl]
      simp [List.append_assoc]

theorem trim_wrap (body : Str) (x y : Nat) (xs ys : Str) (h1 : body = x :: xs)
    (h2 : body = ys ++ [y]) (hx : isWs x = false) (hy : isWs y = false) :
    trim (str "\n" ++ body ++ str "\n") = body := by
  have hs : str "\n" = [10] := by decide
  have h10 : isWs 10 = true := by decide
  unfold trim
  have e1 : List.dropWhile isWs (str "\n" ++ body ++ str "\n") = body ++ [10] := by
    rw [hs, h1]
    simp [List.dropWhile_cons, h10, hx]
  rw [e1]
  have e2 : (body ++ [10]).reverse = 10 :: y :: ys.reverse := by
    rw [h2]
    simp
  rw [e2]
  simp only [List.dropWhile_cons, h10, if_true, hy, Bool.false_eq_true, if_false]
  rw [h2]
  simp
theorem styleBlob_indexOf_end (body : Str)
    (hbody : ¬ str "STYLE_SUGGESTIONS_END" <:+: body) :
    indexOf (str "STYLE_SUGGESTIONS_START" ++ str "\n" ++ body ++ str "\n" ++
        str "STYLE_SUGGESTIONS_END") (str "STYLE_SUGGESTIONS_END")
      = some ((str "STYLE_SUGGESTIONS_START" ++ str "\n" ++ body ++ str "\n").length) := by
  have h10 : 10 ∉ str "STYLE_SUGGESTIONS_END" := by decide
  have hs : str "\n" = [10] := by decide
  have hstart : ¬ str "STYLE_SUGGESTIONS_END" <:+: str "STYLE_SUGGESTIONS_START" := by
    rw [← includes_iff]
    decide
  have key := indexOfFrom_append (str "STYLE_SUGGESTIONS_END")
    (str "STYLE_SUGGESTIONS_START" ++ str "\n" ++ body ++ str "\n") [] 0 (by decide) (by
      intro k hk hpre
      have hk2 : k ≤ (str "STYLE_SUGGESTIONS_START" ++ str "\n" ++ body).length := by
        simp only [List.length_append, hs, List.length_singleton] at hk ⊢
        omega
      have e : str "STYLE_SUGGESTIONS_START" ++ str "\n" ++ body ++ str "\n" ++
          str "STYLE_SUGGESTIONS_END" ++ []
          = (str "STYLE_SUGGESTIONS_START" ++ str "\n" ++ body) ++
            10 :: str "STYLE_SUGGESTIONS_END" := by
        rw [hs]
        simp [List.append_assoc]
      rw [e, List.drop_append_of_le_length hk2] at hpre
      have h1 := prefix_of_append_sep _ _ _ 10 h10 hpre
      have h2 : str "STYLE_SUGGESTIONS_END" <:+:
          str "STYLE_SUGGESTIONS_START" ++ str "\n" ++ body :=
        h1.isInfix.trans (List.drop_suffix _ _).isInfix
      have e2 : str "STYLE_SUGGESTIONS_START" ++ str "\n" ++ body
          = str "STYLE_SUGGESTIONS_START" ++ 10 :: body := by
        rw [hs]
        simp
      rw [e2] at h2
      rcases infix_of_append_sep _ _ _ 10 h10 h2 with h3 | h3
      · exact hstart h3
      · exact hbody h3)
  unfold indexOf
  simpa using key

theorem styleBlob_indexOf_start (rest : Str) :
    indexOf (str "STYLE_SUGGESTIONS_START" ++ rest) (str "STYLE_SUGGESTIONS_START") = some 0 := by
  have key := indexOfFrom_append (str "STYLE_SUGGESTIONS_START") [] rest 0 (by decide)
    (by intro k hk; simp at hk)
  unfold indexOf
  simpa using key

theorem parseStyleSuggestions_linesOf (lps : List (List Str × List Str))
    (h : ∀ p ∈ lps, GoodLines p) :
    parseStyleSuggestions (styleBlob (lps.map toPair)) = lps.map toPair := by
  cases lps with
  | nil => decide
  | cons p rest =>
    have hrender := renderPairs_eq (p :: rest) h
    have hplain := linesOf_plain (p :: rest) h
    have hnoend : ¬ str "STYLE_SUGGESTIONS_END" <:+: join (str "\n") (linesOf (p :: rest)) :=
      not_infix_join _ (by decide) _ (fun l hl => (hplain l hl).2) (by decide)
    obtain ⟨tail, htail⟩ := linesOf_head p rest
    obtain ⟨init, l, hinit, hl⟩ := linesOf_last (p :: rest) (by simp) h
    have hne : linesOf (p :: rest) ≠ [] := linesOf_ne_nil p rest
    -- first and last unit of the body
    have hfirst : ∃ xs, join (str "\n") (linesOf (p :: rest)) = 79 :: xs := by
      rw [htail]
      cases tail with
      | nil => exact ⟨_, by simp [join]; rfl⟩
      | cons t ts =>
        rw [join_cons _ _ _ (by simp)]
        exact ⟨_, rfl⟩
    have hlne : l ≠ [] := hl.1
    have hlast : ∃ ys y, join (str "\n") (linesOf (p :: rest)) = ys ++ [y] ∧ isWs y = false := by
      have hl2 : l = l.dropLast ++ [l.getLast hlne] := (List.dropLast_append_getLast hlne).symm
      have hy : isWs (l.getLast hlne) = false := last_not_ws_of_trim l _ _ hl2 hl.2.1
      rw [hinit]
      cases init with
      | nil =>
        refine ⟨l.dropLast, l.getLast hlne, ?_, hy⟩
        simpa [join] using hl2
      | cons i is =>
        rw [join_append _ (i :: is) [l] (by simp) (by simp)]
        refine ⟨join (str "\n") (i :: is) ++ str "\n" ++ l.dropLast, l.getLast hlne, ?_, hy⟩
        simp only [join, List.append_assoc]
        rw [List.dropLast_append_getLast hlne]
    obtain ⟨xs, hxs⟩ := hfirst
    obtain ⟨ys, y, hys, hy⟩ := hlast
    have htrim := trim_wrap (join (str "\n") (linesOf (p :: rest))) 79 y xs ys hxs hys
      (by decide) hy
    have hstartIdx := styleBlob_indexOf_start
      (str "\n" ++ join (str "\n") (linesOf (p :: rest)) ++ str "\n" ++
        str "STYLE_SUGGESTIONS_END")
    have hendIdx := styleBlob_indexOf_end (join (str "\n") (linesOf (p :: rest))) hnoend
    have hblob : styleBlob ((p :: rest).map toPair)
        = str "STYLE_SUGGESTIONS_START" ++ str "\n" ++ join (str "\n") (linesOf (p :: rest)) ++
            str "\n" ++ str "STYLE_SUGGESTIONS_END" := by
      unfold styleBlob
      rw [hrender]
    have hblob2 : styleBlob ((p :: rest).map toPair)
        = str "STYLE_SUGGESTIONS_START" ++ (str "\n" ++
            join (str "\n") (linesOf (p :: rest)) ++ str "\n" ++ str "STYLE_SUGGESTIONS_END") := by
      rw [hblob]
      simp [List.append_assoc]
    have hsub : substring (styleBlob ((p :: rest).map toPair))
        (0 + (str "STYLE_SUGGESTIONS_START").length)
        ((str "STYLE_SUGGESTIONS_START" ++ str "\n" ++
          join (str "\n") (linesOf (p :: rest)) ++ str "\n").length)
        = str "\n" ++ join (str "\n") (linesOf (p :: rest)) ++ str "\n" := by
      unfold substring
      have hle : 0 + (str "STYLE_SUGGESTIONS_START").length ≤
          (str "STYLE_SUGGESTIONS_START" ++ str "\n" ++
            join (str "\n") (linesOf (p :: rest)) ++ str "\n").length := by
        simp only [List.length_append]
        omega
      rw [Nat.max_eq_right hle, Nat.min_eq_left hle, hblob, List.take_left']
      · rw [Nat.zero_add]
        have e : str "STYLE_SUGGESTIONS_START" ++ str "\n" ++
            join (str "\n") (linesOf (p :: rest)) ++ str "\n"
            = str "STYLE_SUGGESTIONS_START" ++ (str "\n" ++
              join (str "\n") (linesOf (p :: rest)) ++ str "\n") := by
          simp [List.append_assoc]
        rw [e, List.drop_left']
        rfl
      · rfl
    have hsplit := splitOn_join (linesOf (p :: rest)) hne (fun l hl => (hplain l hl).1)
    unfold parseStyleSuggestions parsePairedSection
    have hs1 : indexOf (styleBlob ((p :: rest).map toPair)) (str "STYLE_SUGGESTIONS_START")
        = some 0 := by
      rw [hblob2]
      exact hstartIdx
    have hs2 : indexOf (styleBlob ((p :: rest).map toPair)) (str "STYLE_SUGGESTIONS_END")
        = some ((str "STYLE_SUGGESTIONS_START" ++ str "\n" ++
            join (str "\n") (linesOf (p :: rest)) ++ str "\n").length) := by
      rw [hblob]
      exact hendIdx
    rw [hs1, hs2]
    simp only [hsub, htrim, hsplit]
    rw [flush_foldl_linesOf (p :: rest) h]
    simp [flush, truthy]

theorem exists_lines (pairs : List Pair)
    (h : ∀ p ∈ pairs, PlainField p.original ∧ PlainField p.suggestion) :
    ∃ lps : List (List Str × List Str), (∀ p ∈ lps, GoodLines p) ∧ lps.map toPair = pairs := by
  induction pairs with
  | nil => exact ⟨[], by simp, rfl⟩
  | cons p rest ih =>
    obtain ⟨lps, hl, hm⟩ := ih (fun x hx => h x (by simp [hx]))
    obtain ⟨⟨lo, ho1, ho2, ho3⟩, ⟨ls, hs1, hs2, hs3⟩⟩ := h p (by simp)
    refine ⟨(lo, ls) :: lps, ?_, ?_⟩
    · intro q hq
      rcases List.mem_cons.1 hq with rfl | hq
      · exact ⟨ho1, hs1, ho2, hs2⟩
      · exact hl q hq
    · simp only [List.map_cons, hm, toPair, ← ho3, ← hs3]

/-- C2: round trip of the paired-section parser.  For every list of pairs
whose two fields are each made of one or more lines, joined by newlines, that
are trimmed, not empty, do not start with `Original:` or `AI Suggestion:`, do
not match the count header and do not contain the end marker,
`parseStyleSuggestions` applied to the start marker, a newline, the pairs laid
out as the prompt does with a blank line between two pairs, a newline and the
end marker returns exactly those pairs, in the same order. -/
theorem parseStyleSuggestions_round_trip (pairs : List Pair)
    (h : ∀ p ∈ pairs, PlainField p.original ∧ PlainField p.suggestion) :
    parseStyleSuggestions (styleBlob pairs) = pairs := by
  obtain ⟨lps, hl, hm⟩ := exists_lines pairs h
  rw [← hm]
  exact parseStyleSuggestions_linesOf lps hl
/-- C2, at a concrete input: two pairs, the first with a suggestion of two lines. -/
theorem parseStyleSuggestions_round_trip_witness :
    parseStyleSuggestions (styleBlob samplePairs) = samplePairs :=
  parseStyleSuggestions_round_trip samplePairs (by
    intro p hp
    simp only [samplePairs, List.mem_cons, List.mem_singleton, List.not_mem_nil, or_false] at hp
    rcases hp with rfl | rfl
    · exact ⟨⟨[str "Arial, 12pt"], by decide, by decide!, by decide⟩,
        ⟨[str "Raleway", str "bold"], by decide, by decide!, by decide⟩⟩
    · exact ⟨⟨[str "x"], by decide, by decide!, by decide⟩,
        ⟨[str "y"], by decide, by decide!, by decide⟩⟩)

/-! ### The score state under its two operations -/

/-- C23: in every state reached from the initial state by calls of
`renderAuthResult` and `onSuggestionApplied`, one more call of
`onSuggestionApplied`, with any id, leaves `currentScore` at least as high as
it was; a call of `renderAuthResult` can lower it, as after the scores 90 and
then 10. -/
theorem onSuggestionApplied_currentScore_mono (steps : List ScoreStep) (suggestionId : Str) :
    (reach steps).currentScore ≤ (onSuggestionApplied suggestionId (reach steps)).2.currentScore ∧
    (renderAuthResult (some 10) (reach [.render (some 90)])).currentScore
      < (reach [.render (some 90)]).currentScore := by
  refine ⟨?_, by decide⟩
  have h : ScoreInv (reach steps) := scoreInv_foldl steps _ (by unfold ScoreInv; decide)
  unfold ScoreInv at h
  unfold onSuggestionApplied
  split
  · exact le_refl _
  · simp only [h, SCORE_INCREMENT]
    exact min_le_min_left _ (by omega)

/-- C24: `renderAuthResult(data)` sets `baseScore` to the analysis score
`data.score || 75`, which is `data.score` itself whenever that is present and
not 0, sets `currentScore` to `min(100, baseScore + scoreBonus)` for the new
`baseScore`, and leaves `scoreBonus` and the set of applied suggestions as
they were. -/
theorem renderAuthResult_frame (score : Option Int) (n : Int) (s : ScoreState) :
    (renderAuthResult score s).baseScore = scoreOrDefault score ∧
    (renderAuthResult (some n) s).baseScore = (if n = 0 then 75 else n) ∧
    (renderAuthResult score s).currentScore
      = min 100 ((renderAuthResult score s).baseScore + (renderAuthResult score s).scoreBonus) ∧
    (renderAuthResult score s).scoreBonus = s.scoreBonus ∧
    (renderAuthResult score s).appliedSuggestions = s.appliedSuggestions := by
  exact ⟨rfl, rfl, rfl, rfl, rfl⟩

/-- C27: for an analysis result whose score is 0 or missing,
`renderAuthResult` sets `baseScore` to 75; after every call of
`renderAuthResult` `baseScore` is different from 0; and the score loop of
`analyzeElement` does return 0, for the response `0`, which `handleAuthenticate`
hands on as `0 || 75`. -/
theorem renderAuthResult_baseScore_ne_zero (score : Option Int) (s : ScoreState) :
    (renderAuthResult (some 0) s).baseScore = 75 ∧
    (renderAuthResult none s).baseScore = 75 ∧
    (renderAuthResult score s).baseScore ≠ 0 ∧
    parseScore (str "0") = 0 ∧
    (renderAuthResult (some (scoreOrDefault (some (parseScore (str "0"))))) s).baseScore = 75 := by
  have h0 : parseScore (str "0") = 0 := by decide!
  refine ⟨rfl, rfl, ?_, h0, by rw [h0]; rfl⟩
  unfold renderAuthResult scoreOrDefault
  cases score with
  | none => simp
  | some n =>
    by_cases h : n = 0
    · simp [h]
    · simp [h]

/-- C28: `generateSuggestionId` is not injective: the triples
(`text`, `a-b`, `c`) and (`text`, `a`, `b-c`) differ and get the same id, so
that from every state, once the first has been applied, the call of
`onSuggestionApplied` for the second returns false and leaves the state, and
with it the bonus, unchanged. -/
theorem generateSuggestionId_collision (s : ScoreState) :
    (str "a-b", str "c") ≠ (str "a", str "b-c") ∧
    generateSuggestionId (str "text") (str "a-b") (str "c")
      = generateSuggestionId (str "text") (str "a") (str "b-c") ∧
    (onSuggestionApplied (generateSuggestionId (str "text") (str "a") (str "b-c"))
      (onSuggestionApplied (generateSuggestionId (str "text") (str "a-b") (str "c")) s).2).1
      = false ∧
    (onSuggestionApplied (generateSuggestionId (str "text") (str "a") (str "b-c"))
      (onSuggestionApplied (generateSuggestionId (str "text") (str "a-b") (str "c")) s).2).2
      = (onSuggestionApplied (generateSuggestionId (str "text") (str "a-b") (str "c")) s).2 := by
  have hid : generateSuggestionId (str "text") (str "a-b") (str "c")
      = generateSuggestionId (str "text") (str "a") (str "b-c") := by decide!
  refine ⟨by decide, hid, ?_⟩
  rw [← hid]
  generalize generateSuggestionId (str "text") (str "a-b") (str "c") = i
  by_cases h : i ∈ s.appliedSuggestions
  · simp [onSuggestionApplied, h]
  · simp [onSuggestionApplied, h]

/-! ### The bytes of a hex colour -/

theorem run_grp_hexPair (n : Nat) (bf t : List Nat) (caps : List (Nat × Str)) :
    (Re.grp n (Re.rep 2 Re.hex)).run ⟨bf, t, caps⟩ =
      if 2 ≤ t.length ∧ (t.take 2).all isHex = true then
        [⟨(t.take 2).reverse ++ bf, t.drop 2, (n, t.take 2) :: caps⟩]
      else [] := by
  have h := run_rep_cls isHex 2 bf t caps
  simp only [Re.run, Re.hex] at h ⊢
  rw [h]
  split
  · simp [Cur.span]
  · simp

theorem run_hexGroups (bf t : List Nat) (caps : List (Nat × Str)) :
    (Re.seq (.grp 1 (Re.rep 2 Re.hex)) (.seq (.grp 2 (Re.rep 2 Re.hex))
        (.grp 3 (Re.rep 2 Re.hex)))).run ⟨bf, t, caps⟩ =
      if sixHex t = true then
        [⟨(t.take 6).reverse ++ bf, t.drop 6,
          (3, (t.drop 4).take 2) :: (2, (t.drop 2).take 2) :: (1, t.take 2) :: caps⟩]
      else [] := by
  have hrun : ∀ (a b : Re) (c : Cur), (Re.seq a b).run c = (a.run c).flatMap b.run := fun _ _ _ => rfl
  rw [hrun, run_grp_hexPair]
  rcases t with _ | ⟨a, _ | ⟨b, t⟩⟩
  · simp [sixHex]
  · simp [sixHex]
  by_cases hab : isHex a = true ∧ isHex b = true
  swap
  · have : sixHex (a :: b :: t) = false := by
      simp only [sixHex, Bool.and_eq_false_iff]
      by_cases h6 : 6 ≤ (a :: b :: t).length
      · right
        simp only [List.length_cons] at h6
        rcases t with _ | ⟨c, _ | ⟨d, _ | ⟨e, _ | ⟨f, t⟩⟩⟩⟩ <;> simp at h6
        simp only [List.take_succ_cons, List.all_cons]
        rcases not_and_or.mp hab with h | h <;> simp [h]
      · left; simpa using h6
    simp [this, hab]
  obtain ⟨ha, hb⟩ := hab
  simp only [List.length_cons, List.take_succ_cons, List.take_zero, List.all_cons, ha, hb,
    List.all_nil, Bool.and_self, and_true, List.drop_succ_cons, List.drop_zero]
  rw [if_pos (by omega)]
  simp only [List.flatMap_cons, List.flatMap_nil, List.append_nil]
  rw [hrun, run_grp_hexPair]
  rcases t with _ | ⟨c, _ | ⟨d, t⟩⟩
  · simp [sixHex]
  · simp [sixHex]
  by_cases hcd : isHex c = true ∧ isHex d = true
  swap
  · have : sixHex (a :: b :: c :: d :: t) = false := by
      simp only [sixHex, Bool.and_eq_false_iff]
      by_cases h6 : 6 ≤ (a :: b :: c :: d :: t).length
      · right
        simp only [List.length_cons] at h6
        rcases t with _ | ⟨e, _ | ⟨f, t⟩⟩ <;> simp at h6
        simp only [List.take_succ_cons, List.all_cons]
        rcases not_and_or.mp hcd with h | h <;> simp [h]
      · left; simpa using h6
    simp [this, hcd]
  obtain ⟨hc, hd⟩ := hcd
  simp only [List.length_cons, List.take_succ_cons, List.take_zero, List.all_cons, hc, hd,
    List.all_nil, Bool.and_self, and_true, List.drop_succ_cons, List.drop_zero]
  rw [if_pos (by omega)]
  simp only [List.flatMap_cons, List.flatMap_nil, List.append_nil]
  rw [run_grp_hexPair]
  rcases t with _ | ⟨e, _ | ⟨f, t⟩⟩
  · simp [sixHex]
  · simp [sixHex]
  by_cases hef : isHex e = true ∧ isHex f = true
  · simp [sixHex, ha, hb, hc, hd, hef.1, hef.2]
  · have : sixHex (a :: b :: c :: d :: e :: f :: t) = false := by
      simp only [sixHex, Bool.and_eq_false_iff]
      right
      simp only [List.take_succ_cons, List.all_cons]
      rcases not_and_or.mp hef with h | h <;> simp [h]
    simp [this, hef]

theorem execFrom_bol_none (r : Re) (b s : List Nat) (hb : b ≠ []) :
    (Re.seq .bol r).execFrom b s = none := by
  induction s generalizing b with
  | nil => cases b <;> simp [Re.execFrom, Re.run] at hb ⊢
  | cons x xs ih =>
    cases b with
    | nil => exact absurd rfl hb
    | cons y ys =>
      simp only [Re.execFrom, Re.run, List.isEmpty_cons, Bool.false_eq_true, if_false,
        List.flatMap_nil]
      exact ih (x :: y :: ys) (by simp)

theorem sixHex_sharp (t : Str) : sixHex (35 :: t) = false := by
  simp only [sixHex, Bool.and_eq_false_iff]
  by_cases h6 : 6 ≤ (35 :: t).length
  · right
    rcases t with _ | ⟨a, _ | ⟨b, _ | ⟨c, _ | ⟨d, _ | ⟨e, t⟩⟩⟩⟩⟩ <;> simp at h6
    simp [isHex, isDigit]
  · left; simpa using h6

theorem hexToRgb_eq (hex : Str) :
    hexToRgb hex = if beginsHexColor hex = true then some (rgbOfHex hex) else none := by
  unfold hexToRgb Re.exec
  simp only [Re.seqs]
  have hG := run_hexGroups
  generalize (Re.seq (.grp 1 (Re.rep 2 Re.hex)) (.seq (.grp 2 (Re.rep 2 Re.hex))
        (.grp 3 (Re.rep 2 Re.hex)))) = G at hG ⊢
  cases hex with
  | nil =>
    simp [Re.execFrom, Re.run, Re.opt, Re.unit, hG, beginsHexColor, sixHex]
  | cons x xs =>
    unfold Re.execFrom
    rw [execFrom_bol_none _ _ _ (by simp)]
    by_cases hx : x = 35
    · subst hx
      simp only [Re.run, Re.opt, Re.unit, List.isEmpty_nil, if_true, List.flatMap_cons,
        List.flatMap_nil, List.append_nil, beq_self_eq_true, List.singleton_append,
        List.nil_append, hG, sixHex_sharp, beginsHexColor]
      by_cases h : sixHex xs = true
      · simp [h, Match.group, rgbOfHex]
      · simp [h]
    · simp only [Re.run, Re.opt, Re.unit, List.isEmpty_nil, if_true, List.flatMap_cons,
        List.flatMap_nil, List.append_nil, beq_iff_eq, hx, if_false, List.singleton_append,
        List.nil_append, hG]
      have hb : beginsHexColor (x :: xs) = sixHex (x :: xs) := by
        unfold beginsHexColor
        split
        · rename_i heq
          simp only [List.cons.injEq] at heq
          exact absurd heq.1 hx
        · rfl
      have hr : rgbOfHex (x :: xs) = (parseHex ((x :: xs).take 2),
          parseHex (((x :: xs).drop 2).take 2), parseHex (((x :: xs).drop 4).take 2)) := by
        unfold rgbOfHex
        split
        · rename_i heq
          simp only [List.cons.injEq] at heq
          exact absurd heq.1 hx
        · rfl
      rw [hb, hr]
      by_cases h : sixHex (x :: xs) = true
      · simp [h, Match.group]
      · simp [h]

theorem hexDigit_le {c : Nat} (h : isHex c = true) : hexDigit c ≤ 15 := by
  simp only [isHex, isDigit, Bool.or_eq_true, Bool.and_eq_true, decide_eq_true_eq] at h
  unfold hexDigit
  by_cases hd : isDigit c = true
  · rw [if_pos hd]
    simp only [isDigit, Bool.and_eq_true, decide_eq_true_eq] at hd
    omega
  · rw [if_neg hd]
    simp only [isDigit, Bool.and_eq_true, decide_eq_true_eq] at hd
    split <;> omega

theorem sixHex_cases (t : Str) (h : sixHex t = true) :
    ∃ a b c d e f rest, t = a :: b :: c :: d :: e :: f :: rest ∧ isHex a = true ∧
      isHex b = true ∧ isHex c = true ∧ isHex d = true ∧ isHex e = true ∧ isHex f = true := by
  simp only [sixHex, Bool.and_eq_true, decide_eq_true_eq] at h
  obtain ⟨hlen, hall⟩ := h
  rcases t with _ | ⟨a, _ | ⟨b, _ | ⟨c, _ | ⟨d, _ | ⟨e, _ | ⟨f, rest⟩⟩⟩⟩⟩⟩ <;> simp at hlen
  simp only [List.take_succ_cons, List.take_zero, List.all_cons, List.all_nil, Bool.and_true,
    Bool.and_eq_true] at hall
  exact ⟨a, b, c, d, e, f, rest, rfl, hall.1, hall.2.1, hall.2.2.1, hall.2.2.2.1,
    hall.2.2.2.2.1, hall.2.2.2.2.2⟩

theorem rgbOfHex_le (hex : Str) (h : beginsHexColor hex = true) :
    (rgbOfHex hex).1 ≤ 255 ∧ (rgbOfHex hex).2.1 ≤ 255 ∧ (rgbOfHex hex).2.2 ≤ 255 := by
  have key : ∀ a b c d e f : Nat, isHex a = true → isHex b = true → isHex c = true →
      isHex d = true → isHex e = true → isHex f = true →
      parseHex [a, b] ≤ 255 ∧ parseHex [c, d] ≤ 255 ∧ parseHex [e, f] ≤ 255 := by
    intro a b c d e f ha hb hc hd he hf
    have := hexDigit_le ha
    have := hexDigit_le hb
    have := hexDigit_le hc
    have := hexDigit_le hd
    have := hexDigit_le he
    have := hexDigit_le hf
    simp only [parseHex_pair]
    omega
  unfold beginsHexColor at h
  split at h
  · obtain ⟨a, b, c, d, e, f, rest, rfl, ha, hb, hc, hd, he, hf⟩ := sixHex_cases _ h
    exact key a b c d e f ha hb hc hd he hf
  · rename_i hne
    obtain ⟨a, b, c, d, e, f, rest, rfl, ha, hb, hc, hd, he, hf⟩ := sixHex_cases _ h
    have hr : rgbOfHex (a :: b :: c :: d :: e :: f :: rest)
        = (parseHex [a, b], parseHex [c, d], parseHex [e, f]) := by
      unfold rgbOfHex
      split
      · rename_i heq
        exact absurd heq (hne _)
      · rfl
    rw [hr]
    exact key a b c d e f ha hb hc hd he hf

/-- C21, where the claim fails: `#FF9933AA` and `FF9933zz` are not six
hexadecimal digits after an optional `#`, and `hexToRgb` returns the bytes
255, 153, 51 of their first six digits for both. -/
theorem hexToRgb_accepts_longer_input :
    isHexColor (str "#FF9933AA") = false ∧ hexToRgb (str "#FF9933AA") = some (255, 153, 51) ∧
    isHexColor (str "FF9933zz") = false ∧ hexToRgb (str "FF9933zz") = some (255, 153, 51) := by
  decide!

/-- C21, amended: `hexToRgb` returns `null` exactly for the strings that do
not begin with six hexadecimal digits after an optional `#`; for every other
string, whatever follows the six digits, it returns the three bytes that the
digits denote, each at most 255. For a string that is exactly six digits
after an optional `#` it therefore returns its three bytes. -/
theorem hexToRgb_prefix_form (hex : Str) :
    hexToRgb hex = (if beginsHexColor hex = true then some (rgbOfHex hex) else none) ∧
    (isHexColor hex = true → hexToRgb hex = some (rgbOfHex hex)) ∧
    (∀ r g b : Nat, hexToRgb hex = some (r, g, b) → r ≤ 255 ∧ g ≤ 255 ∧ b ≤ 255) := by
  refine ⟨hexToRgb_eq hex, hexToRgb_of_isHexColor hex, ?_⟩
  intro r g b h
  rw [hexToRgb_eq] at h
  split at h
  · rename_i hb
    have := rgbOfHex_le hex hb
    simp only [Option.some.injEq] at h
    rw [h] at this
    exact this
  · exact absurd h (by simp)

/-- C21, at `#FF9933`: six digits after `#`, with the bytes 255, 153, 51. -/
theorem hexToRgb_prefix_form_witness :
    isHexColor (str "#FF9933") = true ∧
    hexToRgb (str "#FF9933") = some (rgbOfHex (str "#FF9933")) ∧
    ((255 : Nat) ≤ 255 ∧ (153 : Nat) ≤ 255 ∧ (51 : Nat) ≤ 255) :=
  ⟨by decide, (hexToRgb_prefix_form (str "#FF9933")).2.1 (by decide),
    (hexToRgb_prefix_form (str "#FF9933")).2.2 255 153 51 (by decide!)⟩

/-! ### The pairs that the section parsers return -/

theorem flush_filled (st : PairState) (h : ∀ p ∈ st.out, p.Filled) :
    ∀ p ∈ flush st, p.Filled := by
  unfold flush
  split
  · rename_i ht
    simp only [Bool.and_eq_true] at ht
    intro p hp
    rcases List.mem_append.mp hp with hp | hp
    · exact h p hp
    · simp only [List.mem_singleton] at hp
      subst hp
      obtain ⟨h1, h2⟩ := ht
      cases ho : st.currentOriginal with
      | none => simp [ho, truthy] at h1
      | some a =>
        cases hs : st.currentSuggestion with
        | none => simp [hs, truthy] at h2
        | some b =>
          simp only [ho, hs, truthy, Bool.not_eq_true', List.isEmpty_eq_false] at h1 h2
          exact ⟨by simpa using h1, by simpa using h2⟩
  · exact h

theorem pairStep_filled (header : Re) (st : PairState) (line : Str)
    (h : ∀ p ∈ st.out, p.Filled) : ∀ p ∈ (pairStep header st line).out, p.Filled := by
  unfold pairStep
  simp only
  split
  · exact flush_filled st h
  · split
    · exact h
    · split
      · split <;> exact h
      · exact h

theorem foldl_pairStep_filled (header : Re) (lines : List Str) (st : PairState)
    (h : ∀ p ∈ st.out, p.Filled) : ∀ p ∈ (lines.foldl (pairStep header) st).out, p.Filled := by
  induction lines generalizing st with
  | nil => exact h
  | cons l ls ih => exact ih _ (pairStep_filled header st l h)

theorem parsePairedSection_filled (startMarker endMarker : Str) (header : Re) (response : Str) :
    ∀ p ∈ parsePairedSection startMarker endMarker header response, p.Filled := by
  unfold parsePairedSection
  split
  · exact flush_filled _ (foldl_pairStep_filled header _ _ (by simp))
  · simp

theorem keepTextSuggestion_eq (item : Pair) : keepTextSuggestion item = !isLeakedPair item := by
  have hany : leakageMarkers.any (fun marker => includes item.original marker)
      = listedLeakageMarkers.any (fun marker => includes item.original marker) := by
    rw [Bool.eq_iff_iff]
    simp only [List.any_eq_true]
    constructor <;> rintro ⟨x, hx, hp⟩ <;> refine ⟨x, ?_, hp⟩ <;>
      simp only [leakageMarkers, listedLeakageMarkers, List.mem_cons, List.mem_singleton,
        List.not_mem_nil, or_false] at hx ⊢ <;> tauto
  have himp : includes item.suggestion (str "[Remove - Placeholder") = true →
      includes item.suggestion (str "Remove - Placeholder") = true := by
    rw [includes_iff, includes_iff]
    intro h
    exact List.IsInfix.trans (by decide) h
  unfold keepTextSuggestion isLeakedPair
  rw [hany]
  cases h1 : listedLeakageMarkers.any (fun marker => includes item.original marker)
  · cases h2 : includes item.suggestion (str "Remove - Placeholder")
    · cases h3 : includes item.suggestion (str "[Remove - Placeholder")
      · simp
      · rw [himp h3] at h2; exact absurd h2 (by simp)
    · simp
  · simp

/-- C22: for every response, `parseTextSuggestions` returns the paired-section
parse of the section between `TEXT_SUGGESTIONS_START` and
`TEXT_SUGGESTIONS_END` without the pairs whose original contains one of the
eight leakage markers or whose suggestion contains `Remove - Placeholder`;
the pairs that remain are in the order of the parse, and each one has a
non-empty original and a non-empty suggestion. -/
theorem parseTextSuggestions_eq_filter (response : Str) :
    parseTextSuggestions response
      = (parsePairedSection (str "TEXT_SUGGESTIONS_START") (str "TEXT_SUGGESTIONS_END")
          (reCountHeader "text elements found") response).filter
          (fun item => !isLeakedPair item) ∧
    List.Sublist (parseTextSuggestions response)
      (parsePairedSection (str "TEXT_SUGGESTIONS_START") (str "TEXT_SUGGESTIONS_END")
        (reCountHeader "text elements found") response) ∧
    ∀ item ∈ parseTextSuggestions response, item.original ≠ [] ∧ item.suggestion ≠ [] := by
  refine ⟨?_, List.filter_sublist _, ?_⟩
  · unfold parseTextSuggestions
    congr 1
    funext item
    exact keepTextSuggestion_eq item
  · intro item hitem
    exact parsePairedSection_filled _ _ _ _ item (List.mem_filter.mp hitem).1

/-- C22, at a response with the one pair (`Hello`, `Vanakkam`): the pair is
returned, and both of its fields are non-empty. -/
theorem parseTextSuggestions_eq_filter_witness :
    (⟨str "Hello", str "Vanakkam"⟩ : Pair) ∈ parseTextSuggestions oneTextSuggestion ∧
    ((⟨str "Hello", str "Vanakkam"⟩ : Pair).original ≠ [] ∧
      (⟨str "Hello", str "Vanakkam"⟩ : Pair).suggestion ≠ []) :=
  ⟨by decide!, (parseTextSuggestions_eq_filter oneTextSuggestion).2.2 _ (by decide!)⟩

/-! ### The order of the visual and the text stage -/

/-- C25, where the claim fails: `Add text 'Hello' inside a circle` has no
colour trigger, contains `add` and `text`, has the quoted payload `Hello`,
which the text stage would return, and has the verb `add` with the shape
keyword `circle`; it is classified as the visual element `circle`, not as a
text. -/
theorem text_and_visual_is_visual :
    isColorStage (toLowerCase (str "Add text 'Hello' inside a circle")) = false ∧
    includes (toLowerCase (str "Add text 'Hello' inside a circle")) (str "add") = true ∧
    includes (toLowerCase (str "Add text 'Hello' inside a circle")) (str "text") = true ∧
    textStage (str "Add text 'Hello' inside a circle")
      (toLowerCase (str "Add text 'Hello' inside a circle")) = some (str "Hello") ∧
    reVisualAction.test (toLowerCase (str "Add text 'Hello' inside a circle")) = true ∧
    includes (toLowerCase (str "Add text 'Hello' inside a circle")) (str "circle") = true ∧
    parseRecommendation (str "Add text 'Hello' inside a circle") = .visual (str "circle") ∧
    (parseRecommendation (str "Add text 'Hello' inside a circle")).type ≠ str "text" := by
  decide!

/-- C25, amended: the visual stage comes before the text stage: every input
without a colour trigger that matches the visual-element pattern is classified
as `visual`, with the element that `extractElementFromRecommendation` reads
from it, whether or not it also matches the text pattern with a payload; and
an input is classified by the text stage only when the visual stage has not
matched. -/
theorem visual_stage_precedes_text (s : Str) :
    (isColorStage (toLowerCase s) = false → isVisualStage (toLowerCase s) = true →
      parseRecommendation s = .visual (extractElementFromRecommendation s) ∧
      (parseRecommendation s).type = str "visual") ∧
    (isVisualStage (toLowerCase s) = true → (parseRecommendation s).type ≠ str "text") := by
  constructor
  · intro hc hv
    have h : parseRecommendation s = .visual (extractElementFromRecommendation s) := by
      unfold parseRecommendation
      simp only [hc, hv, if_true, Bool.false_eq_true, if_false]
    exact ⟨h, by rw [h]; rfl⟩
  · intro hv
    unfold parseRecommendation
    simp only [hv, if_true]
    split
    · simp only [Parsed.type]; decide
    · simp only [Parsed.type]; decide

/-- C25, at the input `Add text 'Hello' inside a circle`. -/
theorem visual_stage_precedes_text_witness :
    parseRecommendation (str "Add text 'Hello' inside a circle")
      = .visual (extractElementFromRecommendation (str "Add text 'Hello' inside a circle")) ∧
    (parseRecommendation (str "Add text 'Hello' inside a circle")).type = str "visual" :=
  (visual_stage_precedes_text (str "Add text 'Hello' inside a circle")).1
    (by decide!) (by decide!)

/-! ### Colours named by a word -/

theorem mem_starLoop_cls (p : Nat → Bool) (w b rest : List Nat) (caps : List (Nat × Str))
    (n : Nat) (hn : w.length ≤ n) (h : ∀ c ∈ w, p c = true) :
    (⟨w.reverse ++ b, rest, caps⟩ : Cur) ∈ starLoop (Re.cls p).run n ⟨b, w ++ rest, caps⟩ := by
  induction w generalizing b n with
  | nil => simpa using mem_starLoop_self _ n _
  | cons x w ih =>
    cases n with
    | zero => simp at hn
    | succ n =>
      simp only [starLoop, List.mem_append, List.mem_flatMap, List.mem_filter]
      left
      refine ⟨⟨x :: b, w ++ rest, caps⟩, ⟨?_, by simp⟩, ?_⟩
      · simp [Re.run, h x (by simp)]
      · have := ih (x :: b) n (by simpa using hn) (fun c hc => h c (by simp [hc]))
        simpa using this

theorem mem_run_plus_cls {p : Nat → Bool} (w b rest : List Nat) (caps : List (Nat × Str))
    (hw : w ≠ []) (h : ∀ c ∈ w, p c = true) :
    (⟨w.reverse ++ b, rest, caps⟩ : Cur) ∈ (Re.plus (.cls p)).run ⟨b, w ++ rest, caps⟩ := by
  cases w with
  | nil => exact absurd rfl hw
  | cons x w =>
    refine mem_run_seq (mem_run_cls (h x (by simp))) ?_
    simp only [Re.run]
    have := mem_starLoop_cls p w (x :: b) rest caps (w ++ rest).length (by simp)
      (fun c hc => h c (by simp [hc]))
    simpa using this

theorem reChangeColor_test_of (pre ws post : Str) (hws : ws ≠ [])
    (hall : ∀ c ∈ ws, isWs c = true) :
    reChangeColor.test (pre ++ (str "change" ++ (ws ++ (str "color" ++ post)))) = true := by
  have hrun : (⟨(str "color").reverse ++ (ws.reverse ++ ((str "change").reverse ++ pre.reverse)),
      post, []⟩ : Cur)
      ∈ reChangeColor.run ⟨pre.reverse, str "change" ++ (ws ++ (str "color" ++ post)), []⟩ := by
    unfold reChangeColor
    refine mem_run_seqs_cons (mem_run_litI "change" (str "change") _ _ [] (by decide)) ?_
    refine mem_run_seqs_cons (mem_run_plus_cls ws _ _ [] hws hall) ?_
    simp only [Re.seqs]
    exact mem_run_litI "color" (str "color") _ _ [] (by decide)
  exact test_of_mem hrun

theorem reUseColor_test_of (pre ws1 w ws2 post : Str) (hws1 : ws1 ≠ [])
    (hall1 : ∀ c ∈ ws1, isWs c = true) (hw : w ≠ []) (hallw : ∀ c ∈ w, isWord c = true)
    (hws2 : ws2 ≠ []) (hall2 : ∀ c ∈ ws2, isWs c = true) :
    reUseColor.test (pre ++ (str "use" ++ (ws1 ++ (w ++ (ws2 ++ (str "color" ++ post))))))
      = true := by
  have hrun : (⟨(str "color").reverse ++ (ws2.reverse ++ (w.reverse ++ (ws1.reverse ++
      ((str "use").reverse ++ pre.reverse)))), post, []⟩ : Cur)
      ∈ reUseColor.run
        ⟨pre.reverse, str "use" ++ (ws1 ++ (w ++ (ws2 ++ (str "color" ++ post)))), []⟩ := by
    unfold reUseColor
    refine mem_run_seqs_cons (mem_run_litI "use" (str "use") _ _ [] (by decide)) ?_
    refine mem_run_seqs_cons (mem_run_plus_cls ws1 _ _ [] hws1 hall1) ?_
    refine mem_run_seqs_cons (mem_run_plus_cls w _ _ [] hw hallw) ?_
    refine mem_run_seqs_cons (mem_run_plus_cls ws2 _ _ [] hws2 hall2) ?_
    simp only [Re.seqs]
    exact mem_run_litI "color" (str "color") _ _ [] (by decide)
  exact test_of_mem hrun

theorem extractColor_of_firstHexCode (s h : Str) (hh : firstHexCode s = some h) :
    extractColorFromRecommendation s = colorOfHex h := by
  have hexec : (reHexGroup.exec s).bind (fun m => m.group 1) = some h := by
    unfold Re.exec
    rw [execFrom_reHexGroup, hh]
  unfold extractColorFromRecommendation
  rw [hexec]
  rfl

theorem extractColor_default (s : Str) (hh : firstHexCode s = none)
    (htest : reRgbTriple.test s = false) :
    extractColorFromRecommendation s = { red := 1, green := 0.6, blue := 0.2, alpha := 1 } := by
  have hrgb : reRgbTriple.exec s = none := by
    unfold Re.test at htest
    cases hx : reRgbTriple.exec s with
    | none => rfl
    | some m => rw [hx] at htest; exact absurd htest (by simp)
  have hexec : (reHexGroup.exec s).bind (fun m => m.group 1) = none := by
    unfold Re.exec
    rw [execFrom_reHexGroup, hh]
  unfold extractColorFromRecommendation
  rw [hexec, hrgb]
  simp only [Color.mk.injEq, true_and, and_true]
  constructor <;> norm_num

/-- C29: let the lower-cased input contain `change`, white space and `color`,
or `use`, white space, a word, white space and `color` (so that it contains
`color`), and let the input contain no `#` with six hexadecimal digits and no
match of `rgb(r,g,b)` with decimal numbers; then the input is classified as a
colour, and the colour is the saffron default of red 1, green 0.6, blue 0.2
and alpha 1, as for `Use blue color`.  And for every input with a hex code the
colour extracted is the one of its first hex code, also when an `rgb()`
literal comes with it, as in `Change color to rgb(1, 2, 3) or #0000FF`. -/
theorem named_color_gives_saffron :
    (∀ s : Str,
      ((∃ pre ws post, toLowerCase s = pre ++ (str "change" ++ (ws ++ (str "color" ++ post))) ∧
          ws ≠ [] ∧ ∀ c ∈ ws, isWs c = true) ∨
       (∃ pre ws1 w ws2 post,
          toLowerCase s = pre ++ (str "use" ++ (ws1 ++ (w ++ (ws2 ++ (str "color" ++ post))))) ∧
          ws1 ≠ [] ∧ (∀ c ∈ ws1, isWs c = true) ∧ w ≠ [] ∧ (∀ c ∈ w, isWord c = true) ∧
          ws2 ≠ [] ∧ ∀ c ∈ ws2, isWs c = true)) →
      firstHexCode s = none → reRgbTriple.test s = false →
      includes (toLowerCase s) (str "color") = true ∧
      parseRecommendation s = .color { red := 1, green := 0.6, blue := 0.2, alpha := 1 }) ∧
    (∀ s h : Str, firstHexCode s = some h →
      extractColorFromRecommendation s = colorOfHex h) ∧
    parseRecommendation (str "Use blue color")
      = .color { red := 1, green := 0.6, blue := 0.2, alpha := 1 } ∧
    reRgbTriple.test (str "Change color to rgb(1, 2, 3) or #0000FF") = true ∧
    parseRecommendation (str "Change color to rgb(1, 2, 3) or #0000FF")
      = .color { red := 0, green := 0, blue := 1, alpha := 1 } ∧
    parseRecommendation (str "Change color to rgb(255, 0, 0)")
      = .color { red := 1, green := 0, blue := 0, alpha := 1 } := by
  have hmain : ∀ s : Str,
      ((∃ pre ws post, toLowerCase s = pre ++ (str "change" ++ (ws ++ (str "color" ++ post))) ∧
          ws ≠ [] ∧ ∀ c ∈ ws, isWs c = true) ∨
       (∃ pre ws1 w ws2 post,
          toLowerCase s = pre ++ (str "use" ++ (ws1 ++ (w ++ (ws2 ++ (str "color" ++ post))))) ∧
          ws1 ≠ [] ∧ (∀ c ∈ ws1, isWs c = true) ∧ w ≠ [] ∧ (∀ c ∈ w, isWord c = true) ∧
          ws2 ≠ [] ∧ ∀ c ∈ ws2, isWs c = true)) →
      firstHexCode s = none → reRgbTriple.test s = false →
      includes (toLowerCase s) (str "color") = true ∧
      parseRecommendation s = .color { red := 1, green := 0.6, blue := 0.2, alpha := 1 } := by
    intro s hform hhex hrgb
    have hkey : includes (toLowerCase s) (str "color") = true ∧
        (reUseColor.test (toLowerCase s) || reChangeColor.test (toLowerCase s)) = true := by
      rcases hform with ⟨pre, ws, post, ht, hws, hall⟩ |
        ⟨pre, ws1, w, ws2, post, ht, hws1, hall1, hw, hallw, hws2, hall2⟩
      · rw [ht]
        refine ⟨?_, ?_⟩
        · rw [includes_iff]
          exact ⟨pre ++ (str "change" ++ ws), post, by simp⟩
        · rw [reChangeColor_test_of pre ws post hws hall]
          simp
      · rw [ht]
        refine ⟨?_, ?_⟩
        · rw [includes_iff]
          exact ⟨pre ++ (str "use" ++ (ws1 ++ (w ++ ws2))), post, by simp⟩
        · rw [reUseColor_test_of pre ws1 w ws2 post hws1 hall1 hw hallw hws2 hall2]
          simp
    refine ⟨hkey.1, ?_⟩
    have hstage : isColorStage (toLowerCase s) = true := by
      unfold isColorStage
      rw [hkey.1]
      rcases Bool.or_eq_true _ _ ▸ hkey.2 with h | h <;> simp [h]
    unfold parseRecommendation
    simp only [hstage, if_true]
    rw [extractColor_default s hhex hrgb]
  refine ⟨hmain, extractColor_of_firstHexCode, ?_, by decide!, ?_, ?_⟩
  · exact (hmain (str "Use blue color") (Or.inr ⟨[], str " ", str "blue", str " ", [],
      by decide!, by decide, by decide, by decide, by decide, by decide, by decide⟩)
      (by decide!) (by decide!)).2
  · have h : parseRecommendation (str "Change color to rgb(1, 2, 3) or #0000FF")
        = .color { red := 0 / 255, green := 0 / 255, blue := 255 / 255, alpha := 1 } := by
      decide!
    rw [h]
    norm_num
  · have h : parseRecommendation (str "Change color to rgb(255, 0, 0)")
        = .color { red := 255 / 255, green := 0 / 255, blue := 0 / 255, alpha := 1 } := by
      decide!
    rw [h]
    norm_num

/-- C29, at a concrete input: `Please CHANGE  Color to maroon` has the form
with `change`, names maroon and gets the saffron default. -/
theorem named_color_gives_saffron_witness :
    includes (toLowerCase (str "Please CHANGE  Color to maroon")) (str "color") = true ∧
    parseRecommendation (str "Please CHANGE  Color to maroon")
      = .color { red := 1, green := 0.6, blue := 0.2, alpha := 1 } :=
  named_color_gives_saffron.1 (str "Please CHANGE  Color to maroon")
    (Or.inl ⟨str "please ", str "  ", str " to maroon", by decide!, by decide, by decide⟩)
    (by decide!) (by decide!)

/-! ### The values of the five factors -/

theorem scoreLanguage_mem (elementData : ElementData) (language : Str) :
    scoreLanguage elementData language ∈ [5, 10, 15, 20, 25, 30] := by
  unfold scoreLanguage
  simp only
  split
  · decide
  · split
    · decide
    · split
      · decide
      · split
        · decide
        · split <;> decide

theorem scoreCulturalElements_mem (elementData : ElementData) (state : Str) (b : Nat)
    (h : scoreCulturalElements elementData state = some b) : b ∈ [5, 10, 15, 20, 25] := by
  unfold scoreCulturalElements at h
  split at h
  · cases h
  · simp only at h
    split at h
    · cases h; decide
    · split at h
      · cases h; decide
      · split at h
        · cases h; decide
        · split at h <;> (cases h; decide)

theorem scoreColors_mem (elementData : ElementData) (state : Str) (c : Nat)
    (h : scoreColors elementData state = some c) : c ∈ [5, 8, 10, 12, 16, 20] := by
  unfold scoreColors at h
  simp only at h
  split at h
  · cases h; decide
  · split at h
    · cases h
    · split at h
      · cases h; decide
      · split at h
        · cases h; decide
        · split at h
          · cases h; decide
          · split at h <;> (cases h; decide)

theorem scoreTypography_mem (elementData : ElementData) (language : Str) (d : Nat)
    (h : scoreTypography elementData language = some d) : d ∈ [0, 5, 8, 10, 15] := by
  unfold scoreTypography at h
  simp only at h
  split at h
  · cases h; decide
  · split at h
    · cases h
    · simp only [Option.some.injEq] at h
      subst h
      split <;> split <;> decide

theorem scoreContent_mem (elementData : ElementData) (state : Str) (e : Nat)
    (h : scoreContent elementData state = some e) : e ∈ [3, 7, 10] := by
  unfold scoreContent at h
  simp only at h
  split at h
  · cases h
  · split at h
    · cases h; decide
    · split at h <;> (cases h; decide)

theorem lookupOrEmpty_isSome {α : Type} (table : List (Str × List α)) (key : Str)
    (h : key ∉ inheritedNames) : ∃ l, lookupOrEmpty table key = some l := by
  unfold lookupOrEmpty
  split
  · exact ⟨_, rfl⟩
  · rw [if_neg (by simpa using h)]
    exact ⟨_, rfl⟩

/-- C30: the language factor is one of 5, 10, 15, 20, 25, 30; whenever they
return, the cultural factor is one of 5, 10, 15, 20, 25, the colour factor one
of 5, 8, 10, 12, 16, 20, the typography factor one of 0, 5, 8, 10, 15 and the
content factor one of 3, 7, 10; every score that `calculateScore` returns is
the plain sum of the five factors and lies between 18 and 100, so that the
clamp changes nothing and no score is below 18; and `calculateScore` does
return a score whenever neither the state nor the language is a name that the
tables inherit from `Object.prototype`. -/
theorem calculateScore_clamp_idle (elementData : ElementData) (state language : Str) :
    scoreLanguage elementData language ∈ [5, 10, 15, 20, 25, 30] ∧
    (∀ b, scoreCulturalElements elementData state = some b → b ∈ [5, 10, 15, 20, 25]) ∧
    (∀ c, scoreColors elementData state = some c → c ∈ [5, 8, 10, 12, 16, 20]) ∧
    (∀ d, scoreTypography elementData language = some d → d ∈ [0, 5, 8, 10, 15]) ∧
    (∀ e, scoreContent elementData state = some e → e ∈ [3, 7, 10]) ∧
    (∀ n, calculateScore elementData state language = some n →
      (∃ b c d e, scoreCulturalElements elementData state = some b ∧
        scoreColors elementData state = some c ∧
        scoreTypography elementData language = some d ∧
        scoreContent elementData state = some e ∧
        n = scoreLanguage elementData language + b + c + d + e) ∧
      18 ≤ n ∧ n ≤ 100) ∧
    (state ∉ inheritedNames → language ∉ inheritedNames →
      ∃ n, calculateScore elementData state language = some n) := by
  refine ⟨scoreLanguage_mem _ _, scoreCulturalElements_mem _ _, scoreColors_mem _ _,
    scoreTypography_mem _ _, scoreContent_mem _ _, ?_, ?_⟩
  · intro n h
    unfold calculateScore at h
    simp only [Option.bind_eq_some, Option.some.injEq] at h
    obtain ⟨a, ha, b, hb, c, hc, d, hd, e, he, hn⟩ := h
    subst ha
    have h1 := scoreLanguage_mem elementData language
    have h2 := scoreCulturalElements_mem _ _ _ hb
    have h3 := scoreColors_mem _ _ _ hc
    have h4 := scoreTypography_mem _ _ _ hd
    have h5 := scoreContent_mem _ _ _ he
    have b1 : 5 ≤ scoreLanguage elementData language ∧ scoreLanguage elementData language ≤ 30 := by
      simp only [List.mem_cons, List.mem_singleton, List.not_mem_nil, or_false] at h1
      omega
    have b2 : 5 ≤ b ∧ b ≤ 25 := by
      simp only [List.mem_cons, List.mem_singleton, List.not_mem_nil, or_false] at h2
      omega
    have b3 : 5 ≤ c ∧ c ≤ 20 := by
      simp only [List.mem_cons, List.mem_singleton, List.not_mem_nil, or_false] at h3
      omega
    have b4 : d ≤ 15 := by
      simp only [List.mem_cons, List.mem_singleton, List.not_mem_nil, or_false] at h4
      omega
    have b5 : 3 ≤ e ∧ e ≤ 10 := by
      simp only [List.mem_cons, List.mem_singleton, List.not_mem_nil, or_false] at h5
      omega
    refine ⟨⟨b, c, d, e, hb, hc, hd, he, ?_⟩, ?_, ?_⟩ <;> omega
  · intro hs hl
    obtain ⟨kw, hkw⟩ := lookupOrEmpty_isSome REGIONAL_KEYWORDS state hs
    obtain ⟨pal, hpal⟩ := lookupOrEmpty_isSome REGIONAL_COLORS state hs
    obtain ⟨fonts, hfonts⟩ := lookupOrEmpty_isSome regionalFonts language hl
    have e2 : ∃ b, scoreCulturalElements elementData state = some b := by
      unfold scoreCulturalElements
      rw [hkw]
      simp only
      split
      · exact ⟨_, rfl⟩
      · split
        · exact ⟨_, rfl⟩
        · split
          · exact ⟨_, rfl⟩
          · split <;> exact ⟨_, rfl⟩
    have e3 : ∃ c, scoreColors elementData state = some c := by
      unfold scoreColors
      rw [hpal]
      simp only
      split
      · exact ⟨_, rfl⟩
      · split
        · exact ⟨_, rfl⟩
        · split
          · exact ⟨_, rfl⟩
          · split
            · exact ⟨_, rfl⟩
            · split <;> exact ⟨_, rfl⟩
    have e4 : ∃ d, scoreTypography elementData language = some d := by
      unfold scoreTypography
      rw [hfonts]
      simp only
      split <;> exact ⟨_, rfl⟩
    have e5 : ∃ e, scoreContent elementData state = some e := by
      unfold scoreContent
      rw [hkw]
      simp only
      split
      · exact ⟨_, rfl⟩
      · split <;> exact ⟨_, rfl⟩
    obtain ⟨b, hb⟩ := e2
    obtain ⟨c, hc⟩ := e3
    obtain ⟨d, hd⟩ := e4
    obtain ⟨e, he⟩ := e5
    exact ⟨_, by unfold calculateScore; rw [hb, hc, hd, he]; rfl⟩

/-- C30, at an element that reaches the lowest score: for Tamil Nadu and
Tamil the factors of `lowestElement` are 5, 5, 5, 0 and 3 and the score is 18. -/
theorem calculateScore_clamp_idle_witness :
    scoreLanguage lowestElement (str "Tamil") = 5 ∧
    ((5 : Nat) ∈ [5, 10, 15, 20, 25]) ∧ ((5 : Nat) ∈ [5, 8, 10, 12, 16, 20]) ∧
    ((0 : Nat) ∈ [0, 5, 8, 10, 15]) ∧ ((3 : Nat) ∈ [3, 7, 10]) ∧
    (18 ≤ 18 ∧ 18 ≤ 100) ∧
    (∃ n, calculateScore lowestElement (str "Tamil Nadu") (str "Tamil") = some n) :=
  ⟨by decide!,
    (calculateScore_clamp_idle lowestElement (str "Tamil Nadu") (str "Tamil")).2.1 5 (by decide!),
    (calculateScore_clamp_idle lowestElement (str "Tamil Nadu") (str "Tamil")).2.2.1 5
      (by decide!),
    (calculateScore_clamp_idle lowestElement (str "Tamil Nadu") (str "Tamil")).2.2.2.1 0
      (by decide!),
    (calculateScore_clamp_idle lowestElement (str "Tamil Nadu") (str "Tamil")).2.2.2.2.1 3
      (by decide!),
    ((calculateScore_clamp_idle lowestElement (str "Tamil Nadu") (str "Tamil")).2.2.2.2.2.1 18
      (by decide!)).2,
    (calculateScore_clamp_idle lowestElement (str "Tamil Nadu") (str "Tamil")).2.2.2.2.2.2
      (by decide) (by decide)⟩

/-! ### Fields on the line of their label -/

theorem indexOfFrom_spec (pat s : Str) (i j : Nat) (h : indexOfFrom pat s i = some j) :
    i ≤ j ∧ pat <+: s.drop (j - i) ∧ ∀ m, m < j - i → ¬ pat <+: s.drop m := by
  induction s generalizing i with
  | nil =>
    simp only [indexOfFrom, List.isPrefixOf_iff_prefix] at h
    split at h
    · rename_i hp
      simp only [Option.some.injEq] at h
      subst h
      simpa using hp
    · cases h
  | cons x xs ih =>
    simp only [indexOfFrom, List.isPrefixOf_iff_prefix] at h
    split at h
    · rename_i hp
      simp only [Option.some.injEq] at h
      subst h
      simpa using hp
    · rename_i hp
      obtain ⟨h1, h2, h3⟩ := ih (i + 1) h
      refine ⟨by omega, ?_, ?_⟩
      · have hj : j - i = (j - (i + 1)) + 1 := by omega
        rw [hj, List.drop_succ_cons]
        exact h2
      · intro m hm
        cases m with
        | zero => simpa using hp
        | succ m =>
          rw [List.drop_succ_cons]
          exact h3 m (by omega)

theorem trim_prefix_dropWhile (l : Str) : trim l <+: l.dropWhile isWs := by
  unfold trim
  have h : (l.dropWhile isWs).reverse.dropWhile isWs <:+ (l.dropWhile isWs).reverse :=
    List.dropWhile_suffix _
  have := List.reverse_prefix.2 h
  simpa using this

theorem trim_ne_concat_ws (l u : Str) (w : Nat) (hw : isWs w = true) : trim l ≠ u ++ [w] := by
  intro h
  unfold trim at h
  have h2 : (l.dropWhile isWs).reverse.dropWhile isWs = w :: u.reverse := by
    have := congrArg List.reverse h
    simpa using this
  have h3 := List.head_dropWhile_not isWs (l.dropWhile isWs).reverse (by rw [h2]; simp)
  simp only [h2, List.head_cons] at h3
  rw [hw] at h3
  exact absurd h3 (by simp)

theorem prefix_trim_of (u rest : Str) (x y : Nat) (xs ys : Str) (h1 : u = x :: xs)
    (h2 : u = ys ++ [y]) (hx : isWs x = false) (hy : isWs y = false) :
    u <+: trim (u ++ rest) := by
  unfold trim
  have e1 : (u ++ rest).dropWhile isWs = u ++ rest := by
    rw [h1]
    simp [List.dropWhile_cons, hx]
  rw [e1, List.reverse_append, List.dropWhile_append]
  have e2 : u.reverse.dropWhile isWs = u.reverse := by
    rw [h2]
    simp [List.dropWhile_cons, hy]
  split
  · rw [e2, List.reverse_reverse]
  · rw [List.reverse_append, List.reverse_reverse]
    exact List.prefix_append _ _

theorem pairStep_label_original (header : Re) (st : PairState) (rest : Str) :
    pairStep header st (str "Original:" ++ rest) = ⟨flush st, some [], none, false⟩ := by
  have h : startsWith (trim (str "Original:" ++ rest)) (str "Original:") = true := by
    unfold startsWith
    rw [List.isPrefixOf_iff_prefix]
    exact prefix_trim_of (str "Original:") rest 79 58 (str "riginal:") (str "Original") (by decide)
      (by decide) (by decide) (by decide)
  unfold pairStep
  simp only [h, if_true]

theorem pairStep_label_suggestion (header : Re) (st : PairState) (rest : Str) :
    pairStep header st (str "AI Suggestion:" ++ rest)
      = { st with collectingSuggestion := true, currentSuggestion := some [] } := by
  have h : str "AI Suggestion:" <+: trim (str "AI Suggestion:" ++ rest) :=
    prefix_trim_of (str "AI Suggestion:") rest 65 58 (str "I Suggestion:") (str "AI Suggestion")
      (by decide) (by decide) (by decide) (by decide)
  have h1 : startsWith (trim (str "AI Suggestion:" ++ rest)) (str "AI Suggestion:") = true := by
    unfold startsWith
    rw [List.isPrefixOf_iff_prefix]
    exact h
  have h2 : startsWith (trim (str "AI Suggestion:" ++ rest)) (str "Original:") = false := by
    obtain ⟨t, ht⟩ := h
    rw [← ht]
    simp [startsWith, str, utf16, List.isPrefixOf]
  unfold pairStep
  simp only [h1, h2, if_true, Bool.false_eq_true, if_false]

theorem flush_quiet (st : PairState) (hout : st.out = [])
    (hcs : truthy st.currentSuggestion = false) : flush st = [] := by
  unfold flush
  rw [hcs, hout]
  simp

theorem pairStep_quiet (header : Re) (st : PairState) (line : Str) (hout : st.out = [])
    (hcs : truthy st.currentSuggestion = false) (hcoll : st.collectingSuggestion = false) :
    (pairStep header st line).out = [] ∧
      truthy (pairStep header st line).currentSuggestion = false := by
  unfold pairStep
  simp only
  split
  · exact ⟨flush_quiet st hout hcs, rfl⟩
  · split
    · exact ⟨hout, rfl⟩
    · split
      · split
        · rename_i hc _
          rw [hcoll] at hc
          cases hc
        · exact ⟨hout, hcs⟩
        · exact ⟨hout, hcs⟩
      · exact ⟨hout, hcs⟩

theorem sectionLines_quiet (header : Re) (a b x : Str) (ha : 10 ∉ a) (hb : 10 ∉ b)
    (hx : x <+: 10 :: ((str "Original: " ++ a) ++ 10 :: ((str "AI Suggestion: " ++ b) ++ [10]))) :
    flush ((splitOn 10 (trim x)).foldl (pairStep header) ⟨[], none, none, false⟩) = [] := by
  have hL2 : ∀ c ∈ str "Original: " ++ a, c ≠ 10 := by
    intro c hc h
    subst h
    rcases List.mem_append.1 hc with h | h
    · revert h; decide
    · exact ha h
  have hL3 : ∀ c ∈ str "AI Suggestion: " ++ b, c ≠ 10 := by
    intro c hc h
    subst h
    rcases List.mem_append.1 hc with h | h
    · revert h; decide
    · exact hb h
  have hO : str "Original: " ++ a = 79 :: (str "riginal: " ++ a) := rfl
  -- the trimmed section is a prefix of the two label lines
  have hdrop : x.dropWhile isWs
      <+: (str "Original: " ++ a) ++ 10 :: ((str "AI Suggestion: " ++ b) ++ [10]) := by
    cases x with
    | nil => exact List.nil_prefix
    | cons c y =>
      rw [List.cons_prefix_cons] at hx
      obtain ⟨hc, hy⟩ := hx
      subst hc
      have h10 : isWs 10 = true := by decide
      simp only [List.dropWhile_cons, h10, if_true]
      cases y with
      | nil => exact List.nil_prefix
      | cons d y2 =>
        have hd : d = 79 := by
          rw [hO, List.cons_append, List.cons_prefix_cons] at hy
          exact hy.1
        subst hd
        have h79 : isWs 79 = false := by decide
        simp only [List.dropWhile_cons, h79, Bool.false_eq_true, if_false]
        exact hy
  have hz : trim x <+: (str "Original: " ++ a) ++ 10 :: (str "AI Suggestion: " ++ b) := by
    have h1 : trim x
        <+: ((str "Original: " ++ a) ++ 10 :: (str "AI Suggestion: " ++ b)) ++ [10] := by
      have := (trim_prefix_dropWhile x).trans hdrop
      simpa using this
    rcases List.prefix_concat_iff.1 h1 with h | h
    · exact absurd h (trim_ne_concat_ws x _ 10 (by decide))
    · exact h
  have hsingle : (∀ c ∈ trim x, c ≠ 10) →
      flush ((splitOn 10 (trim x)).foldl (pairStep header) ⟨[], none, none, false⟩) = [] := by
    intro hno
    rw [splitOn_of_not_mem 10 _ hno]
    simp only [List.foldl_cons, List.foldl_nil]
    obtain ⟨h1, h2⟩ := pairStep_quiet header ⟨[], none, none, false⟩ (trim x) rfl rfl rfl
    exact flush_quiet _ h1 h2
  rcases List.prefix_or_prefix_of_prefix hz (List.prefix_append _ _) with h | h
  · exact hsingle (fun c hc => hL2 c (h.subset hc))
  · obtain ⟨t, ht⟩ := h
    rw [← ht, List.prefix_append_right_inj] at hz
    cases t with
    | nil =>
      apply hsingle
      rw [← ht, List.append_nil]
      exact hL2
    | cons d t2 =>
      rw [List.cons_prefix_cons] at hz
      obtain ⟨hd, ht2⟩ := hz
      subst hd
      have hno : ∀ c ∈ t2, c ≠ 10 := fun c hc => hL3 c (ht2.subset hc)
      rw [← ht, splitOn_append_sep 10 _ _ hL2, splitOn_of_not_mem 10 _ hno]
      simp only [List.foldl_cons, List.foldl_nil]
      have hlab : str "Original: " ++ a = str "Original:" ++ (32 :: a) := by
        simp [str, utf16]
      rw [hlab, pairStep_label_original]
      obtain ⟨h1, h2⟩ := pairStep_quiet header
        ⟨flush ⟨[], none, none, false⟩, some [], none, false⟩ t2 rfl rfl rfl
      exact flush_quiet _ h1 h2

theorem parsePairedSection_sameLine (startMarker endMarker : Str) (header : Re) (a b : Str)
    (hs : startMarker ≠ []) (h10 : 10 ∉ endMarker) (hse : ¬ endMarker <:+: startMarker)
    (ha : 10 ∉ a) (hb : 10 ∉ b) :
    parsePairedSection startMarker endMarker header
      (sameLineSection startMarker endMarker a b) = [] := by
  have hblob : sameLineSection startMarker endMarker a b
      = startMarker ++ (10 :: ((str "Original: " ++ a) ++
          10 :: ((str "AI Suggestion: " ++ b) ++ [10])) ++ endMarker) := by
    have hn : str "\n" = [10] := by decide
    simp [sameLineSection, hn]
  generalize hT : (10 :: ((str "Original: " ++ a) ++
      10 :: ((str "AI Suggestion: " ++ b) ++ [10])) : Str) = T at hblob
  have hTcons : ∃ T2, T = 10 :: T2 := ⟨_, hT.symm⟩
  have hstart : indexOf (startMarker ++ (T ++ endMarker)) startMarker = some 0 := by
    have key := indexOfFrom_append startMarker [] (T ++ endMarker) 0 hs (by intro k hk; simp at hk)
    unfold indexOf
    simpa using key
  have hsome : (indexOf (startMarker ++ (T ++ endMarker)) endMarker).isSome = true := by
    unfold indexOf
    rw [indexOfFrom_isSome]
    exact ⟨startMarker ++ T, [], by simp⟩
  obtain ⟨k, hk⟩ := Option.isSome_iff_exists.1 hsome
  obtain ⟨-, hpre, hmin⟩ := indexOfFrom_spec endMarker _ 0 k hk
  simp only [Nat.sub_zero] at hpre hmin
  have hk1 : startMarker.length < k := by
    by_contra hcon
    have hle : k ≤ startMarker.length := by omega
    obtain ⟨T2, hT2⟩ := hTcons
    rw [List.drop_append_of_le_length hle, hT2, List.cons_append] at hpre
    have := prefix_of_append_sep endMarker _ _ 10 h10 hpre
    exact hse (this.isInfix.trans (List.drop_suffix k startMarker).isInfix)
  have hk2 : k ≤ startMarker.length + T.length := by
    by_contra hcon
    have hlt : startMarker.length + T.length < k := by omega
    have h := hmin _ hlt
    apply h
    have e : List.drop (startMarker.length + T.length) (startMarker ++ (T ++ endMarker))
        = endMarker := by
      rw [← List.append_assoc]
      simp
    rw [e]
  have hX : substring (startMarker ++ (T ++ endMarker)) (0 + startMarker.length) k <+: T := by
    unfold substring
    have e1 : max (0 + startMarker.length) k = k := by omega
    have e2 : min (0 + startMarker.length) k = startMarker.length := by omega
    rw [e1, e2, List.take_append_eq_append_take, List.take_of_length_le (by omega),
      List.drop_left, List.take_append_of_le_length (by omega)]
    exact List.take_prefix _ _
  unfold parsePairedSection
  rw [hblob, hstart, hk]
  simp only
  subst hT
  exact sectionLines_quiet header a b _ ha hb hX

/-- C26: a line that begins with `Original:` or `AI Suggestion:` changes the
state of the line loop in a way that does not depend on the rest of the line;
hence for all `a` and `b` without a line feed, empty or not, each of the three
parsers returns the empty list on the four lines of its start marker,
`Original: a`, `AI Suggestion: b` and its end marker, while fields on the
lines that follow the labels are returned. -/
theorem same_line_fields_are_discarded (a b : Str) (ha : 10 ∉ a) (hb : 10 ∉ b) :
    parseStyleSuggestions (sameLineSection (str "STYLE_SUGGESTIONS_START")
      (str "STYLE_SUGGESTIONS_END") a b) = [] ∧
    parseTextSuggestions (sameLineSection (str "TEXT_SUGGESTIONS_START")
      (str "TEXT_SUGGESTIONS_END") a b) = [] ∧
    parseColorSuggestions (sameLineSection (str "COLOR_SUGGESTIONS_START")
      (str "COLOR_SUGGESTIONS_END") a b) = [] ∧
    (∀ (header : Re) (st : PairState) (rest : Str),
      pairStep header st (str "Original:" ++ rest) = ⟨flush st, some [], none, false⟩ ∧
      pairStep header st (str "AI Suggestion:" ++ rest)
        = { st with collectingSuggestion := true, currentSuggestion := some [] }) ∧
    parseStyleSuggestions (str
      "STYLE_SUGGESTIONS_START\nOriginal: x\nArial\nAI Suggestion: y\nLato\nSTYLE_SUGGESTIONS_END")
      = [⟨str "Arial", str "Lato"⟩] := by
  refine ⟨?_, ?_, ?_, ?_, by decide!⟩
  · exact parsePairedSection_sameLine _ _ _ a b (by decide) (by decide)
      (by rw [← includes_iff]; decide) ha hb
  · unfold parseTextSuggestions
    rw [parsePairedSection_sameLine _ _ _ a b (by decide) (by decide)
      (by rw [← includes_iff]; decide) ha hb]
    rfl
  · exact parsePairedSection_sameLine _ _ _ a b (by decide) (by decide)
      (by rw [← includes_iff]; decide) ha hb
  · intro header st rest
    exact ⟨pairStep_label_original header st rest, pairStep_label_suggestion header st rest⟩

/-- C26, for the fields `Helvetica` and `Noto Sans Tamil`. -/
theorem same_line_fields_are_discarded_witness :
    parseStyleSuggestions (sameLineSection (str "STYLE_SUGGESTIONS_START")
      (str "STYLE_SUGGESTIONS_END") (str "Helvetica") (str "Noto Sans Tamil")) = [] ∧
    parseTextSuggestions (sameLineSection (str "TEXT_SUGGESTIONS_START")
      (str "TEXT_SUGGESTIONS_END") (str "Helvetica") (str "Noto Sans Tamil")) = [] ∧
    parseColorSuggestions (sameLineSection (str "COLOR_SUGGESTIONS_START")
      (str "COLOR_SUGGESTIONS_END") (str "Helvetica") (str "Noto Sans Tamil")) = [] :=
  ⟨(same_line_fields_are_discarded (str "Helvetica") (str "Noto Sans Tamil")
      (by decide) (by decide)).1,
    (same_line_fields_are_discarded (str "Helvetica") (str "Noto Sans Tamil")
      (by decide) (by decide)).2.1,
    (same_line_fields_are_discarded (str "Helvetica") (str "Noto Sans Tamil")
      (by decide) (by decide)).2.2.1⟩

end Variance
